import Mathlib

/-!
Verification of the atom-db serialization engine and SQL layer.

This file shallowly embeds the Python sources `atomdb/base.py` and
`atomdb/sql.py`:

* Python values handled by the JSON serializer become the inductive type
  `PyVal`; a `Model`/`JSONModel` instance is a `pmodel` node carrying its
  `__model__` name, `__ref__` token, `_id` value, `__restored__` flag and the
  persisted fields in `__fields__` order.
* `JSONSerializer.flatten` / `JSONSerializer.flatten_object` /
  `Model.__getstate__` become the mutual functions `flatten`,
  `flatten_object`, `getstate`; the mutable `scope` dict becomes explicitly
  threaded state (on the flatten side only key membership matters, so the
  scope is a list of reference tokens).
* `ModelSerializer.unflatten` / `unflatten_object` / `Model.__restorestate__`
  become the mutual functions `unflatten`, `unflatten_object`,
  `restorestate`; Python exceptions become `Except String` results that also
  return the (already mutated) scope, matching the in-place mutation
  semantics of the source.

Modeling notes, applying to the whole file:
* Reference tokens (`__ref__`) and ids are strings, as on `JSONModel`; the
  random fresh token produced by `getrandbits` in `cls.__new__` is modeled
  as `""` (every settled claim either overwrites or ignores it).
* A class is described by `ClassInfo`: its persisted `__fields__`, the
  member defaults of a fresh instance, the `setstate_order` metadata tags
  and the `__on_error__` policy.  Members are modeled as `_id`, `__ref__`,
  `__restored__` plus the persisted fields; custom `flatten`/`unflatten`
  metadata functions and additional non-stored members are not modeled.
  User fields are modeled as `Value` members (`setattr` accepts any value);
  the typed base members `_id`/`__ref__`/`__restored__` validate as in atom.
* `datetime` component range validation and timezone arguments are outside
  the model; coercer keyword matching is modeled exactly.
* Python object aliasing is modeled by re-inserting the object under its
  scope key after each mutation, which coincides with the source semantics
  whenever an in-progress object is not looked up through the scope (always
  the case for acyclic inputs, the only inputs the settled unflatten claims
  quantify over).
-/

namespace AtomDB

/-- Values manipulated by the serializer: JSON-native scalars, the non-native
scalar kinds tagged by `JSONSerializer.flatten` (date, time, datetime, bytes,
decimal, UUID), lists, string-keyed dicts, and model instances. -/
inductive PyVal : Type where
  | none : PyVal
  | int : Int → PyVal
  | str : String → PyVal
  | bool : Bool → PyVal
  | pydate : Int → Int → Int → PyVal
  | pytime : Int → Int → Int → Int → PyVal
  | pydatetime : Int → Int → Int → Int → Int → Int → Int → PyVal
  | pybytes : List Nat → PyVal
  | pydecimal : String → PyVal
  | pyuuid : String → PyVal
  | plist : List PyVal → PyVal
  | pdict : List (String × PyVal) → PyVal
  | pmodel : String → String → String → Bool → List (String × PyVal) → PyVal
  deriving Repr

mutual

/-- Structural equality of values (Lean's `DecidableEq` deriving does not
handle this nested inductive, so equality is defined by hand). -/
def pyEq : PyVal → PyVal → Bool
  | .none, .none => true
  | .int a, .int b => a == b
  | .str a, .str b => a == b
  | .bool a, .bool b => a == b
  | .pydate a b c, .pydate a' b' c' => a == a' && b == b' && c == c'
  | .pytime a b c d, .pytime a' b' c' d' => a == a' && b == b' && c == c' && d == d'
  | .pydatetime a b c d e f g, .pydatetime a' b' c' d' e' f' g' =>
    a == a' && b == b' && c == c' && d == d' && e == e' && f == f' && g == g'
  | .pybytes a, .pybytes b => a == b
  | .pydecimal a, .pydecimal b => a == b
  | .pyuuid a, .pyuuid b => a == b
  | .plist xs, .plist ys => pyEqList xs ys
  | .pdict xs, .pdict ys => pyEqKVs xs ys
  | .pmodel c r i re fs, .pmodel c' r' i' re' fs' =>
    c == c' && r == r' && i == i' && re == re' && pyEqKVs fs fs'
  | _, _ => false

def pyEqList : List PyVal → List PyVal → Bool
  | [], [] => true
  | x :: xs, y :: ys => pyEq x y && pyEqList xs ys
  | _, _ => false

def pyEqKVs : List (String × PyVal) → List (String × PyVal) → Bool
  | [], [] => true
  | (k, v) :: xs, (k', v') :: ys => k == k' && pyEq v v' && pyEqKVs xs ys
  | _, _ => false

end

set_option maxHeartbeats 3200000 in
theorem pyEq_iff_aux :
    ∀ n, ∀ a : PyVal, sizeOf a ≤ n → ∀ b, (pyEq a b = true ↔ a = b) := by
  intro n
  induction n with
  | zero => intro a ha; cases a <;> simp at ha
  | succ n ih =>
    have ihList : ∀ xs : List PyVal, sizeOf xs ≤ n + 1 →
        ∀ ys, (pyEqList xs ys = true ↔ xs = ys) := by
      intro xs
      induction xs with
      | nil => intro _ ys; cases ys <;> simp [pyEqList]
      | cons x t iht =>
        intro hs ys
        cases ys with
        | nil => simp [pyEqList]
        | cons y u =>
          have hx : sizeOf x ≤ n := by simp at hs; omega
          have ht : sizeOf t ≤ n + 1 := by simp at hs; omega
          simp [pyEqList, ih x hx y, iht ht u]
    have ihKVs : ∀ xs : List (String × PyVal), sizeOf xs ≤ n + 1 →
        ∀ ys, (pyEqKVs xs ys = true ↔ xs = ys) := by
      intro xs
      induction xs with
      | nil => intro _ ys; cases ys <;> simp [pyEqKVs]
      | cons x t iht =>
        intro hs ys
        obtain ⟨k, v⟩ := x
        cases ys with
        | nil => simp [pyEqKVs]
        | cons y u =>
          obtain ⟨k', v'⟩ := y
          have hx : sizeOf v ≤ n := by simp at hs; omega
          have ht : sizeOf t ≤ n + 1 := by simp at hs; omega
          simp [pyEqKVs, ih v hx v', iht ht u, and_assoc]
    intro a ha b
    cases a <;> cases b <;> (try (simp [pyEq, and_assoc]; done))
    case plist.plist xs ys =>
      have h := ihList xs (by simp at ha; omega) ys
      simp [pyEq, h]
    case pdict.pdict xs ys =>
      have h := ihKVs xs (by simp at ha; omega) ys
      simp [pyEq, h]
    case pmodel.pmodel c r i re fs c' r' i' re' fs' =>
      have h := ihKVs fs (by simp at ha; omega) fs'
      simp [pyEq, h, and_assoc]

theorem pyEq_iff (a b : PyVal) : pyEq a b = true ↔ a = b :=
  pyEq_iff_aux (sizeOf a) a le_rfl b

instance : DecidableEq PyVal := fun a b => decidable_of_iff _ (pyEq_iff a b)

/-- Python truthiness (`if _id:`, `if py_type:`).  Dates, times, decimals,
UUIDs and model instances are treated as truthy; a `__py__` entry holding a
zero `Decimal` cannot be produced by `flatten`, so the approximation is
invisible to the modeled code paths. -/
def pyTruthy : PyVal → Bool
  | .none => false
  | .int n => n != 0
  | .str s => s != ""
  | .bool b => b
  | .pybytes bs => !bs.isEmpty
  | .plist xs => !xs.isEmpty
  | .pdict kvs => !kvs.isEmpty
  | _ => true

/-! ### Association-list model of Python dicts

Keys of all dicts handled by the serializer are strings.  `dictSet` is
`d[k] = v` (update in place, else append, preserving insertion order),
`eraseKey` is `d.pop(k)`, `lookupKV` is `d.get(k)`. -/

def lookupKV {α : Type} (k : String) : List (String × α) → Option α
  | [] => Option.none
  | (k', v) :: t => if k' = k then some v else lookupKV k t

def dictSet {α : Type} (k : String) (v : α) : List (String × α) → List (String × α)
  | [] => [(k, v)]
  | (k', v') :: t => if k' = k then (k, v) :: t else (k', v') :: dictSet k v t

def eraseKey {α : Type} (k : String) : List (String × α) → List (String × α)
  | [] => []
  | (k', v') :: t => if k' = k then t else (k', v') :: eraseKey k t

def hasKey {α : Type} (k : String) (l : List (String × α)) : Bool :=
  (lookupKV k l).isSome

theorem lookupKV_sizeOf {k : String} {l : List (String × PyVal)} {v : PyVal}
    (h : lookupKV k l = some v) : sizeOf v < sizeOf l := by
  induction l with
  | nil => simp [lookupKV] at h
  | cons hd t ih =>
    obtain ⟨k', v'⟩ := hd
    simp only [lookupKV] at h
    split at h
    · cases h; simp; omega
    · have := ih h; simp; omega

theorem eraseKey_sizeOf_le {k : String} (l : List (String × PyVal)) :
    sizeOf (eraseKey k l) ≤ sizeOf l := by
  induction l with
  | nil => simp [eraseKey]
  | cons hd t ih =>
    obtain ⟨k', v'⟩ := hd
    simp only [eraseKey]
    split
    · simp
    · simp; omega

/-! ### base64 (the `b64encode`/`b64decode` collaborators from the Python
standard library, used by the `bytes` flattening and coercer) -/

def b64chars : List Char :=
  "ABCDEFGHIJKLMNOPQRSTUVWXYZabcdefghijklmnopqrstuvwxyz0123456789+/".toList

def encChar (n : Nat) : Char := b64chars.getD n 'A'

def decChar (c : Char) : Nat := b64chars.indexOf c

def b64encodeChunks : List Nat → List Char
  | [] => []
  | [a] => [encChar (a / 4), encChar (a % 4 * 16), '=', '=']
  | [a, b] => [encChar (a / 4), encChar (a % 4 * 16 + b / 16), encChar (b % 16 * 4), '=']
  | a :: b :: c :: t =>
    encChar (a / 4) :: encChar (a % 4 * 16 + b / 16) :: encChar (b % 16 * 4 + c / 64) ::
      encChar (c % 64) :: b64encodeChunks t

def isB64Char (c : Char) : Bool := b64chars.contains c

def b64decodeChunks : List Char → Except String (List Nat)
  | [] => .ok []
  | w :: x :: y :: z :: t =>
    if y == '=' && z == '=' && t.isEmpty then
      if isB64Char w && isB64Char x then .ok [decChar w * 4 + decChar x / 16]
      else .error "binascii.Error: Invalid base64-encoded string"
    else if z == '=' && t.isEmpty then
      if isB64Char w && isB64Char x && isB64Char y then
        .ok [decChar w * 4 + decChar x / 16, decChar x % 16 * 16 + decChar y / 4]
      else .error "binascii.Error: Invalid base64-encoded string"
    else
      if isB64Char w && isB64Char x && isB64Char y && isB64Char z then
        match b64decodeChunks t with
        | .ok bs =>
          .ok ((decChar w * 4 + decChar x / 16) :: (decChar x % 16 * 16 + decChar y / 4) ::
            (decChar y % 4 * 64 + decChar z) :: bs)
        | .error e => .error e
      else .error "binascii.Error: Invalid base64-encoded string"
  | _ => .error "binascii.Error: Invalid padding"

def b64encode (bs : List Nat) : String := String.mk (b64encodeChunks bs)

def b64decode (s : String) : Except String (List Nat) := b64decodeChunks s.toList

theorem decChar_encChar_all : ∀ n, n < 64 → decChar (encChar n) = n := by decide

theorem isB64Char_encChar_all : ∀ n, n < 64 → isB64Char (encChar n) = true := by decide

theorem encChar_ne_eq_all : ∀ n, n < 64 → encChar n ≠ '=' := by decide

theorem decChar_encChar {n : Nat} (h : n < 64) : decChar (encChar n) = n :=
  decChar_encChar_all n h

theorem isB64Char_encChar {n : Nat} (h : n < 64) : isB64Char (encChar n) = true :=
  isB64Char_encChar_all n h

theorem encChar_ne_eq {n : Nat} (h : n < 64) : encChar n ≠ '=' :=
  encChar_ne_eq_all n h

theorem encChar_beq_pad {n : Nat} (h : n < 64) : (encChar n == '=') = false := by
  simp [encChar_ne_eq h]

/-- `b64decode (b64encode bs) = bs` for byte lists (each element `< 256`).
This is the standard-library collaborator contract needed by the `bytes`
round trip. -/
theorem b64_roundtrip : ∀ bs : List Nat, (∀ b ∈ bs, b < 256) →
    b64decodeChunks (b64encodeChunks bs) = .ok bs := by
  intro bs
  induction bs using b64encodeChunks.induct with
  | case1 => intro _; rfl
  | case2 a =>
    intro h
    have ha : a < 256 := h a (by simp)
    have h1 : a / 4 < 64 := by omega
    have h2 : a % 4 * 16 < 64 := by omega
    have e1 : decChar (encChar (a / 4)) * 4 + decChar (encChar (a % 4 * 16)) / 16 = a := by
      rw [decChar_encChar h1, decChar_encChar h2]; omega
    simp only [b64encodeChunks, b64decodeChunks, isB64Char_encChar h1,
      isB64Char_encChar h2, Bool.and_self, List.isEmpty_nil, if_true, e1]
    simp
  | case3 a b =>
    intro h
    have ha : a < 256 := h a (by simp)
    have hb : b < 256 := h b (by simp)
    have h1 : a / 4 < 64 := by omega
    have h2 : a % 4 * 16 + b / 16 < 64 := by omega
    have h3 : b % 16 * 4 < 64 := by omega
    have e1 : decChar (encChar (a / 4)) * 4 + decChar (encChar (a % 4 * 16 + b / 16)) / 16 = a := by
      rw [decChar_encChar h1, decChar_encChar h2]; omega
    have e2 : decChar (encChar (a % 4 * 16 + b / 16)) % 16 * 16 +
        decChar (encChar (b % 16 * 4)) / 4 = b := by
      rw [decChar_encChar h2, decChar_encChar h3]; omega
    simp only [b64encodeChunks, b64decodeChunks, encChar_beq_pad h3, Bool.false_and,
      Bool.if_false_left, isB64Char_encChar h1, isB64Char_encChar h2, isB64Char_encChar h3,
      Bool.and_self, List.isEmpty_nil, Bool.and_true, Bool.true_and,
      Bool.not_false, if_true, e1, e2]
    simp
  | case4 a b c t ih =>
    intro h
    have ha : a < 256 := h a (by simp)
    have hb : b < 256 := h b (by simp)
    have hc : c < 256 := h c (by simp)
    have h1 : a / 4 < 64 := by omega
    have h2 : a % 4 * 16 + b / 16 < 64 := by omega
    have h3 : b % 16 * 4 + c / 64 < 64 := by omega
    have h4 : c % 64 < 64 := by omega
    have ht := ih (fun x hx => h x (by simp [hx]))
    have e1 : decChar (encChar (a / 4)) * 4 + decChar (encChar (a % 4 * 16 + b / 16)) / 16 = a := by
      rw [decChar_encChar h1, decChar_encChar h2]; omega
    have e2 : decChar (encChar (a % 4 * 16 + b / 16)) % 16 * 16 +
        decChar (encChar (b % 16 * 4 + c / 64)) / 4 = b := by
      rw [decChar_encChar h2, decChar_encChar h3]; omega
    have e3 : decChar (encChar (b % 16 * 4 + c / 64)) % 4 * 64 +
        decChar (encChar (c % 64)) = c := by
      rw [decChar_encChar h3, decChar_encChar h4]; omega
    simp only [b64encodeChunks, b64decodeChunks, encChar_beq_pad h3, encChar_beq_pad h4,
      Bool.false_and, Bool.and_false, Bool.if_false_left, Bool.not_false,
      isB64Char_encChar h1, isB64Char_encChar h2, isB64Char_encChar h3, isB64Char_encChar h4,
      Bool.and_self, Bool.true_and, if_true, ht, e1, e2, e3]
    simp

/-! ### Model classes

`ClassInfo` packages what the embedding needs to know about a `JSONModel`
subclass: the ordered persisted `__fields__` (as computed by `ModelMeta`
from `is_db_field`), the default member values a fresh `cls.__new__(cls)`
instance carries, any `setstate_order` metadata tags, and the class's
`__on_error__` policy string. -/
structure ClassInfo where
  fields : List String
  defaults : List (String × PyVal)
  setstate_order : List (String × Int)
  on_error : String

/-- The serializer registry (`ModelSerializer.registry`): model name to
class. -/
def Registry : Type := List (String × ClassInfo)

/-- `self.members()` membership for the modeled classes: the persisted
fields plus the base members `_id`, `__ref__` and `__restored__`. -/
def isMember (ci : ClassInfo) (k : String) : Bool :=
  k == "_id" || k == "__ref__" || k == "__restored__" || ci.fields.contains k

/-- `scope[ref] = obj` on the flatten side, where only key membership is
ever read (values of the scope are never used while flattening). -/
def insertRef (r : String) (scope : List String) : List String :=
  if r ∈ scope then scope else scope ++ [r]

set_option maxHeartbeats 1600000 in
mutual

/-- `JSONSerializer.flatten` (falling through to `ModelSerializer.flatten`):
tags non-JSON-native scalars with a `__py__` record, recurses through models,
lists and dicts, and passes everything else through unchanged.  The scope
threads left-to-right exactly as the mutable dict does in the source. -/
def flatten (v : PyVal) (scope : List String) : PyVal × List String :=
  match v with
  | .pydate y m d =>
    (.pdict [("__py__", .str "datetime.date"), ("year", .int y), ("month", .int m),
      ("day", .int d)], scope)
  | .pydatetime y mo d h mi s us =>
    (.pdict [("__py__", .str "datetime.datetime"), ("year", .int y), ("month", .int mo),
      ("day", .int d), ("hour", .int h), ("minute", .int mi), ("second", .int s),
      ("microsecond", .int us)], scope)
  | .pytime h mi s us =>
    (.pdict [("__py__", .str "datetime.time"), ("hour", .int h), ("minute", .int mi),
      ("second", .int s), ("microsecond", .int us)], scope)
  | .pybytes bs => (.pdict [("__py__", .str "bytes"), ("bytes", .str (b64encode bs))], scope)
  | .pydecimal s => (.pdict [("__py__", .str "decimal"), ("value", .str s)], scope)
  | .pyuuid s => (.pdict [("__py__", .str "uuid"), ("id", .str s)], scope)
  | .pmodel c r i re fs => flatten_object c r i re fs scope
  | .plist xs =>
    let p := flattenList xs scope
    (.plist p.1, p.2)
  | .pdict kvs =>
    let p := flattenKVs kvs scope
    (.pdict p.1, p.2)
  | v => (v, scope)

def flattenList (xs : List PyVal) (scope : List String) : List PyVal × List String :=
  match xs with
  | [] => ([], scope)
  | x :: t =>
    let p := flatten x scope
    let q := flattenList t p.2
    (p.1 :: q.1, q.2)

def flattenKVs (kvs : List (String × PyVal)) (scope : List String) :
    List (String × PyVal) × List String :=
  match kvs with
  | [] => ([], scope)
  | (k, v) :: t =>
    let p := flatten v scope
    let q := flattenKVs t p.2
    ((k, p.1) :: q.1, q.2)

/-- `Model.__getstate__`: registers the instance's reference token, then
builds the state dict `{__model__, __ref__, _id, fields...}` in declaration
order.  On `JSONModel` the `_id` member is a `Str`, never `None`, so the
`_id` entry is always present. -/
def getstate (c r i : String) (fs : List (String × PyVal)) (scope : List String) :
    List (String × PyVal) × List String :=
  let p := flattenKVs fs (insertRef r scope)
  ([("__model__", .str c), ("__ref__", .str r), ("_id", .str i)] ++ p.1, p.2)

/-- `JSONSerializer.flatten_object`: a reference token already in scope short
circuits to `{__ref__, __model__}`; otherwise the instance is registered and
serialized, and a truthy `_id` degrades the result to the
`{_id, __ref__, __model__}` reference record. -/
def flatten_object (c r i : String) (_re : Bool) (fs : List (String × PyVal))
    (scope : List String) : PyVal × List String :=
  if r ∈ scope then (.pdict [("__ref__", .str r), ("__model__", .str c)], scope)
  else
    let p := getstate c r i fs (insertRef r scope)
    match lookupKV "_id" p.1 with
    | some idw =>
      if pyTruthy idw then
        (.pdict [("_id", idw), ("__ref__", .str r), ("__model__", .str c)], p.2)
      else (.pdict p.1, p.2)
    | Option.none => (.pdict p.1, p.2)

end

/-- The value of an object graph after every model node's `__restored__`
flag has been set (as `__restorestate__` does on each reconstructed
instance). -/
def markRestored (v : PyVal) : PyVal :=
  match v with
  | .pmodel c r i _ fs => .pmodel c r i true (markRestoredKVs fs)
  | .plist xs => .plist (markRestoredList xs)
  | .pdict kvs => .pdict (markRestoredKVs kvs)
  | v => v
where
  markRestoredList : List PyVal → List PyVal
    | [] => []
    | x :: t => markRestored x :: markRestoredList t
  markRestoredKVs : List (String × PyVal) → List (String × PyVal)
    | [] => []
    | (k, x) :: t => (k, markRestored x) :: markRestoredKVs t

theorem eraseKey_sizeOf_lt {k : String} {l : List (String × PyVal)} {w : PyVal}
    (h : lookupKV k l = some w) : sizeOf (eraseKey k l) < sizeOf l := by
  induction l with
  | nil => simp [lookupKV] at h
  | cons hd t ih =>
    obtain ⟨k', v'⟩ := hd
    simp only [lookupKV] at h
    split at h
    next hkk =>
      simp only [eraseKey, if_pos hkk]
      simp
    next hkk =>
      have := ih h
      simp only [eraseKey, if_neg hkk]
      simp
      omega

/-! ### The unflatten side

`ModelSerializer.unflatten` is async and raises; the embedding returns
`Except String PyVal` along with the updated `UState` (the scope dict and
the log of caught restoration errors), so that mutations made before an
exception are retained exactly as in the source. -/

/-- A model instance under construction (`cls.__new__(cls)` then repeated
`setattr`), before it is reinserted into a `PyVal` graph. -/
structure MObj where
  cls : String
  ref : String
  id : String
  restored : Bool
  fields : List (String × PyVal)

def objVal (o : MObj) : PyVal := .pmodel o.cls o.ref o.id o.restored o.fields

/-- The threaded mutable state of one unflatten pass: the scope dict plus
the `logger.debug` entries (model name, field) emitted by
`__restorestate__` under the `log` error policy. -/
structure UState where
  scope : List (String × PyVal)
  logs : List (String × String)

/-- Result of `Model.__restorestate__`: the outcome, the (possibly
partially) mutated instance, and the threaded state. -/
structure RRes where
  result : Except String Unit
  obj : MObj
  ustate : UState

/-- `cls.__new__(cls)`: members carry their defaults.  The random fresh
`__ref__` token is modeled as `""`; `JSONModel` declares
`__restored__ = set_default(True)` and `_id = Str()`. -/
def newObj (n : String) (ci : ClassInfo) : MObj :=
  ⟨n, "", "", true, ci.defaults⟩

/-- `setattr(self, k, v)`.  The typed base members validate their values as
the atom members do; persisted user fields are modeled as `Value` members
and accept anything. -/
def setAttr (ci : ClassInfo) (obj : MObj) (k : String) (w : PyVal) : Except String MObj :=
  if k = "_id" then
    match w with
    | .str s => .ok { obj with id := s }
    | _ => .error "TypeError: _id must be a str"
  else if k = "__ref__" then
    match w with
    | .str s => .ok { obj with ref := s }
    | _ => .error "TypeError: __ref__ must be a str"
  else if k = "__restored__" then
    match w with
    | .bool b => .ok { obj with restored := b }
    | _ => .error "TypeError: __restored__ must be a bool"
  else if ci.fields.contains k then .ok { obj with fields := dictSet k w obj.fields }
  else .error "AttributeError"

/-- `setstate_order` metadata with its default of `1000`. -/
def orderOf (ci : ClassInfo) (k : String) : Int :=
  (lookupKV k ci.setstate_order).getD 1000

/-- The `valid_keys` list of `__restorestate__`: `(order, key)` for every
state key that is an atom member, in state insertion order. -/
def validKeys (ci : ClassInfo) (state : List (String × PyVal)) : List (Int × String) :=
  state.filterMap (fun kv => if isMember ci kv.1 then some (orderOf ci kv.1, kv.1) else Option.none)

/-- Stable insertion sort by the order component
(`valid_keys.sort(key=lambda it: it[0])`). -/
def insOrd (x : Int × String) : List (Int × String) → List (Int × String)
  | [] => [x]
  | y :: t => if x.1 ≤ y.1 then x :: y :: t else y :: insOrd x t

def sortByOrder : List (Int × String) → List (Int × String)
  | [] => []
  | x :: t => insOrd x (sortByOrder t)

/-- `scope[ref] = self`: the scope entry for the object's reference token is
an alias of the object in the source, so every mutation of the object is
re-published under the token here. -/
def aliasUpdate (refk : Option String) (obj : MObj) (us : UState) : UState :=
  match refk with
  | some r => { us with scope := dictSet r (objVal obj) us.scope }
  | Option.none => us

/-! #### The scalar coercers (`ModelSerializer.coercers`) -/

/-- An integer keyword argument required by the callable (`date(**s)`). -/
def reqIntKV (kvs : List (String × PyVal)) (k : String) : Except String Int :=
  match lookupKV k kvs with
  | some (.int n) => .ok n
  | some _ => .error ("TypeError: an integer is required for " ++ k)
  | Option.none => .error ("TypeError: missing required argument " ++ k)

/-- An optional integer keyword argument defaulting to `0`
(`datetime(**s)` / `time(**s)` clock components). -/
def optIntKV (kvs : List (String × PyVal)) (k : String) : Except String Int :=
  match lookupKV k kvs with
  | some (.int n) => .ok n
  | some _ => .error ("TypeError: an integer is required for " ++ k)
  | Option.none => .ok 0

def keysWithin (kvs : List (String × PyVal)) (allowed : List String) : Bool :=
  kvs.all (fun kv => allowed.contains kv.1)

/-- `lambda s: date(**s)` -/
def coerce_date (kvs : List (String × PyVal)) : Except String PyVal :=
  if keysWithin kvs ["year", "month", "day"] then do
    let y ← reqIntKV kvs "year"
    let m ← reqIntKV kvs "month"
    let d ← reqIntKV kvs "day"
    .ok (.pydate y m d)
  else .error "TypeError: date() got an unexpected keyword argument"

/-- `lambda s: datetime(**s)` -/
def coerce_datetime (kvs : List (String × PyVal)) : Except String PyVal :=
  if keysWithin kvs ["year", "month", "day", "hour", "minute", "second", "microsecond"] then do
    let y ← reqIntKV kvs "year"
    let mo ← reqIntKV kvs "month"
    let d ← reqIntKV kvs "day"
    let h ← optIntKV kvs "hour"
    let mi ← optIntKV kvs "minute"
    let s ← optIntKV kvs "second"
    let us ← optIntKV kvs "microsecond"
    .ok (.pydatetime y mo d h mi s us)
  else .error "TypeError: datetime() got an unexpected keyword argument"

/-- `lambda s: time(**s)` -/
def coerce_time (kvs : List (String × PyVal)) : Except String PyVal :=
  if keysWithin kvs ["hour", "minute", "second", "microsecond"] then do
    let h ← optIntKV kvs "hour"
    let mi ← optIntKV kvs "minute"
    let s ← optIntKV kvs "second"
    let us ← optIntKV kvs "microsecond"
    .ok (.pytime h mi s us)
  else .error "TypeError: time() got an unexpected keyword argument"

/-- `lambda s: b64decode(s["bytes"])` -/
def coerce_bytes (kvs : List (String × PyVal)) : Except String PyVal :=
  match lookupKV "bytes" kvs with
  | some (.str s) =>
    match b64decode s with
    | .ok bs => .ok (.pybytes bs)
    | .error e => .error e
  | some _ => .error "TypeError: argument should be an ASCII string"
  | Option.none => .error "KeyError: bytes"

/-- `lambda s: Decimal(s["value"])`.  Decimal objects are modeled by their
canonical strings, so only string arguments are represented. -/
def coerce_decimal (kvs : List (String × PyVal)) : Except String PyVal :=
  match lookupKV "value" kvs with
  | some (.str s) => .ok (.pydecimal s)
  | some _ => .error "decimal.InvalidOperation"
  | Option.none => .error "KeyError: value"

/-- `lambda s: UUID(s["id"])` -/
def coerce_uuid (kvs : List (String × PyVal)) : Except String PyVal :=
  match lookupKV "id" kvs with
  | some (.str s) => .ok (.pyuuid s)
  | some _ => .error "TypeError: one of the hex arguments must be given"
  | Option.none => .error "KeyError: id"

def coercerTags : List String :=
  ["datetime.date", "datetime.datetime", "datetime.time", "bytes", "decimal", "uuid"]

def applyCoercer (tag : String) (kvs : List (String × PyVal)) : Except String PyVal :=
  if tag = "datetime.date" then coerce_date kvs
  else if tag = "datetime.datetime" then coerce_datetime kvs
  else if tag = "datetime.time" then coerce_time kvs
  else if tag = "bytes" then coerce_bytes kvs
  else if tag = "decimal" then coerce_decimal kvs
  else if tag = "uuid" then coerce_uuid kvs
  else .error "unreachable: unknown coercer tag"

mutual

/-- `ModelSerializer.unflatten`: circular-reference lookup for dicts bearing
a scoped `__ref__`, then dispatch on `__model__` / `__py__` / plain
recursion; lists recurse element-wise; all other values pass through. -/
def unflatten (reg : Registry) (v : PyVal) (us : UState) : Except String PyVal × UState :=
  match v with
  | .pdict kvs =>
    match lookupKV "__ref__" kvs with
    | some (.str r) =>
      match lookupKV r us.scope with
      | some obj => (.ok obj, us)
      | Option.none => unflattenDict reg kvs us
    | some _ => unflattenDict reg kvs us
    | Option.none => unflattenDict reg kvs us
  | .plist xs =>
    let p := unflattenList reg xs us
    (match p.1 with
     | .ok ys => .ok (.plist ys)
     | .error e => .error e, p.2)
  | v => (.ok v, us)
termination_by (sizeOf v, 5, 0)

/-- The body of `unflatten`'s dict branch past the circular-reference
short circuit: `registry[name]` for a `__model__` tag (a `KeyError` when
the name is not registered), coercer dispatch for a truthy popped `__py__`
tag, and plain element-wise recursion otherwise. -/
def unflattenDict (reg : Registry) (kvs : List (String × PyVal)) (us : UState) :
    Except String PyVal × UState :=
  match lookupKV "__model__" kvs with
  | some (.str n) =>
    match lookupKV n reg with
    | some ci => unflatten_object reg n ci kvs us
    | Option.none => (.error ("KeyError: " ++ n), us)
  | some .none =>
    -- `v.get("__model__") is not None` is false for a `None` entry, so the
    -- source falls through to the `__py__` / plain handling
    match h2 : lookupKV "__py__" kvs with
    | some w =>
      let rest := eraseKey "__py__" kvs
      if pyTruthy w then
        match w with
        | .str tag =>
          if coercerTags.contains tag then (applyCoercer tag rest, us)
          else
            let p := unflattenKVs reg rest us
            (match p.1 with
             | .ok ys => .ok (.pdict ys)
             | .error e => .error e, p.2)
        | .plist _ => (.error "TypeError: unhashable type", us)
        | .pdict _ => (.error "TypeError: unhashable type", us)
        | _ =>
          let p := unflattenKVs reg rest us
          (match p.1 with
           | .ok ys => .ok (.pdict ys)
           | .error e => .error e, p.2)
      else
        let p := unflattenKVs reg rest us
        (match p.1 with
         | .ok ys => .ok (.pdict ys)
         | .error e => .error e, p.2)
    | Option.none =>
      let p := unflattenKVs reg kvs us
      (match p.1 with
       | .ok ys => .ok (.pdict ys)
       | .error e => .error e, p.2)
  | some (.plist _) => (.error "TypeError: unhashable type", us)
  | some (.pdict _) => (.error "TypeError: unhashable type", us)
  | some _ => (.error "KeyError: __model__", us)
  | Option.none =>
    match h : lookupKV "__py__" kvs with
    | some w =>
      let rest := eraseKey "__py__" kvs
      if pyTruthy w then
        match w with
        | .str tag =>
          if coercerTags.contains tag then (applyCoercer tag rest, us)
          else
            let p := unflattenKVs reg rest us
            (match p.1 with
             | .ok ys => .ok (.pdict ys)
             | .error e => .error e, p.2)
        | .plist _ => (.error "TypeError: unhashable type", us)
        | .pdict _ => (.error "TypeError: unhashable type", us)
        | _ =>
          let p := unflattenKVs reg rest us
          (match p.1 with
           | .ok ys => .ok (.pdict ys)
           | .error e => .error e, p.2)
      else
        let p := unflattenKVs reg rest us
        (match p.1 with
         | .ok ys => .ok (.pdict ys)
         | .error e => .error e, p.2)
    | Option.none =>
      let p := unflattenKVs reg kvs us
      (match p.1 with
       | .ok ys => .ok (.pdict ys)
       | .error e => .error e, p.2)
termination_by (sizeOf kvs, 4, 0)
decreasing_by
  all_goals
    (try have hlt := eraseKey_sizeOf_lt h)
    (try have hlt2 := eraseKey_sizeOf_lt h2)
    decreasing_tactic

def unflattenList (reg : Registry) (xs : List PyVal) (us : UState) :
    Except String (List PyVal) × UState :=
  match xs with
  | [] => (.ok [], us)
  | x :: t =>
    match unflatten reg x us with
    | (.ok y, us1) =>
      match unflattenList reg t us1 with
      | (.ok ys, us2) => (.ok (y :: ys), us2)
      | (.error e, us2) => (.error e, us2)
    | (.error e, us1) => (.error e, us1)
termination_by (sizeOf xs, 0, 0)

def unflattenKVs (reg : Registry) (kvs : List (String × PyVal)) (us : UState) :
    Except String (List (String × PyVal)) × UState :=
  match kvs with
  | [] => (.ok [], us)
  | (k, v) :: t =>
    match unflatten reg v us with
    | (.ok y, us1) =>
      match unflattenKVs reg t us1 with
      | (.ok ys, us2) => (.ok ((k, y) :: ys), us2)
      | (.error e, us2) => (.error e, us2)
    | (.error e, us1) => (.error e, us1)
termination_by (sizeOf kvs, 0, 0)

/-- `ModelSerializer.unflatten_object` for the JSON serializer:
`get_or_create` returns a fresh `cls.__new__(cls)` with `created = True`;
`JSONSerializer.get_object_state` returns the given state unchanged, so the
`_id` lookup step is the identity; the new object is published in the scope
under the state's reference token before `__restorestate__` runs. -/
def unflatten_object (reg : Registry) (n : String) (ci : ClassInfo)
    (state : List (String × PyVal)) (us : UState) : Except String PyVal × UState :=
  let obj := newObj n ci
  let us1 :=
    match lookupKV "__ref__" state with
    | some (.str r) => { us with scope := dictSet r (objVal obj) us.scope }
    | _ => us
  let rr := restorestate reg ci obj state us1
  (match rr.result with
   | .ok _ => .ok (objVal rr.obj)
   | .error e => .error e, rr.ustate)
termination_by (sizeOf state, 3, 0)

/-- `Model.__restorestate__`: the `__model__` sanity check (a `ValueError`
raised before anything is assigned), publication of `self` under the state's
reference token, then the member-filtered keys sorted stably by
`setstate_order` are assigned one by one. -/
def restorestate (reg : Registry) (ci : ClassInfo) (obj : MObj)
    (state : List (String × PyVal)) (us : UState) : RRes :=
  let name := (lookupKV "__model__" state).getD (.str obj.cls)
  if name = .str obj.cls then
    let refk : Option String :=
      match lookupKV "__ref__" state with
      | some (.str r) => some r
      | _ => Option.none
    restoreLoop reg ci obj state (sortByOrder (validKeys ci state)) refk false
      (aliasUpdate refk obj us)
  else ⟨.error "ValueError: state for another model", obj, us⟩
termination_by (sizeOf state, 2, 0)

/-- The assignment loop of `__restorestate__`: each key is looked up,
unflattened and assigned; an exception is re-raised, logged, or dropped
according to `__on_error__`; at the end `__restored__` is set.  The `bound`
flag tracks whether the loop's local `obj` (the unflattened value) has been
assigned by an earlier iteration: the `log` handler interpolates
`pformat(obj)` into its message, so when it runs before any unflatten has
succeeded it raises `UnboundLocalError` itself and the loop aborts. -/
def restoreLoop (reg : Registry) (ci : ClassInfo) (obj : MObj)
    (state : List (String × PyVal)) (keys : List (Int × String)) (refk : Option String)
    (bound : Bool) (us : UState) : RRes :=
  match keys with
  | [] =>
    let obj' := { obj with restored := true }
    ⟨.ok (), obj', aliasUpdate refk obj' us⟩
  | (_, k) :: rest =>
    match h : lookupKV k state with
    | Option.none =>
      if ci.on_error = "raise" then ⟨.error "KeyError", obj, us⟩
      else if ci.on_error = "log" then
        if bound then
          restoreLoop reg ci obj state rest refk bound
            { us with logs := us.logs ++ [(obj.cls, k)] }
        else ⟨.error "UnboundLocalError", obj, us⟩
      else restoreLoop reg ci obj state rest refk bound us
    | some v =>
      match unflatten reg v us with
      | (.ok w, us1) =>
        match setAttr ci obj k w with
        | .ok obj' => restoreLoop reg ci obj' state rest refk true (aliasUpdate refk obj' us1)
        | .error e =>
          if ci.on_error = "raise" then ⟨.error e, obj, us1⟩
          else if ci.on_error = "log" then
            restoreLoop reg ci obj state rest refk true
              { us1 with logs := us1.logs ++ [(obj.cls, k)] }
          else restoreLoop reg ci obj state rest refk true us1
      | (.error e, us1) =>
        if ci.on_error = "raise" then ⟨.error e, obj, us1⟩
        else if ci.on_error = "log" then
          if bound then
            restoreLoop reg ci obj state rest refk bound
              { us1 with logs := us1.logs ++ [(obj.cls, k)] }
          else ⟨.error "UnboundLocalError", obj, us1⟩
        else restoreLoop reg ci obj state rest refk bound us1
termination_by (sizeOf state, 1, keys.length)
decreasing_by
  all_goals
    (try have hlt := lookupKV_sizeOf h)
    decreasing_tactic

end

deriving instance DecidableEq for Except

/-! ### Dictionary and sorting lemmas -/

theorem lookupKV_dictSet_self {α : Type} (k : String) (v : α) (l : List (String × α)) :
    lookupKV k (dictSet k v l) = some v := by
  induction l with
  | nil => simp [dictSet, lookupKV]
  | cons hd t ih =>
    obtain ⟨k', v'⟩ := hd
    by_cases h : k' = k
    · simp [dictSet, lookupKV, h]
    · simp [dictSet, lookupKV, h, ih]

theorem lookupKV_dictSet_ne {α : Type} {k k' : String} (v : α) (l : List (String × α))
    (h : k' ≠ k) : lookupKV k (dictSet k' v l) = lookupKV k l := by
  induction l with
  | nil => simp [dictSet, lookupKV, h]
  | cons hd t ih =>
    obtain ⟨k'', v''⟩ := hd
    simp only [dictSet]
    split
    next h2 =>
      subst h2
      simp [lookupKV, h]
    next h2 =>
      simp only [lookupKV]
      split <;> simp [ih]

theorem insOrd_perm (x : Int × String) (l : List (Int × String)) :
    (insOrd x l).Perm (x :: l) := by
  induction l with
  | nil => exact .refl _
  | cons y t ih =>
    simp only [insOrd]
    split
    · exact .refl _
    · exact (ih.cons y).trans (List.Perm.swap x y t)

theorem sortByOrder_perm (l : List (Int × String)) : (sortByOrder l).Perm l := by
  induction l with
  | nil => exact .refl _
  | cons x t ih => exact (insOrd_perm x (sortByOrder t)).trans (ih.cons x)

theorem mem_sortByOrder {p : Int × String} {l : List (Int × String)} :
    p ∈ sortByOrder l ↔ p ∈ l :=
  (sortByOrder_perm l).mem_iff

/-- Number of entries carrying a given key. -/
def countKey (k : String) (l : List (Int × String)) : Nat :=
  (l.map Prod.snd).count k

theorem countKey_sortByOrder (k : String) (l : List (Int × String)) :
    countKey k (sortByOrder l) = countKey k l :=
  ((sortByOrder_perm l).map Prod.snd).count_eq k

theorem validKeys_map_snd (ci : ClassInfo) (st : List (String × PyVal)) :
    (validKeys ci st).map Prod.snd = (st.map Prod.fst).filter (fun k => isMember ci k) := by
  induction st with
  | nil => simp [validKeys]
  | cons hd t ih =>
    obtain ⟨k', v'⟩ := hd
    simp only [validKeys, List.filterMap_cons] at *
    by_cases h : isMember ci k' = true
    · simp [h, ih]
    · simp only [if_neg h]
      simp only [List.map_cons, List.filter_cons]
      simp [h, ih]

theorem countKey_validKeys_le (ci : ClassInfo) (st : List (String × PyVal)) (k : String) :
    countKey k (validKeys ci st) ≤ (st.map Prod.fst).count k := by
  rw [countKey, validKeys_map_snd]
  exact (List.filter_sublist _).count_le k

theorem mem_validKeys {ci : ClassInfo} {st : List (String × PyVal)} {k : String} {v : PyVal}
    (hmem : (k, v) ∈ st) (hm : isMember ci k = true) :
    (orderOf ci k, k) ∈ validKeys ci st :=
  List.mem_filterMap.mpr ⟨(k, v), hmem, by simp [hm]⟩

/-! ### Small evaluation lemmas for unflatten -/

/-- JSON-native scalars, which `unflatten` returns unchanged with no effect
on the scope. -/
def isPlainScalar : PyVal → Bool
  | .none => true
  | .int _ => true
  | .str _ => true
  | .bool _ => true
  | _ => false

theorem unflatten_plain {v : PyVal} (h : isPlainScalar v = true) (reg : Registry)
    (us : UState) : unflatten reg v us = (.ok v, us) := by
  cases v <;> first
    | (simp [unflatten]; done)
    | simp [isPlainScalar] at h

/-- A mapping whose `__model__` tag names no registered model (and which
carries no reference token): `unflatten` raises a `KeyError` on it in every
state. -/
def unknownModelRec (reg : Registry) : PyVal → Bool
  | .pdict kvs =>
    (lookupKV "__ref__" kvs).isNone &&
      (match lookupKV "__model__" kvs with
       | some (.str n) => (lookupKV n reg).isNone
       | _ => false)
  | _ => false

theorem unknownModelRec_fails {reg : Registry} {v : PyVal}
    (h : unknownModelRec reg v = true) (us : UState) :
    ∃ e, unflatten reg v us = (.error e, us) := by
  cases v <;> simp [unknownModelRec] at h
  next kvs =>
    obtain ⟨h1, h2⟩ := h
    rcases hm : lookupKV "__model__" kvs with _ | w
    · rw [hm] at h2; simp at h2
    · cases w <;> rw [hm] at h2 <;> try simp at h2
      next n =>
        simp only [unflatten, unflattenDict, h1, hm, h2]
        exact ⟨_, rfl⟩

/-! ### More dictionary facts -/

theorem lookupKV_mem {α : Type} {k : String} {l : List (String × α)} {v : α}
    (h : lookupKV k l = some v) : (k, v) ∈ l := by
  induction l with
  | nil => simp [lookupKV] at h
  | cons hd t ih =>
    obtain ⟨k', v'⟩ := hd
    simp only [lookupKV] at h
    split at h
    next hk => cases h; subst hk; simp
    next hk => simp [ih h]

theorem mem_lookupKV_of_nodup {k : String} {l : List (String × PyVal)} {v : PyVal}
    (hmem : (k, v) ∈ l) (hnd : (l.map Prod.fst).Nodup) : lookupKV k l = some v := by
  induction l with
  | nil => simp at hmem
  | cons hd t ih =>
    obtain ⟨k', v'⟩ := hd
    simp only [List.map_cons, List.nodup_cons] at hnd
    rcases List.mem_cons.mp hmem with h | h
    · cases h
      simp [lookupKV]
    · have hk : k' ≠ k := by
        intro he
        apply hnd.1
        rw [he]
        exact List.mem_map.mpr ⟨(k, v), h, rfl⟩
      simp [lookupKV, hk, ih h hnd.2]

theorem mem_keys_lookup_isSome {k : String} {l : List (String × PyVal)}
    (h : k ∈ l.map Prod.fst) : (lookupKV k l).isSome := by
  induction l with
  | nil => simp at h
  | cons hd t ih =>
    obtain ⟨k', v'⟩ := hd
    simp only [List.map_cons, List.mem_cons] at h
    by_cases hk : k' = k
    · simp [lookupKV, hk]
    · rcases h with h | h
      · exact absurd h.symm hk
      · simp [lookupKV, hk, ih h]

/-! ### setAttr facts -/

theorem setAttr_cls {ci : ClassInfo} {obj obj' : MObj} {k : String} {w : PyVal}
    (h : setAttr ci obj k w = .ok obj') : obj'.cls = obj.cls := by
  unfold setAttr at h
  split_ifs at h <;>
    (cases w <;> simp at h <;> (subst h; rfl))

theorem setAttr_fields_ne {ci : ClassInfo} {obj obj' : MObj} {k' : String} {w : PyVal}
    (h : setAttr ci obj k' w = .ok obj') (k : String) (hne : k' ≠ k) :
    lookupKV k obj'.fields = lookupKV k obj.fields := by
  unfold setAttr at h
  split_ifs at h
  · cases w <;> simp at h <;> (subst h; rfl)
  · cases w <;> simp at h <;> (subst h; rfl)
  · cases w <;> simp at h <;> (subst h; rfl)
  · injection h with h2
    subst h2
    exact lookupKV_dictSet_ne w obj.fields hne

theorem setAttr_field_ok {ci : ClassInfo} (obj : MObj) {k : String} (w : PyVal)
    (h1 : k ≠ "_id") (h2 : k ≠ "__ref__") (h3 : k ≠ "__restored__")
    (h4 : ci.fields.contains k = true) :
    setAttr ci obj k w = .ok { obj with fields := dictSet k w obj.fields } := by
  have h5 : k ∈ ci.fields := by simpa using h4
  unfold setAttr
  simp [h1, h2, h3, h5]

/-! ### C10 -/

/-- C10: for every model instance `m` and state mapping whose `__model__`
entry differs from `m`'s class model name, `__restorestate__` raises a
`ValueError` before assigning any field: the result is the error, with the
instance and the scope state returned exactly as given. -/
theorem restorestate_model_mismatch (reg : Registry) (ci : ClassInfo) (obj : MObj)
    (st : List (String × PyVal)) (us : UState) (w : PyVal)
    (hw : lookupKV "__model__" st = some w) (hne : w ≠ .str obj.cls) :
    restorestate reg ci obj st us =
      ⟨.error "ValueError: state for another model", obj, us⟩ := by
  rw [restorestate]
  simp [hw, hne]

/-- C10 witness: a concrete mismatching state is rejected unchanged. -/
theorem restorestate_model_mismatch_witness :
    restorestate [] ⟨[], [], [], "log"⟩ ⟨"m", "", "", false, []⟩
      [("__model__", PyVal.str "n")] ⟨[], []⟩ =
      ⟨.error "ValueError: state for another model", ⟨"m", "", "", false, []⟩, ⟨[], []⟩⟩ :=
  restorestate_model_mismatch [] ⟨[], [], [], "log"⟩ ⟨"m", "", "", false, []⟩
    [("__model__", PyVal.str "n")] ⟨[], []⟩ (PyVal.str "n") (by decide) (by decide)

/-! ### C5 -/

theorem unflattenKVs_plain (reg : Registry) :
    ∀ (kvs : List (String × PyVal)) (us : UState),
      (∀ kv ∈ kvs, isPlainScalar kv.2 = true) →
      unflattenKVs reg kvs us = (.ok kvs, us) := by
  intro kvs
  induction kvs with
  | nil => intro us _; rw [unflattenKVs]
  | cons hd t ih =>
    intro us h
    obtain ⟨k, v⟩ := hd
    rw [unflattenKVs]
    rw [unflatten_plain (h (k, v) (by simp)) reg us]
    simp [ih us (fun kv hkv => h kv (by simp [hkv]))]

/-- C5 counterexample: a mapping whose `__model__` entry names an
unregistered type makes `unflatten` raise a `KeyError`; it does not return
the mapping degraded to its raw form as the claim states. -/
theorem unflatten_unknown_model_counterexample :
    (unflatten [] (.pdict [("__model__", PyVal.str "zzz")]) ⟨[], []⟩).1 =
        .error ("KeyError: " ++ "zzz") ∧
      (unflatten [] (.pdict [("__model__", PyVal.str "zzz")]) ⟨[], []⟩).1 ≠
        .ok (.pdict [("__model__", PyVal.str "zzz")]) := by
  have h : (unflatten [] (.pdict [("__model__", PyVal.str "zzz")]) ⟨[], []⟩).1 =
      .error ("KeyError: " ++ "zzz") := by
    rw [unflatten]
    simp only [lookupKV]
    rw [unflattenDict]
    simp [lookupKV]
  exact ⟨h, by simp [h]⟩

/-- Whenever the mapping's reference token (if any) does not resolve in the
current scope, `unflatten` falls through the circular-reference short
circuit into the dict body. -/
theorem unflatten_pdict_noref (reg : Registry) (kvs : List (String × PyVal))
    (us : UState)
    (href : ∀ r, lookupKV "__ref__" kvs = some (.str r) →
      lookupKV r us.scope = Option.none) :
    unflatten reg (.pdict kvs) us = unflattenDict reg kvs us := by
  rw [unflatten]
  split
  · rename_i r heq
    rw [href r heq]
  · rfl
  · rfl

/-- C5 (amended): `unflatten` is lenient only about the scalar type tag.
For a mapping whose `__ref__` token, if present, does not resolve in the
current scope: an unregistered `__model__` name raises a `KeyError`, while
a mapping with no `__model__` entry whose `__py__` tag is not a known
coercer degrades — the `__py__` entry is popped and the remaining entries
are recursively unflattened, a success returning the raw mapping of the
results and a failing nested entry propagating its error. -/
theorem unflatten_unknown_tags :
    (∀ (reg : Registry) (kvs : List (String × PyVal)) (us : UState) (n : String),
      (∀ r, lookupKV "__ref__" kvs = some (.str r) →
        lookupKV r us.scope = Option.none) →
      lookupKV "__model__" kvs = some (.str n) →
      lookupKV n reg = Option.none →
      unflatten reg (.pdict kvs) us = (.error ("KeyError: " ++ n), us)) ∧
    (∀ (reg : Registry) (kvs : List (String × PyVal)) (us : UState) (tag : String)
        (res : Except String (List (String × PyVal)) × UState),
      (∀ r, lookupKV "__ref__" kvs = some (.str r) →
        lookupKV r us.scope = Option.none) →
      lookupKV "__model__" kvs = Option.none →
      lookupKV "__py__" kvs = some (.str tag) →
      coercerTags.contains tag = false →
      unflattenKVs reg (eraseKey "__py__" kvs) us = res →
      unflatten reg (.pdict kvs) us =
        ((match res.1 with
          | .ok ys => .ok (.pdict ys)
          | .error e => .error e), res.2)) := by
  constructor
  · intro reg kvs us n href hm h2
    rw [unflatten_pdict_noref reg kvs us href]
    simp only [unflattenDict, hm, h2]
  · intro reg kvs us tag res href hm hpy hct hres
    rw [unflatten_pdict_noref reg kvs us href]
    simp only [unflattenDict, hm]
    split
    next w heq =>
      rw [hpy] at heq
      injection heq with heq2
      subst heq2
      have hct2 : tag ∉ coercerTags := by simpa using hct
      by_cases htr : pyTruthy (.str tag) = true
      · simp [htr, hct2, hres]
      · simp only [Bool.not_eq_true] at htr
        simp [htr, hres]
    next heq =>
      rw [hpy] at heq
      cases heq

/-- C5 witness: an unregistered `__model__` beside a dangling `__ref__`
token raises, and an unknown `__py__` tag beside a nested failing entry
propagates that entry's error. -/
theorem unflatten_unknown_tags_witness :
    unflatten [] (.pdict [("__ref__", PyVal.str "r9"), ("__model__", PyVal.str "zzz")])
        ⟨[], []⟩ = (.error ("KeyError: " ++ "zzz"), ⟨[], []⟩) ∧
      unflatten [] (.pdict [("__py__", PyVal.str "qqq"),
          ("a", PyVal.pdict [("__model__", PyVal.str "zzz")])]) ⟨[], []⟩ =
        (.error ("KeyError: " ++ "zzz"), ⟨[], []⟩) := by
  have hbad : unflatten ([] : Registry) (.pdict [("__model__", PyVal.str "zzz")])
      ⟨[], []⟩ = (.error ("KeyError: " ++ "zzz"), ⟨[], []⟩) := by
    simp only [unflatten, unflattenDict,
      show lookupKV "__ref__" [("__model__", PyVal.str "zzz")] = Option.none from rfl,
      show lookupKV "__model__" [("__model__", PyVal.str "zzz")] =
        some (PyVal.str "zzz") from rfl,
      show lookupKV "zzz" ([] : Registry) = Option.none from rfl]
  have hkvs : unflattenKVs [] (eraseKey "__py__" [("__py__", PyVal.str "qqq"),
      ("a", PyVal.pdict [("__model__", PyVal.str "zzz")])]) ⟨[], []⟩ =
      (.error ("KeyError: " ++ "zzz"), ⟨[], []⟩) := by
    rw [show eraseKey "__py__" [("__py__", PyVal.str "qqq"),
        ("a", PyVal.pdict [("__model__", PyVal.str "zzz")])] =
      [("a", PyVal.pdict [("__model__", PyVal.str "zzz")])] from rfl]
    rw [unflattenKVs]
    rw [hbad]
  constructor
  · exact unflatten_unknown_tags.1 []
      [("__ref__", PyVal.str "r9"), ("__model__", PyVal.str "zzz")] ⟨[], []⟩ "zzz"
      (fun r hr => rfl) (by rfl) (by rfl)
  · exact unflatten_unknown_tags.2 []
      [("__py__", PyVal.str "qqq"), ("a", PyVal.pdict [("__model__", PyVal.str "zzz")])]
      ⟨[], []⟩ "qqq" (.error ("KeyError: " ++ "zzz"), ⟨[], []⟩)
      (fun r hr => rfl) (by rfl) (by rfl) (by rfl) hkvs

/-! ### C6 -/

theorem countKey_cons (k : String) (p : Int × String) (l : List (Int × String)) :
    countKey k (p :: l) = (if p.2 = k then 1 else 0) + countKey k l := by
  simp only [countKey, List.map_cons, List.count_cons]
  split <;> simp_all <;> omega

theorem countKey_zero_not_mem {k : String} {l : List (Int × String)}
    (h : countKey k l = 0) (o : Int) : (o, k) ∉ l := by
  intro hmem
  induction l with
  | nil => simp at hmem
  | cons p t ih =>
    rw [countKey_cons] at h
    rcases List.mem_cons.mp hmem with he | he
    · subst he; simp at h
    · exact ih (by omega) he

theorem aliasUpdate_logs (refk : Option String) (obj : MObj) (us : UState) :
    (aliasUpdate refk obj us).logs = us.logs := by
  cases refk <;> rfl

theorem restoreLoop_nil_eq (reg : Registry) (ci : ClassInfo) (obj : MObj)
    (st : List (String × PyVal)) (refk : Option String) (b : Bool) (us : UState) :
    restoreLoop reg ci obj st [] refk b us =
      ⟨.ok (), { obj with restored := true },
        aliasUpdate refk { obj with restored := true } us⟩ := by
  rw [restoreLoop]

theorem restoreLoop_cons_ok {st : List (String × PyVal)} {k : String} {v w : PyVal}
    {us us1 : UState} {obj obj' : MObj}
    (reg : Registry) (ci : ClassInfo) (o : Int) (rest : List (Int × String))
    (refk : Option String) (b : Bool)
    (hk : lookupKV k st = some v)
    (hu : unflatten reg v us = (.ok w, us1))
    (hs : setAttr ci obj k w = .ok obj') :
    restoreLoop reg ci obj st ((o, k) :: rest) refk b us =
      restoreLoop reg ci obj' st rest refk true (aliasUpdate refk obj' us1) := by
  rw [restoreLoop]
  split
  next heq => rw [hk] at heq; cases heq
  next v2 heq =>
    rw [hk] at heq
    injection heq with hv
    subst hv
    split
    next w2 us2 hequ =>
      rw [hu] at hequ
      injection hequ with hw hus
      injection hw with hw2
      subst hw2
      subst hus
      split
      next obj2 hset =>
        rw [hs] at hset
        injection hset with hobj
        subst hobj
        rfl
      next e hset => rw [hs] at hset; cases hset
    next e us2 hequ =>
      rw [hu] at hequ
      cases hequ

/-- A failed assignment is always logged and skipped: the handler's local is
bound by this very iteration's successful unflatten. -/
theorem restoreLoop_cons_setattr_log {st : List (String × PyVal)} {k : String}
    {v w : PyVal} {us us1 : UState} {obj : MObj} {e : String}
    (reg : Registry) (ci : ClassInfo) (o : Int) (rest : List (Int × String))
    (refk : Option String) (b : Bool)
    (hpol : ci.on_error = "log")
    (hk : lookupKV k st = some v)
    (hu : unflatten reg v us = (.ok w, us1))
    (hs : setAttr ci obj k w = .error e) :
    restoreLoop reg ci obj st ((o, k) :: rest) refk b us =
      restoreLoop reg ci obj st rest refk true
        { us1 with logs := us1.logs ++ [(obj.cls, k)] } := by
  rw [restoreLoop]
  split
  next heq => rw [hk] at heq; cases heq
  next v2 heq =>
    rw [hk] at heq
    injection heq with hv
    subst hv
    split
    next w2 us2 hequ =>
      rw [hu] at hequ
      injection hequ with hw hus
      injection hw with hw2
      subst hw2
      subst hus
      split
      next obj2 hset => rw [hs] at hset; cases hset
      next e2 hset =>
        rw [hs] at hset
        injection hset with he
        subst he
        rw [hpol, if_neg (by decide), if_pos rfl]
    next e2 us2 hequ =>
      rw [hu] at hequ
      cases hequ

/-- When the very first processed field's value fails to unflatten, the
`log` handler evaluates `pformat(obj)` on its still-unbound local and raises
`UnboundLocalError`: the loop aborts with nothing assigned and nothing
logged. -/
theorem restoreLoop_unbound_abort {st : List (String × PyVal)} {k : String}
    {v : PyVal} {e : String} {us us1 : UState}
    (reg : Registry) (ci : ClassInfo) (obj : MObj) (o : Int)
    (rest : List (Int × String)) (refk : Option String)
    (hpol : ci.on_error = "log")
    (hk : lookupKV k st = some v)
    (hu : unflatten reg v us = (.error e, us1)) :
    restoreLoop reg ci obj st ((o, k) :: rest) refk false us =
      ⟨.error "UnboundLocalError", obj, us1⟩ := by
  rw [restoreLoop]
  split
  next heq => rw [hk] at heq; cases heq
  next v2 heq =>
    rw [hk] at heq
    injection heq with hv
    subst hv
    split
    next w2 us2 hequ =>
      rw [hu] at hequ
      cases hequ
    next e2 us2 hequ =>
      rw [hu] at hequ
      injection hequ with he hus
      injection he with he2
      subst he2
      subst hus
      rw [hpol, if_neg (by decide), if_pos rfl, if_neg (by decide)]

/-- Under the `log` error policy, the assignment loop of `__restorestate__`
always completes and marks the object restored. -/
theorem restoreLoop_log_ok (reg : Registry) (ci : ClassInfo) (hpol : ci.on_error = "log")
    (st : List (String × PyVal)) (refk : Option String) :
    ∀ (keys : List (Int × String)) (obj : MObj) (us : UState),
      (restoreLoop reg ci obj st keys refk true us).result = .ok () ∧
      (restoreLoop reg ci obj st keys refk true us).obj.restored = true := by
  intro keys
  induction keys with
  | nil =>
    intro obj us
    rw [restoreLoop]
    exact ⟨rfl, rfl⟩
  | cons p rest ih =>
    intro obj us
    obtain ⟨o, k⟩ := p
    rw [restoreLoop]
    split
    · rw [hpol]
      simpa using ih obj _
    · split
      · split
        · exact ih _ _
        · rw [hpol]
          simpa using ih obj _
      · rw [hpol]
        simpa using ih obj _

/-- Behaviour of the assignment loop in the single-bad-field scenario: the
bad field `kb` (whose value fails to unflatten in any state) is logged and
skipped, and every plain-scalar field entry is still assigned. -/
theorem restoreLoop_scenario (reg : Registry) (ci : ClassInfo) (hpol : ci.on_error = "log")
    (st : List (String × PyVal)) (refk : Option String) (kb : String) (vb : PyVal)
    (hkbst : lookupKV kb st = some vb)
    (hbad : unknownModelRec reg vb = true)
    (hsc : ∀ k v, lookupKV k st = some v → k ≠ kb → isPlainScalar v = true) :
    ∀ (keys : List (Int × String)) (obj : MObj) (us : UState),
      (∀ k, countKey k keys ≤ 1) →
      lookupKV kb (restoreLoop reg ci obj st keys refk true us).obj.fields
          = lookupKV kb obj.fields ∧
      ((∃ o, (o, kb) ∈ keys) →
        (obj.cls, kb) ∈ (restoreLoop reg ci obj st keys refk true us).ustate.logs) ∧
      (∀ x ∈ us.logs, x ∈ (restoreLoop reg ci obj st keys refk true us).ustate.logs) ∧
      (∀ k v, lookupKV k st = some v → k ≠ kb → ci.fields.contains k = true →
        k ≠ "_id" → k ≠ "__ref__" → k ≠ "__restored__" →
        ((∃ o, (o, k) ∈ keys) →
          lookupKV k (restoreLoop reg ci obj st keys refk true us).obj.fields = some v) ∧
        ((∀ o, (o, k) ∉ keys) →
          lookupKV k (restoreLoop reg ci obj st keys refk true us).obj.fields
            = lookupKV k obj.fields)) := by
  intro keys
  induction keys with
  | nil =>
    intro obj us _
    rw [restoreLoop]
    refine ⟨rfl, by simp, ?_, ?_⟩
    · intro x hx
      rw [aliasUpdate_logs]
      exact hx
    · intro k v _ _ _ _ _ _
      exact ⟨by simp, fun _ => rfl⟩
  | cons p rest ih =>
    intro obj us hcount
    obtain ⟨o, k'⟩ := p
    have hcrest : ∀ k, countKey k rest ≤ 1 := by
      intro k
      have := hcount k
      rw [countKey_cons] at this
      split at this <;> omega
    have hrest0 : k' ∈ (((o, k') :: rest).map Prod.snd) → countKey k' rest = 0 := by
      intro _
      have := hcount k'
      rw [countKey_cons] at this
      simp at this
      omega
    rw [restoreLoop]
    split
    next heq =>
      -- state[k'] missing: logged and skipped (cannot occur for keys drawn
      -- from the state, kept for totality; the handler itself succeeds since
      -- its local is bound)
      rw [hpol, if_neg (by decide), if_pos rfl, if_pos rfl]
      have IH := ih obj { us with logs := us.logs ++ [(obj.cls, k')] } hcrest
      refine ⟨IH.1, fun hex => ?_, fun x hx => IH.2.2.1 x (by simp [hx]), ?_⟩
      · obtain ⟨o2, ho2⟩ := hex
        rcases List.mem_cons.mp ho2 with hh | hh
        · have hkk : kb = k' := congrArg Prod.snd hh
          rw [hkk] at hkbst
          rw [heq] at hkbst
          cases hkbst
        · exact IH.2.1 ⟨o2, hh⟩
      · intro k v hkv hkkb hcf h1 h2 h3
        have hE := IH.2.2.2 k v hkv hkkb hcf h1 h2 h3
        constructor
        · intro hex
          obtain ⟨o2, ho2⟩ := hex
          rcases List.mem_cons.mp ho2 with hh | hh
          · have hkk : k = k' := congrArg Prod.snd hh
            subst hkk
            rw [heq] at hkv
            cases hkv
          · exact hE.1 ⟨o2, hh⟩
        · intro hnin
          exact hE.2 (fun o2 h2in => hnin o2 (List.mem_cons_of_mem _ h2in))
    next v heq =>
      split
      next w us1 hequ =>
        -- the looked-up value unflattened: this entry is not the bad field
        have hknb : k' ≠ kb := by
          intro hkk
          subst hkk
          rw [heq] at hkbst
          injection hkbst with hv
          subst hv
          obtain ⟨e, he⟩ := unknownModelRec_fails hbad us
          rw [he] at hequ
          cases hequ
        have hscal : isPlainScalar v = true := hsc k' v heq hknb
        rw [unflatten_plain hscal reg us] at hequ
        injection hequ with hw hus1
        injection hw with hw2
        subst hw2
        subst hus1
        split
        next obj2 hset =>
          -- assignment succeeded
          have IH := ih obj2 (aliasUpdate refk obj2 us) hcrest
          have hcls : obj2.cls = obj.cls := setAttr_cls hset
          refine ⟨?_, fun hex => ?_, fun x hx => ?_, ?_⟩
          · rw [IH.1, setAttr_fields_ne hset kb hknb]
          · obtain ⟨o2, ho2⟩ := hex
            rcases List.mem_cons.mp ho2 with hh | hh
            · exact absurd (congrArg Prod.snd hh).symm hknb
            · have := IH.2.1 ⟨o2, hh⟩
              rw [hcls] at this
              exact this
          · exact IH.2.2.1 x (by rw [aliasUpdate_logs]; exact hx)
          · intro k v2 hkv hkkb hcf h1 h2 h3
            have hE := IH.2.2.2 k v2 hkv hkkb hcf h1 h2 h3
            by_cases hkk : k' = k
            · subst hkk
              rw [heq] at hkv
              injection hkv with hv
              subst hv
              rw [setAttr_field_ok obj v h1 h2 h3 hcf] at hset
              injection hset with hobj2
              have hc0 : countKey k' rest = 0 := hrest0 (by simp)
              have hpres := hE.2 (fun o2 h2in => countKey_zero_not_mem hc0 o2 h2in)
              constructor
              · intro _
                rw [hpres, ← hobj2]
                exact lookupKV_dictSet_self k' v obj.fields
              · intro hnin
                exact absurd (List.mem_cons_self (o, k') rest) (hnin o)
            · constructor
              · intro hex
                obtain ⟨o2, ho2⟩ := hex
                rcases List.mem_cons.mp ho2 with hh | hh
                · exact absurd (congrArg Prod.snd hh).symm hkk
                · exact hE.1 ⟨o2, hh⟩
              · intro hnin
                rw [hE.2 (fun o2 h2in => hnin o2 (List.mem_cons_of_mem _ h2in))]
                exact setAttr_fields_ne hset k hkk
        next e hset =>
          -- assignment failed (a typed base member rejected the value):
          -- logged and skipped
          rw [hpol, if_neg (by decide), if_pos rfl]
          have IH := ih obj { us with logs := us.logs ++ [(obj.cls, k')] } hcrest
          refine ⟨IH.1, fun hex => ?_, fun x hx => IH.2.2.1 x (by simp [hx]), ?_⟩
          · obtain ⟨o2, ho2⟩ := hex
            rcases List.mem_cons.mp ho2 with hh | hh
            · exact absurd (congrArg Prod.snd hh).symm hknb
            · exact IH.2.1 ⟨o2, hh⟩
          · intro k v2 hkv hkkb hcf h1 h2 h3
            have hE := IH.2.2.2 k v2 hkv hkkb hcf h1 h2 h3
            by_cases hkk : k' = k
            · subst hkk
              rw [heq] at hkv
              injection hkv with hv
              subst hv
              rw [setAttr_field_ok obj v h1 h2 h3 hcf] at hset
              cases hset
            · constructor
              · intro hex
                obtain ⟨o2, ho2⟩ := hex
                rcases List.mem_cons.mp ho2 with hh | hh
                · exact absurd (congrArg Prod.snd hh).symm hkk
                · exact hE.1 ⟨o2, hh⟩
              · intro hnin
                exact hE.2 (fun o2 h2in => hnin o2 (List.mem_cons_of_mem _ h2in))
      next e us1 hequ =>
        -- the looked-up value raised: logged and skipped (the handler
        -- succeeds since its local is already bound)
        rw [hpol, if_neg (by decide), if_pos rfl, if_pos rfl]
        have IH := ih obj { us1 with logs := us1.logs ++ [(obj.cls, k')] } hcrest
        refine ⟨IH.1, fun hex => ?_, fun x hx => ?_, ?_⟩
        · obtain ⟨o2, ho2⟩ := hex
          rcases List.mem_cons.mp ho2 with hh | hh
          · have hkk : kb = k' := congrArg Prod.snd hh
            exact IH.2.2.1 (obj.cls, kb) (by rw [hkk]; simp)
          · exact IH.2.1 ⟨o2, hh⟩
        · -- log monotonicity: in this scenario only the bad field can raise,
          -- and its unflattening leaves the state unchanged
          have hst : us1 = us := by
            by_cases hkk : k' = kb
            · subst hkk
              rw [heq] at hkbst
              injection hkbst with hv
              subst hv
              obtain ⟨e2, he2⟩ := unknownModelRec_fails hbad us
              rw [he2] at hequ
              injection hequ with h1 h2
              exact h2.symm
            · have hscal := hsc k' v heq hkk
              rw [unflatten_plain hscal reg us] at hequ
              cases hequ
          subst hst
          exact IH.2.2.1 x (by simp [hx])
        · intro k v2 hkv hkkb hcf h1 h2 h3
          have hE := IH.2.2.2 k v2 hkv hkkb hcf h1 h2 h3
          constructor
          · intro hex
            obtain ⟨o2, ho2⟩ := hex
            rcases List.mem_cons.mp ho2 with hh | hh
            · -- this entry cannot be a plain-scalar field: those never raise
              have hkk : k = k' := congrArg Prod.snd hh
              subst hkk
              rw [heq] at hkv
              injection hkv with hv
              subst hv
              have hscal := hsc k v heq hkkb
              rw [unflatten_plain hscal reg us] at hequ
              cases hequ
            · exact hE.1 ⟨o2, hh⟩
          · intro hnin
            exact hE.2 (fun o2 h2in => hnin o2 (List.mem_cons_of_mem _ h2in))

/-- C6 (amended): for a model with the default error policy
(`__on_error__ == "log"`), a field whose value fails to unflatten is
isolated only once the log handler's local `obj` is bound, i.e. once some
earlier processed field has been unflattened successfully.  Under the
hypothesis that the first processed key is such a field (a plain scalar
entry distinct from the bad field `kb`), the bad field's failure is caught
and logged, `kb` keeps its prior value, every other persisted field entry
in the state is still assigned, and the instance is marked restored
(`__restored__` is `True`) on return.  Without that hypothesis the claim is
false: when the bad field is processed first the handler itself raises
`UnboundLocalError` (`pformat(obj)` on the unbound local) and restoration
aborts with nothing assigned — `restorestate_first_field_error_counterexample`. -/
theorem restorestate_field_error_isolated
    (reg : Registry) (ci : ClassInfo) (obj : MObj) (st : List (String × PyVal))
    (us : UState) (kb : String) (vb : PyVal)
    (hpol : ci.on_error = "log")
    (hname : lookupKV "__model__" st = Option.none ∨
      lookupKV "__model__" st = some (.str obj.cls))
    (hnodup : (st.map Prod.fst).Nodup)
    (hkb : (kb, vb) ∈ st)
    (hbad : unknownModelRec reg vb = true)
    (hkbm : isMember ci kb = true)
    (hothers : ∀ kv ∈ st, kv.1 ≠ kb → isPlainScalar kv.2 = true)
    (hfirst : ∃ o1 k1 krest, sortByOrder (validKeys ci st) = (o1, k1) :: krest ∧
      k1 ≠ kb) :
    (restorestate reg ci obj st us).result = .ok () ∧
    (restorestate reg ci obj st us).obj.restored = true ∧
    (obj.cls, kb) ∈ (restorestate reg ci obj st us).ustate.logs ∧
    lookupKV kb (restorestate reg ci obj st us).obj.fields = lookupKV kb obj.fields ∧
    (∀ k v, (k, v) ∈ st → k ≠ kb → ci.fields.contains k = true →
      k ≠ "_id" → k ≠ "__ref__" → k ≠ "__restored__" →
      lookupKV k (restorestate reg ci obj st us).obj.fields = some v) := by
  have hkbst := mem_lookupKV_of_nodup hkb hnodup
  have hsc : ∀ k v, lookupKV k st = some v → k ≠ kb → isPlainScalar v = true :=
    fun k v hl hk => hothers (k, v) (lookupKV_mem hl) hk
  have hcount : ∀ k, countKey k (sortByOrder (validKeys ci st)) ≤ 1 := by
    intro k
    rw [countKey_sortByOrder]
    exact le_trans (countKey_validKeys_le ci st k)
      (List.nodup_iff_count_le_one.mp hnodup k)
  have hmemkb : (orderOf ci kb, kb) ∈ sortByOrder (validKeys ci st) :=
    mem_sortByOrder.mpr (mem_validKeys hkb hkbm)
  obtain ⟨o1, k1, krest, hsort, hk1ne⟩ := hfirst
  have hk1mem : (o1, k1) ∈ validKeys ci st := by
    have hmem : (o1, k1) ∈ sortByOrder (validKeys ci st) := by rw [hsort]; simp
    exact mem_sortByOrder.mp hmem
  obtain ⟨v1, hk1st⟩ : ∃ v1, (k1, v1) ∈ st := by
    obtain ⟨kv, hkvmem, heq⟩ := List.mem_filterMap.mp hk1mem
    by_cases hm : isMember ci kv.1 = true
    · rw [if_pos hm] at heq
      injection heq with h2
      have hk1 : kv.1 = k1 := congrArg Prod.snd h2
      refine ⟨kv.2, ?_⟩
      rw [← hk1]
      exact hkvmem
    · rw [if_neg hm] at heq
      cases heq
  have hk1look : lookupKV k1 st = some v1 := mem_lookupKV_of_nodup hk1st hnodup
  have hscal1 : isPlainScalar v1 = true := hsc k1 v1 hk1look hk1ne
  have hcrest : ∀ k, countKey k krest ≤ 1 := by
    intro k
    have hc := hcount k
    rw [hsort, countKey_cons] at hc
    split at hc <;> omega
  have hk1r0 : countKey k1 krest = 0 := by
    have hc := hcount k1
    rw [hsort, countKey_cons] at hc
    simp at hc
    omega
  have hmemkb2 : (orderOf ci kb, kb) ∈ krest := by
    rw [hsort] at hmemkb
    rcases List.mem_cons.mp hmemkb with hh | hh
    · exact absurd (congrArg Prod.snd hh).symm hk1ne
    · exact hh
  have hkrest : ∀ k v, (k, v) ∈ st → k ≠ k1 → ci.fields.contains k = true →
      (orderOf ci k, k) ∈ krest := by
    intro k v hkv hkk1 hcf
    have hkm : isMember ci k = true := by
      unfold isMember
      rw [hcf]
      simp
    have hfull : (orderOf ci k, k) ∈ sortByOrder (validKeys ci st) :=
      mem_sortByOrder.mpr (mem_validKeys hkv hkm)
    rw [hsort] at hfull
    rcases List.mem_cons.mp hfull with hh | hh
    · exact absurd (congrArg Prod.snd hh) hkk1
    · exact hh
  have MAIN : ∀ (rk : Option String) (us0 : UState),
      (restoreLoop reg ci obj st (sortByOrder (validKeys ci st)) rk false us0).result
          = .ok () ∧
      (restoreLoop reg ci obj st (sortByOrder (validKeys ci st)) rk false
          us0).obj.restored = true ∧
      (obj.cls, kb) ∈
        (restoreLoop reg ci obj st (sortByOrder (validKeys ci st)) rk false
          us0).ustate.logs ∧
      lookupKV kb (restoreLoop reg ci obj st (sortByOrder (validKeys ci st)) rk false
          us0).obj.fields = lookupKV kb obj.fields ∧
      (∀ k v, (k, v) ∈ st → k ≠ kb → ci.fields.contains k = true →
        k ≠ "_id" → k ≠ "__ref__" → k ≠ "__restored__" →
        lookupKV k (restoreLoop reg ci obj st (sortByOrder (validKeys ci st)) rk false
          us0).obj.fields = some v) := by
    intro rk us0
    rw [hsort]
    rcases hset : setAttr ci obj k1 v1 with e1 | obj1
    · -- the first assignment failed: `obj` is bound, so it is logged and
      -- skipped, and the rest of the loop proceeds on the unchanged instance
      rw [restoreLoop_cons_setattr_log reg ci o1 krest rk false hpol hk1look
        (unflatten_plain hscal1 reg us0) hset]
      have T := restoreLoop_log_ok reg ci hpol st rk krest obj
        { us0 with logs := us0.logs ++ [(obj.cls, k1)] }
      have S := restoreLoop_scenario reg ci hpol st rk kb vb hkbst hbad hsc krest obj
        { us0 with logs := us0.logs ++ [(obj.cls, k1)] } hcrest
      refine ⟨T.1, T.2, S.2.1 ⟨orderOf ci kb, hmemkb2⟩, S.1, ?_⟩
      intro k v hkv hkkb hcf h1 h2 h3
      have hE := S.2.2.2 k v (mem_lookupKV_of_nodup hkv hnodup) hkkb hcf h1 h2 h3
      by_cases hkk1 : k = k1
      · -- a proper persisted field's assignment cannot fail
        subst hkk1
        have hlk := mem_lookupKV_of_nodup hkv hnodup
        rw [hk1look] at hlk
        injection hlk with hv
        subst hv
        rw [setAttr_field_ok obj v1 h1 h2 h3 hcf] at hset
        cases hset
      · exact hE.1 ⟨orderOf ci k, hkrest k v hkv hkk1 hcf⟩
    · -- the first assignment succeeded: the loop continues with the handler's
      -- local bound, so the bad field is logged and skipped later on
      rw [restoreLoop_cons_ok reg ci o1 krest rk false hk1look
        (unflatten_plain hscal1 reg us0) hset]
      have T := restoreLoop_log_ok reg ci hpol st rk krest obj1
        (aliasUpdate rk obj1 us0)
      have S := restoreLoop_scenario reg ci hpol st rk kb vb hkbst hbad hsc krest obj1
        (aliasUpdate rk obj1 us0) hcrest
      have hcls1 : obj1.cls = obj.cls := setAttr_cls hset
      refine ⟨T.1, T.2, ?_, ?_, ?_⟩
      · have hl := S.2.1 ⟨orderOf ci kb, hmemkb2⟩
        rw [hcls1] at hl
        exact hl
      · rw [S.1, setAttr_fields_ne hset kb hk1ne]
      · intro k v hkv hkkb hcf h1 h2 h3
        have hE := S.2.2.2 k v (mem_lookupKV_of_nodup hkv hnodup) hkkb hcf h1 h2 h3
        by_cases hkk1 : k = k1
        · subst hkk1
          have hlk := mem_lookupKV_of_nodup hkv hnodup
          rw [hk1look] at hlk
          injection hlk with hv
          subst hv
          rw [setAttr_field_ok obj v1 h1 h2 h3 hcf] at hset
          injection hset with hobj1
          have hpres := hE.2 (fun o2 h2in => countKey_zero_not_mem hk1r0 o2 h2in)
          rw [hpres, ← hobj1]
          exact lookupKV_dictSet_self k v1 obj.fields
        · exact hE.1 ⟨orderOf ci k, hkrest k v hkv hkk1 hcf⟩
  rcases hname with hn | hn
  · simp only [restorestate, hn, Option.getD_none, if_true]
    exact MAIN _ _
  · simp only [restorestate, hn, Option.getD_some, if_true]
    exact MAIN _ _

/-- C6 witness: a concrete state with one good scalar field processed first
and one malformed field (an unregistered nested model record) after it. -/
theorem restorestate_field_error_isolated_witness :
    (restorestate [] ⟨["x", "bad"], [("x", PyVal.int 0), ("bad", PyVal.int 0)], [], "log"⟩
        ⟨"m", "", "", false, [("x", PyVal.int 0), ("bad", PyVal.int 0)]⟩
        [("__model__", PyVal.str "m"), ("x", PyVal.int 9),
          ("bad", PyVal.pdict [("__model__", PyVal.str "zzz")])]
        ⟨[], []⟩).result = .ok () ∧
    (restorestate [] ⟨["x", "bad"], [("x", PyVal.int 0), ("bad", PyVal.int 0)], [], "log"⟩
        ⟨"m", "", "", false, [("x", PyVal.int 0), ("bad", PyVal.int 0)]⟩
        [("__model__", PyVal.str "m"), ("x", PyVal.int 9),
          ("bad", PyVal.pdict [("__model__", PyVal.str "zzz")])]
        ⟨[], []⟩).obj.restored = true ∧
    ("m", "bad") ∈
      (restorestate [] ⟨["x", "bad"], [("x", PyVal.int 0), ("bad", PyVal.int 0)], [], "log"⟩
        ⟨"m", "", "", false, [("x", PyVal.int 0), ("bad", PyVal.int 0)]⟩
        [("__model__", PyVal.str "m"), ("x", PyVal.int 9),
          ("bad", PyVal.pdict [("__model__", PyVal.str "zzz")])]
        ⟨[], []⟩).ustate.logs ∧
    lookupKV "x"
      (restorestate [] ⟨["x", "bad"], [("x", PyVal.int 0), ("bad", PyVal.int 0)], [], "log"⟩
        ⟨"m", "", "", false, [("x", PyVal.int 0), ("bad", PyVal.int 0)]⟩
        [("__model__", PyVal.str "m"), ("x", PyVal.int 9),
          ("bad", PyVal.pdict [("__model__", PyVal.str "zzz")])]
        ⟨[], []⟩).obj.fields = some (PyVal.int 9) := by
  have H := restorestate_field_error_isolated []
    ⟨["x", "bad"], [("x", PyVal.int 0), ("bad", PyVal.int 0)], [], "log"⟩
    ⟨"m", "", "", false, [("x", PyVal.int 0), ("bad", PyVal.int 0)]⟩
    [("__model__", PyVal.str "m"), ("x", PyVal.int 9),
      ("bad", PyVal.pdict [("__model__", PyVal.str "zzz")])]
    ⟨[], []⟩ "bad" (PyVal.pdict [("__model__", PyVal.str "zzz")])
    (by rfl) (Or.inr (by rfl)) (by decide) (by decide) (by rfl) (by rfl)
    (by decide) ⟨1000, "x", [(1000, "bad")], by rfl, by decide⟩
  exact ⟨H.1, H.2.1, H.2.2.1,
    H.2.2.2.2 "x" (PyVal.int 9) (by decide) (by decide) (by rfl)
      (by decide) (by decide) (by decide)⟩

/-- The original C6 claim fails when the malformed field is the first one
processed: the `log` handler's message interpolates `pformat(obj)` before
`obj` has ever been assigned, so `__restorestate__` raises
`UnboundLocalError` instead of isolating the failure — no field is
assigned, nothing is logged, and `__restored__` stays `False`. -/
theorem restorestate_first_field_error_counterexample :
    restorestate ([] : Registry)
        ⟨["bad", "x"], [("bad", PyVal.none), ("x", PyVal.int 0)], [], "log"⟩
        ⟨"m", "", "", false, [("bad", PyVal.none), ("x", PyVal.int 0)]⟩
        [("__model__", PyVal.str "m"),
          ("bad", PyVal.pdict [("__model__", PyVal.str "zzz")]), ("x", PyVal.int 9)]
        ⟨[], []⟩ =
      ⟨.error "UnboundLocalError",
        ⟨"m", "", "", false, [("bad", PyVal.none), ("x", PyVal.int 0)]⟩, ⟨[], []⟩⟩ := by
  have hbadu : unflatten ([] : Registry) (.pdict [("__model__", PyVal.str "zzz")])
      ⟨[], []⟩ = (.error "KeyError: zzz", ⟨[], []⟩) := by
    simp only [unflatten, unflattenDict,
      show lookupKV "__ref__" [("__model__", PyVal.str "zzz")] = Option.none from rfl,
      show lookupKV "__model__" [("__model__", PyVal.str "zzz")] =
        some (PyVal.str "zzz") from rfl,
      show lookupKV "zzz" ([] : Registry) = Option.none from rfl]
    rfl
  simp only [restorestate,
    show lookupKV "__model__" [("__model__", PyVal.str "m"),
      ("bad", PyVal.pdict [("__model__", PyVal.str "zzz")]), ("x", PyVal.int 9)] =
      some (PyVal.str "m") from rfl,
    show lookupKV "__ref__" [("__model__", PyVal.str "m"),
      ("bad", PyVal.pdict [("__model__", PyVal.str "zzz")]), ("x", PyVal.int 9)] =
      Option.none from rfl,
    Option.getD_some, if_pos rfl, aliasUpdate,
    show sortByOrder (validKeys
      ⟨["bad", "x"], [("bad", PyVal.none), ("x", PyVal.int 0)], [], "log"⟩
      [("__model__", PyVal.str "m"),
        ("bad", PyVal.pdict [("__model__", PyVal.str "zzz")]), ("x", PyVal.int 9)]) =
      [((1000 : Int), "bad"), ((1000 : Int), "x")] from rfl]
  rw [restoreLoop_unbound_abort _ _ _ 1000 _ _ (by rfl) (by rfl) hbadu]
  simp

/-! ### C1: round trip

Well-formedness of an object graph for the round trip: bytes in range,
dict keys unique and free of the serializer's reserved keys, and every
model node registered, coherent with the reference environment `env`
(the map from reference token to the unique object carrying it, which is
how sharing is represented in the tree encoding), with an empty `_id` and
an all-default `setstate_order`. -/

def noDupKeysB : List (String × PyVal) → Bool
  | [] => true
  | (k, _) :: t => !(hasKey k t) && noDupKeysB t

def reservedFree (kvs : List (String × PyVal)) : Bool :=
  kvs.all (fun kv => !(kv.1 == "__ref__" || kv.1 == "__model__" || kv.1 == "__py__"))

def fieldNameOk (f : String) : Bool :=
  !(f == "_id" || f == "__ref__" || f == "__restored__" || f == "__model__" || f == "__py__")

/-- The class-side conditions for a model node: registered under its model
name with fields matching the node, fresh-instance defaults covering exactly
the fields, no `setstate_order` tags, and field names that do not collide
with the serializer's special keys. -/
def classOk (reg : Registry) (c : String) (fs : List (String × PyVal)) : Bool :=
  match lookupKV c reg with
  | some ci =>
    decide (ci.fields = fs.map Prod.fst) &&
    decide (ci.defaults.map Prod.fst = fs.map Prod.fst) &&
    ci.setstate_order.isEmpty &&
    ci.fields.all fieldNameOk
  | Option.none => false

mutual

def wfVal (reg : Registry) (env : List (String × PyVal)) : PyVal → Bool
  | .pybytes bs => bs.all (fun b => decide (b < 256))
  | .plist xs => wfList reg env xs
  | .pdict kvs => reservedFree kvs && noDupKeysB kvs && wfKVs reg env kvs
  | .pmodel c r i re fs =>
    (i == "") &&
    (match lookupKV r env with
     | some w => pyEq w (.pmodel c r i re fs)
     | Option.none => false) &&
    classOk reg c fs &&
    noDupKeysB fs &&
    wfKVs reg env fs
  | _ => true

def wfList (reg : Registry) (env : List (String × PyVal)) : List PyVal → Bool
  | [] => true
  | x :: t => wfVal reg env x && wfList reg env t

def wfKVs (reg : Registry) (env : List (String × PyVal)) : List (String × PyVal) → Bool
  | [] => true
  | (_, v) :: t => wfVal reg env v && wfKVs reg env t

end

mutual

/-- The reference tokens of all model nodes occurring in a value. -/
def modelRefs : PyVal → List String
  | .pmodel _ r _ _ fs => r :: modelRefsKVs fs
  | .plist xs => modelRefsList xs
  | .pdict kvs => modelRefsKVs kvs
  | _ => []

def modelRefsList : List PyVal → List String
  | [] => []
  | x :: t => modelRefs x ++ modelRefsList t

def modelRefsKVs : List (String × PyVal) → List String
  | [] => []
  | (_, v) :: t => modelRefs v ++ modelRefsKVs t

end

/-! #### Step equations for flatten -/

theorem flatten_plain {v : PyVal} (h : isPlainScalar v = true) (s : List String) :
    flatten v s = (v, s) := by
  cases v <;> (try (simp [isPlainScalar] at h)) <;> simp only [flatten]

theorem flatten_pydate (y m d : Int) (s : List String) :
    flatten (.pydate y m d) s =
      (.pdict [("__py__", .str "datetime.date"), ("year", .int y), ("month", .int m),
        ("day", .int d)], s) := by
  simp only [flatten]

theorem flatten_pytime (h mi sec us : Int) (s : List String) :
    flatten (.pytime h mi sec us) s =
      (.pdict [("__py__", .str "datetime.time"), ("hour", .int h), ("minute", .int mi),
        ("second", .int sec), ("microsecond", .int us)], s) := by
  simp only [flatten]

theorem flatten_pydatetime (y mo d h mi sec us : Int) (s : List String) :
    flatten (.pydatetime y mo d h mi sec us) s =
      (.pdict [("__py__", .str "datetime.datetime"), ("year", .int y), ("month", .int mo),
        ("day", .int d), ("hour", .int h), ("minute", .int mi), ("second", .int sec),
        ("microsecond", .int us)], s) := by
  simp only [flatten]

theorem flatten_pybytes (bs : List Nat) (s : List String) :
    flatten (.pybytes bs) s =
      (.pdict [("__py__", .str "bytes"), ("bytes", .str (b64encode bs))], s) := by
  simp only [flatten]

theorem flatten_pydecimal (d : String) (s : List String) :
    flatten (.pydecimal d) s =
      (.pdict [("__py__", .str "decimal"), ("value", .str d)], s) := by
  simp only [flatten]

theorem flatten_pyuuid (u : String) (s : List String) :
    flatten (.pyuuid u) s =
      (.pdict [("__py__", .str "uuid"), ("id", .str u)], s) := by
  simp only [flatten]

theorem flatten_plist (xs : List PyVal) (s : List String) :
    flatten (.plist xs) s = (.plist (flattenList xs s).1, (flattenList xs s).2) := by
  simp only [flatten]

theorem flatten_pdict (kvs : List (String × PyVal)) (s : List String) :
    flatten (.pdict kvs) s = (.pdict (flattenKVs kvs s).1, (flattenKVs kvs s).2) := by
  simp only [flatten]

theorem flatten_pmodel (c r i : String) (re : Bool) (fs : List (String × PyVal))
    (s : List String) : flatten (.pmodel c r i re fs) s = flatten_object c r i re fs s := by
  simp only [flatten]

theorem flattenList_nil (s : List String) : flattenList [] s = ([], s) := by
  simp only [flattenList]

theorem flattenList_cons (x : PyVal) (t : List PyVal) (s : List String) :
    flattenList (x :: t) s =
      ((flatten x s).1 :: (flattenList t (flatten x s).2).1,
        (flattenList t (flatten x s).2).2) := by
  simp only [flattenList]

theorem flattenKVs_nil (s : List String) : flattenKVs [] s = ([], s) := by
  simp only [flattenKVs]

theorem flattenKVs_cons (k : String) (v : PyVal) (t : List (String × PyVal))
    (s : List String) :
    flattenKVs ((k, v) :: t) s =
      ((k, (flatten v s).1) :: (flattenKVs t (flatten v s).2).1,
        (flattenKVs t (flatten v s).2).2) := by
  simp only [flattenKVs]

theorem insertRef_idem (r : String) (s : List String) :
    insertRef r (insertRef r s) = insertRef r s := by
  unfold insertRef
  split
  next h => simp [h]
  next h => simp

theorem lookupKV_header_id (c r i : String) (rest : List (String × PyVal)) :
    lookupKV "_id" ([("__model__", PyVal.str c), ("__ref__", PyVal.str r),
      ("_id", PyVal.str i)] ++ rest) = some (PyVal.str i) := by
  simp [lookupKV]

theorem flatten_object_hit {r : String} {scope : List String} (h : r ∈ scope)
    (c i : String) (re : Bool) (fs : List (String × PyVal)) :
    flatten_object c r i re fs scope =
      (.pdict [("__ref__", .str r), ("__model__", .str c)], scope) := by
  rw [flatten_object]
  simp [h]

theorem flatten_object_miss_empty {r : String} {scope : List String} (h : r ∉ scope)
    (c : String) (re : Bool) (fs : List (String × PyVal)) :
    flatten_object c r "" re fs scope =
      (.pdict ([("__model__", .str c), ("__ref__", .str r), ("_id", .str "")] ++
          (flattenKVs fs (insertRef r scope)).1),
        (flattenKVs fs (insertRef r scope)).2) := by
  rw [flatten_object]
  rw [if_neg h]
  simp only [getstate, insertRef_idem, lookupKV_header_id]
  simp [pyTruthy]

theorem flatten_object_miss_truthy {r i : String} {scope : List String} (h : r ∉ scope)
    (hi : i ≠ "") (c : String) (re : Bool) (fs : List (String × PyVal)) :
    flatten_object c r i re fs scope =
      (.pdict [("_id", .str i), ("__ref__", .str r), ("__model__", .str c)],
        (flattenKVs fs (insertRef r scope)).2) := by
  rw [flatten_object]
  rw [if_neg h]
  simp only [getstate, insertRef_idem, lookupKV_header_id]
  simp [pyTruthy, hi]

/-! #### Step equations for unflatten -/

theorem unflatten_pdict_scoped {kvs : List (String × PyVal)} {r : String} {w : PyVal}
    (reg : Registry) {us : UState} (h1 : lookupKV "__ref__" kvs = some (.str r))
    (h2 : lookupKV r us.scope = some w) :
    unflatten reg (.pdict kvs) us = (.ok w, us) := by
  simp only [unflatten, h1, h2]

theorem unflatten_pdict_model {kvs : List (String × PyVal)} {r n : String}
    {ci : ClassInfo} (reg : Registry) {us : UState}
    (h1 : lookupKV "__ref__" kvs = some (.str r))
    (h2 : lookupKV r us.scope = Option.none)
    (h3 : lookupKV "__model__" kvs = some (.str n))
    (h4 : lookupKV n reg = some ci) :
    unflatten reg (.pdict kvs) us = unflatten_object reg n ci kvs us := by
  simp only [unflatten, h1, h2, unflattenDict, h3, h4]

theorem unflatten_object_run {state : List (String × PyVal)} {r : String}
    (reg : Registry) (n : String) (ci : ClassInfo) (us : UState)
    {obj' : MObj} {us' : UState}
    (h : lookupKV "__ref__" state = some (.str r))
    (hres : restorestate reg ci (newObj n ci) state
        { us with scope := dictSet r (objVal (newObj n ci)) us.scope } =
      ⟨.ok (), obj', us'⟩) :
    unflatten_object reg n ci state us = (.ok (objVal obj'), us') := by
  rw [unflatten_object]
  rw [h, hres]

theorem restorestate_run {state : List (String × PyVal)} {r : String}
    (reg : Registry) (ci : ClassInfo) (obj : MObj) (us : UState)
    (hn : lookupKV "__model__" state = some (.str obj.cls))
    (hr : lookupKV "__ref__" state = some (.str r)) :
    restorestate reg ci obj state us =
      restoreLoop reg ci obj state (sortByOrder (validKeys ci state)) (some r) false
        (aliasUpdate (some r) obj us) := by
  rw [restorestate]
  rw [hn, hr]
  simp


/-! #### Generic dict lemmas -/

theorem lookupKV_append {α : Type} (k : String) (l1 l2 : List (String × α)) :
    lookupKV k (l1 ++ l2) = (lookupKV k l1).orElse (fun _ => lookupKV k l2) := by
  induction l1 with
  | nil => simp [lookupKV]
  | cons p t ih =>
    obtain ⟨k', v⟩ := p
    by_cases h : k' = k
    · simp [lookupKV, h]
    · simp [lookupKV, h, ih]

theorem lookupKV_none_iff {α : Type} {k : String} {l : List (String × α)} :
    lookupKV k l = Option.none ↔ k ∉ l.map Prod.fst := by
  induction l with
  | nil => simp [lookupKV]
  | cons p t ih =>
    obtain ⟨k', v⟩ := p
    by_cases h : k' = k
    · simp [lookupKV, h]
    · simp [lookupKV, h, ih, Ne.symm h]

theorem dictSet_lookup_self {α : Type} {k : String} {v : α} {l : List (String × α)}
    (h : lookupKV k l = some v) : dictSet k v l = l := by
  induction l with
  | nil => simp [lookupKV] at h
  | cons p t ih =>
    obtain ⟨k', v'⟩ := p
    by_cases hk : k' = k
    · subst hk
      simp [lookupKV] at h
      simp [dictSet, h]
    · simp [lookupKV, hk] at h
      simp [dictSet, hk, ih h]

theorem dictSet_append_fresh {α : Type} {k : String} {l : List (String × α)}
    (h : k ∉ l.map Prod.fst) (v : α) : dictSet k v l = l ++ [(k, v)] := by
  induction l with
  | nil => simp [dictSet]
  | cons p t ih =>
    obtain ⟨k', v'⟩ := p
    rw [List.map_cons, List.mem_cons] at h
    push_neg at h
    simp [dictSet, Ne.symm h.1, ih h.2]

theorem dictSet_map_fst_of_mem {α : Type} {k : String} {l : List (String × α)}
    (h : k ∈ l.map Prod.fst) (v : α) :
    (dictSet k v l).map Prod.fst = l.map Prod.fst := by
  induction l with
  | nil => simp at h
  | cons p t ih =>
    obtain ⟨k', v'⟩ := p
    by_cases hk : k' = k
    · simp [dictSet, hk]
    · rw [List.map_cons, List.mem_cons] at h
      rcases h with h | h
      · exact absurd h.symm hk
      · simp [dictSet, hk, ih h]

theorem flattenKVs_map_fst (kvs : List (String × PyVal)) (s : List String) :
    (flattenKVs kvs s).1.map Prod.fst = kvs.map Prod.fst := by
  induction kvs generalizing s with
  | nil => simp [flattenKVs_nil]
  | cons p t ih =>
    obtain ⟨k, v⟩ := p
    simp [flattenKVs_cons, ih]

theorem insOrd_head_le {x : Int × String} {l : List (Int × String)}
    (h : ∀ p ∈ l, x.1 ≤ p.1) : insOrd x l = x :: l := by
  cases l with
  | nil => simp [insOrd]
  | cons y t => simp [insOrd, h y (by simp)]

theorem sortByOrder_const {l : List (Int × String)} {c : Int}
    (h : ∀ p ∈ l, p.1 = c) : sortByOrder l = l := by
  induction l with
  | nil => simp [sortByOrder]
  | cons x t ih =>
    have hc : ∀ p ∈ t, p.1 = c := fun p hp => h p (by simp [hp])
    rw [sortByOrder, ih hc, insOrd_head_le]
    intro p hp
    rw [h x (by simp), hc p hp]

/-! #### Step lemmas for the element-wise unflatten recursions -/

theorem unflatten_plist_run {xs ys : List PyVal} {us us' : UState} (reg : Registry)
    (h : unflattenList reg xs us = (.ok ys, us')) :
    unflatten reg (.plist xs) us = (.ok (.plist ys), us') := by
  simp only [unflatten, h]

theorem unflatten_pdict_plain {kvs ys : List (String × PyVal)} {us us' : UState}
    (reg : Registry)
    (h1 : lookupKV "__ref__" kvs = Option.none)
    (h2 : lookupKV "__model__" kvs = Option.none)
    (h3 : lookupKV "__py__" kvs = Option.none)
    (h : unflattenKVs reg kvs us = (.ok ys, us')) :
    unflatten reg (.pdict kvs) us = (.ok (.pdict ys), us') := by
  simp only [unflatten, h1, unflattenDict, h2]
  split
  next w heq => rw [h3] at heq; cases heq
  next heq => simp only [h]

theorem unflattenList_cons_ok {x y : PyVal} {t ys : List PyVal} {us us1 us2 : UState}
    (reg : Registry)
    (h1 : unflatten reg x us = (.ok y, us1))
    (h2 : unflattenList reg t us1 = (.ok ys, us2)) :
    unflattenList reg (x :: t) us = (.ok (y :: ys), us2) := by
  simp only [unflattenList, h1, h2]

theorem unflattenList_nil_eq (reg : Registry) (us : UState) :
    unflattenList reg [] us = (.ok [], us) := by
  simp only [unflattenList]

theorem unflattenKVs_cons_ok {k : String} {v y : PyVal}
    {t ys : List (String × PyVal)} {us us1 us2 : UState} (reg : Registry)
    (h1 : unflatten reg v us = (.ok y, us1))
    (h2 : unflattenKVs reg t us1 = (.ok ys, us2)) :
    unflattenKVs reg ((k, v) :: t) us = (.ok ((k, y) :: ys), us2) := by
  simp only [unflattenKVs, h1, h2]

theorem unflattenKVs_nil_eq (reg : Registry) (us : UState) :
    unflattenKVs reg [] us = (.ok [], us) := by
  simp only [unflattenKVs]

/-! #### Round trips of the tagged scalar records -/

theorem unflatten_pdict_coercer {kvs : List (String × PyVal)} {tag : String}
    (reg : Registry) (us : UState)
    (h1 : lookupKV "__ref__" kvs = Option.none)
    (h2 : lookupKV "__model__" kvs = Option.none)
    (h3 : lookupKV "__py__" kvs = some (.str tag))
    (h4 : pyTruthy (.str tag) = true)
    (h5 : coercerTags.contains tag = true) :
    unflatten reg (.pdict kvs) us = (applyCoercer tag (eraseKey "__py__" kvs), us) := by
  simp only [unflatten, h1, unflattenDict, h2]
  split
  next w heq =>
    rw [h3] at heq
    injection heq with heq2
    subst heq2
    have h5m : tag ∈ coercerTags := by simpa using h5
    simp [h4, h5m]
  next heq => rw [h3] at heq; cases heq

theorem unflatten_date_rec (reg : Registry) (us : UState) (y m d : Int) :
    unflatten reg (.pdict [("__py__", .str "datetime.date"), ("year", .int y),
      ("month", .int m), ("day", .int d)]) us = (.ok (.pydate y m d), us) := by
  rw [unflatten_pdict_coercer reg us (by rfl) (by rfl) (by rfl) (by rfl) (by rfl)]
  simp [applyCoercer, eraseKey, coerce_date, keysWithin, reqIntKV, lookupKV,
    Except.bind, bind]

theorem unflatten_time_rec (reg : Registry) (us : UState) (h mi s ms : Int) :
    unflatten reg (.pdict [("__py__", .str "datetime.time"), ("hour", .int h),
      ("minute", .int mi), ("second", .int s), ("microsecond", .int ms)]) us =
      (.ok (.pytime h mi s ms), us) := by
  rw [unflatten_pdict_coercer reg us (by rfl) (by rfl) (by rfl) (by rfl) (by rfl)]
  simp [applyCoercer, eraseKey, coerce_time, keysWithin, reqIntKV, optIntKV,
    lookupKV, Except.bind, bind]

theorem unflatten_datetime_rec (reg : Registry) (us : UState)
    (y mo d h mi s ms : Int) :
    unflatten reg (.pdict [("__py__", .str "datetime.datetime"), ("year", .int y),
      ("month", .int mo), ("day", .int d), ("hour", .int h), ("minute", .int mi),
      ("second", .int s), ("microsecond", .int ms)]) us =
      (.ok (.pydatetime y mo d h mi s ms), us) := by
  rw [unflatten_pdict_coercer reg us (by rfl) (by rfl) (by rfl) (by rfl) (by rfl)]
  simp [applyCoercer, eraseKey, coerce_datetime, keysWithin, reqIntKV, optIntKV,
    lookupKV, Except.bind, bind]

theorem unflatten_bytes_rec (reg : Registry) (us : UState) {bs : List Nat}
    (hb : bs.all (fun b => decide (b < 256)) = true) :
    unflatten reg (.pdict [("__py__", .str "bytes"), ("bytes", .str (b64encode bs))])
      us = (.ok (.pybytes bs), us) := by
  rw [unflatten_pdict_coercer reg us (by rfl) (by rfl) (by rfl) (by rfl) (by rfl)]
  have hrt := b64_roundtrip bs (by simpa using hb)
  simp [applyCoercer, eraseKey, coerce_bytes, lookupKV, b64decode, b64encode,
    String.toList, hrt]

theorem unflatten_decimal_rec (reg : Registry) (us : UState) (d : String) :
    unflatten reg (.pdict [("__py__", .str "decimal"), ("value", .str d)]) us =
      (.ok (.pydecimal d), us) := by
  rw [unflatten_pdict_coercer reg us (by rfl) (by rfl) (by rfl) (by rfl) (by rfl)]
  simp [applyCoercer, eraseKey, coerce_decimal, lookupKV]

theorem unflatten_uuid_rec (reg : Registry) (us : UState) (u : String) :
    unflatten reg (.pdict [("__py__", .str "uuid"), ("id", .str u)]) us =
      (.ok (.pyuuid u), us) := by
  rw [unflatten_pdict_coercer reg us (by rfl) (by rfl) (by rfl) (by rfl) (by rfl)]
  simp [applyCoercer, eraseKey, coerce_uuid, lookupKV]

/-! #### Well-formedness consequences -/

theorem hasKey_false_not_mem {α : Type} {k : String} {l : List (String × α)}
    (h : hasKey k l = false) : k ∉ l.map Prod.fst := by
  rw [← lookupKV_none_iff]
  unfold hasKey at h
  cases hl : lookupKV k l with
  | none => rfl
  | some w => rw [hl] at h; simp at h

theorem wf_ref_bound (reg : Registry) (env : List (String × PyVal)) : ∀ n : Nat,
    (∀ v : PyVal, sizeOf v ≤ n → ∀ r : String, wfVal reg env v = true →
      r ∈ modelRefs v → ∃ w, lookupKV r env = some w ∧ sizeOf w ≤ sizeOf v) ∧
    (∀ xs : List PyVal, sizeOf xs ≤ n → ∀ r : String, wfList reg env xs = true →
      r ∈ modelRefsList xs → ∃ w, lookupKV r env = some w ∧ sizeOf w ≤ sizeOf xs) ∧
    (∀ kvs : List (String × PyVal), sizeOf kvs ≤ n → ∀ r : String,
      wfKVs reg env kvs = true →
      r ∈ modelRefsKVs kvs → ∃ w, lookupKV r env = some w ∧ sizeOf w ≤ sizeOf kvs) := by
  intro n
  induction n using Nat.strong_induction_on with
  | _ n ih =>
    refine ⟨?_, ?_, ?_⟩
    · intro v hn r hwf hr
      cases v with
      | plist xs =>
        have hsz : sizeOf xs < sizeOf (PyVal.plist xs) := by simp
        have hm : r ∈ modelRefsList xs := by simpa [modelRefs] using hr
        have hwf2 : wfList reg env xs = true := by simpa [wfVal] using hwf
        obtain ⟨w, hw, hwsz⟩ :=
          (ih (sizeOf xs) (by omega)).2.1 xs le_rfl r hwf2 hm
        exact ⟨w, hw, by omega⟩
      | pdict kvs =>
        have hsz : sizeOf kvs < sizeOf (PyVal.pdict kvs) := by simp
        have hm : r ∈ modelRefsKVs kvs := by simpa [modelRefs] using hr
        have hwf2 : wfKVs reg env kvs = true := by
          simp only [wfVal, Bool.and_eq_true] at hwf
          exact hwf.2
        obtain ⟨w, hw, hwsz⟩ :=
          (ih (sizeOf kvs) (by omega)).2.2 kvs le_rfl r hwf2 hm
        exact ⟨w, hw, by omega⟩
      | pmodel c r0 i re fs =>
        simp only [wfVal, Bool.and_eq_true] at hwf
        obtain ⟨⟨⟨⟨hi, henv⟩, hcls⟩, hnd⟩, hkvs⟩ := hwf
        simp only [modelRefs, List.mem_cons] at hr
        rcases hr with hr | hr
        · subst hr
          cases hl : lookupKV r env with
          | none => rw [hl] at henv; simp at henv
          | some w =>
            rw [hl] at henv
            have hweq : w = PyVal.pmodel c r i re fs := (pyEq_iff _ _).mp henv
            exact ⟨w, rfl, by rw [hweq]⟩
        · have hsz : sizeOf fs < sizeOf (PyVal.pmodel c r0 i re fs) := by
            simp <;> omega
          obtain ⟨w, hw, hwsz⟩ :=
            (ih (sizeOf fs) (by omega)).2.2 fs le_rfl r hkvs hr
          exact ⟨w, hw, by omega⟩
      | none => simp [modelRefs] at hr
      | int k => simp [modelRefs] at hr
      | str t => simp [modelRefs] at hr
      | bool b => simp [modelRefs] at hr
      | pydate a b c => simp [modelRefs] at hr
      | pytime a b c d => simp [modelRefs] at hr
      | pydatetime a b c d e f g => simp [modelRefs] at hr
      | pybytes bs => simp [modelRefs] at hr
      | pydecimal d => simp [modelRefs] at hr
      | pyuuid u => simp [modelRefs] at hr
    · intro xs hn r hwf hr
      cases xs with
      | nil => simp [modelRefsList] at hr
      | cons x t =>
        simp only [wfList, Bool.and_eq_true] at hwf
        simp only [modelRefsList, List.mem_append] at hr
        have hsx : sizeOf x < sizeOf (x :: t) := by simp <;> omega
        have hst : sizeOf t < sizeOf (x :: t) := by simp <;> omega
        rcases hr with hr | hr
        · obtain ⟨w, hw, hwsz⟩ :=
            (ih (sizeOf x) (by omega)).1 x le_rfl r hwf.1 hr
          exact ⟨w, hw, by omega⟩
        · obtain ⟨w, hw, hwsz⟩ :=
            (ih (sizeOf t) (by omega)).2.1 t le_rfl r hwf.2 hr
          exact ⟨w, hw, by omega⟩
    · intro kvs hn r hwf hr
      cases kvs with
      | nil => simp [modelRefsKVs] at hr
      | cons p t =>
        obtain ⟨k, v⟩ := p
        simp only [wfKVs, Bool.and_eq_true] at hwf
        simp only [modelRefsKVs, List.mem_append] at hr
        have hsx : sizeOf v < sizeOf ((k, v) :: t) := by simp <;> omega
        have hst : sizeOf t < sizeOf ((k, v) :: t) := by simp <;> omega
        rcases hr with hr | hr
        · obtain ⟨w, hw, hwsz⟩ :=
            (ih (sizeOf v) (by omega)).1 v le_rfl r hwf.1 hr
          exact ⟨w, hw, by omega⟩
        · obtain ⟨w, hw, hwsz⟩ :=
            (ih (sizeOf t) (by omega)).2.2 t le_rfl r hwf.2 hr
          exact ⟨w, hw, by omega⟩

theorem wf_not_self {reg : Registry} {env : List (String × PyVal)}
    {c r i : String} {re : Bool} {fs : List (String × PyVal)}
    (h : wfVal reg env (.pmodel c r i re fs) = true) : r ∉ modelRefsKVs fs := by
  intro hmem
  have h2 := h
  simp only [wfVal, Bool.and_eq_true] at h2
  obtain ⟨⟨⟨⟨hi, henv⟩, hcls⟩, hnd⟩, hkvs⟩ := h2
  obtain ⟨w, hw, hwsz⟩ :=
    (wf_ref_bound reg env (sizeOf fs)).2.2 fs le_rfl r hkvs hmem
  cases hl : lookupKV r env with
  | none => rw [hl] at henv; simp at henv
  | some w2 =>
    rw [hl] at henv
    have hweq : w2 = PyVal.pmodel c r i re fs := (pyEq_iff _ _).mp henv
    rw [hl] at hw
    injection hw with hw2
    subst hw2
    rw [hweq] at hwsz
    have : sizeOf fs < sizeOf (PyVal.pmodel c r i re fs) := by simp <;> omega
    omega

/-! #### The state as seen by the restore loop -/

def stFlat : List (String × PyVal) → List String → List (String × PyVal) → Prop
  | [], _, _ => True
  | (k, v) :: t, s, st =>
    lookupKV k st = some ((flatten v s).1) ∧ stFlat t (flatten v s).2 st

theorem stFlat_intro : ∀ (fs : List (String × PyVal)) (s : List String)
    (hdr : List (String × PyVal)),
    noDupKeysB fs = true →
    (∀ k ∈ fs.map Prod.fst, k ∉ hdr.map Prod.fst) →
    stFlat fs s (hdr ++ (flattenKVs fs s).1) := by
  intro fs
  induction fs with
  | nil => intro s hdr _ _; trivial
  | cons p t ih =>
    obtain ⟨k, v⟩ := p
    intro s hdr hnd hdisj
    simp only [noDupKeysB, Bool.and_eq_true] at hnd
    obtain ⟨hk, hnd2⟩ := hnd
    have hkt : k ∉ t.map Prod.fst := hasKey_false_not_mem (by simpa using hk)
    rw [flattenKVs_cons]
    constructor
    · rw [lookupKV_append]
      have : lookupKV k hdr = Option.none :=
        lookupKV_none_iff.mpr (hdisj k (by simp))
      rw [this]
      simp [lookupKV]
    · have hassoc : hdr ++ (k, (flatten v s).1) :: (flattenKVs t (flatten v s).2).1 =
          (hdr ++ [(k, (flatten v s).1)]) ++ (flattenKVs t (flatten v s).2).1 := by
        simp
      rw [hassoc]
      apply ih (flatten v s).2 (hdr ++ [(k, (flatten v s).1)]) hnd2
      intro k2 hk2
      simp only [List.map_append, List.mem_append] at *
      intro hcontra
      rcases hcontra with hc | hc
      · exact hdisj k2 (by simp [hk2]) hc
      · simp at hc
        subst hc
        exact hkt hk2

/-! #### The scope binding invariant of an unflatten pass -/

def EnvBound (env : List (String × PyVal)) (us : UState) (X : List String) : Prop :=
  ∀ r, r ∈ us.scope.map Prod.fst → r ∉ X →
    ∃ w, lookupKV r env = some w ∧ lookupKV r us.scope = some (markRestored w)

theorem EnvBound_dictSet_exempt {env : List (String × PyVal)} {us : UState}
    {X : List String} {rP : String} (w : PyVal)
    (hb : EnvBound env us X) (hX : rP ∈ X) (hmem : rP ∈ us.scope.map Prod.fst) :
    EnvBound env { us with scope := dictSet rP w us.scope } (X) := by
  intro r hr hrX
  simp only at hr
  rw [dictSet_map_fst_of_mem hmem] at hr
  have hne : rP ≠ r := by
    intro he
    subst he
    exact hrX hX
  obtain ⟨w2, hw2, hl⟩ := hb r hr hrX
  exact ⟨w2, hw2, by simpa [lookupKV_dictSet_ne w us.scope hne] using hl⟩

theorem EnvBound_append_fresh {env : List (String × PyVal)} {us : UState}
    {X : List String} {r : String} (w : PyVal)
    (hb : EnvBound env us X) :
    EnvBound env { us with scope := us.scope ++ [(r, w)] } (r :: X) := by
  intro r2 hr2 hr2X
  simp only [List.map_append, List.mem_append] at hr2
  have hne : r2 ≠ r := by
    intro he
    subst he
    exact hr2X (by simp)
  rcases hr2 with hr2 | hr2
  · obtain ⟨w2, hw2, hl⟩ := hb r2 hr2 (fun hc => hr2X (by simp [hc]))
    refine ⟨w2, hw2, ?_⟩
    simp only
    rw [lookupKV_append, hl]
    rfl
  · simp at hr2
    exact absurd hr2 hne

/-! #### Final field assembly -/

theorem dictSet_cons_ne {α : Type} {k k' : String} (h : k' ≠ k) (v : α) (w : α)
    (t : List (String × α)) :
    dictSet k v ((k', w) :: t) = (k', w) :: dictSet k v t := by
  simp [dictSet, h]

theorem foldl_dictSet_skip {k : String} {w : PyVal} :
    ∀ (rest : List (String × PyVal)) (dt : List (String × PyVal)),
    k ∉ rest.map Prod.fst →
    rest.foldl (fun a kv => dictSet kv.1 (markRestored kv.2) a) ((k, w) :: dt) =
      (k, w) :: rest.foldl (fun a kv => dictSet kv.1 (markRestored kv.2) a) dt := by
  intro rest
  induction rest with
  | nil => intro dt _; rfl
  | cons p t ih =>
    obtain ⟨k1, v1⟩ := p
    intro dt h
    rw [List.map_cons, List.mem_cons] at h
    push_neg at h
    simp only [List.foldl_cons]
    rw [dictSet_cons_ne h.1]
    exact ih _ h.2

theorem foldFields : ∀ (fs df : List (String × PyVal)),
    df.map Prod.fst = fs.map Prod.fst → noDupKeysB fs = true →
    fs.foldl (fun a kv => dictSet kv.1 (markRestored kv.2) a) df =
      markRestored.markRestoredKVs fs := by
  intro fs
  induction fs with
  | nil =>
    intro df hdf _
    simp at hdf
    simp [hdf, markRestored.markRestoredKVs]
  | cons p t ih =>
    obtain ⟨k, v⟩ := p
    intro df hdf hnd
    simp only [noDupKeysB, Bool.and_eq_true] at hnd
    obtain ⟨hk, hnd2⟩ := hnd
    have hkt : k ∉ t.map Prod.fst := hasKey_false_not_mem (by simpa using hk)
    cases df with
    | nil => simp at hdf
    | cons q dt =>
      obtain ⟨k0, d0⟩ := q
      simp only [List.map_cons, List.cons.injEq] at hdf
      obtain ⟨hk0, hdt⟩ := hdf
      simp only [List.foldl_cons]
      rw [show dictSet k (markRestored v) ((k0, d0) :: dt) =
          (k, markRestored v) :: dt by simp [dictSet, hk0]]
      rw [foldl_dictSet_skip t dt hkt, ih dt hdt hnd2]
      rfl

/-! #### The member keys of a full model record -/

theorem orderOf_empty {ci : ClassInfo} (h : ci.setstate_order = []) (k : String) :
    orderOf ci k = 1000 := by
  simp [orderOf, h, lookupKV]

theorem not_mem_fields_of_bad_name {ci : ClassInfo}
    (hnames : ci.fields.all fieldNameOk = true) {k : String}
    (hbad : fieldNameOk k = false) : ci.fields.contains k = false := by
  by_contra hc
  simp only [Bool.not_eq_false] at hc
  have hmem2 : k ∈ ci.fields := by simpa using hc
  have hall : ∀ x ∈ ci.fields, fieldNameOk x = true := by simpa using hnames
  have hgood := hall k hmem2
  simp [hgood] at hbad

theorem validKeys_full_record {ci : ClassInfo} {flatFs : List (String × PyVal)}
    (hempty : ci.setstate_order = [])
    (hnames : ci.fields.all fieldNameOk = true)
    (hmem : ∀ k ∈ flatFs.map Prod.fst, ci.fields.contains k = true)
    (a b d : PyVal) :
    validKeys ci ([("__model__", a), ("__ref__", b), ("_id", d)] ++ flatFs) =
      ((1000 : Int), "__ref__") :: ((1000 : Int), "_id") ::
        flatFs.map (fun kv => ((1000 : Int), kv.1)) := by
  have hno : "__model__" ∉ ci.fields := by
    simpa using not_mem_fields_of_bad_name hnames (by rfl)
  unfold validKeys
  rw [List.filterMap_append]
  have hhdr : List.filterMap
      (fun kv => if isMember ci kv.1 then some (orderOf ci kv.1, kv.1) else Option.none)
      [("__model__", a), ("__ref__", b), ("_id", d)] =
      [(orderOf ci "__ref__", "__ref__"), (orderOf ci "_id", "_id")] := by
    simp [List.filterMap, isMember, hno]
  rw [hhdr, orderOf_empty hempty, orderOf_empty hempty]
  have hfs : List.filterMap
      (fun kv => if isMember ci kv.1 then some (orderOf ci kv.1, kv.1) else Option.none)
      flatFs = flatFs.map (fun kv => ((1000 : Int), kv.1)) := by
    induction flatFs with
    | nil => rfl
    | cons p t ih =>
      obtain ⟨k, v⟩ := p
      have hmk : k ∈ ci.fields := by simpa using hmem k (by simp)
      have hm : isMember ci k = true := by
        simp [isMember, hmk]
      simp only [List.filterMap_cons, hm, if_pos, List.map_cons]
      rw [orderOf_empty hempty]
      congr 1
      exact ih (fun k2 hk2 => hmem k2 (by simp [hk2]))
  rw [hfs]
  rfl

/-! #### Scope growth of flatten -/

theorem flatten_object_snd_miss {r : String} {scope : List String} (h : r ∉ scope)
    (c i : String) (re : Bool) (fs : List (String × PyVal)) :
    (flatten_object c r i re fs scope).2 = (flattenKVs fs (insertRef r scope)).2 := by
  rw [flatten_object, if_neg h]
  simp only [getstate, insertRef_idem]
  split
  next idw heq => split <;> rfl
  next heq => rfl

theorem insertRef_sub {r : String} {s : List String} (r2 : String) (h : r2 ∈ s) :
    r2 ∈ insertRef r s := by
  unfold insertRef
  split
  · exact h
  · simp [h]

theorem flatten_scope_mem : ∀ n : Nat,
    (∀ v : PyVal, sizeOf v ≤ n → ∀ (s : List String) (r : String), r ∈ s →
      r ∈ (flatten v s).2) ∧
    (∀ xs : List PyVal, sizeOf xs ≤ n → ∀ (s : List String) (r : String), r ∈ s →
      r ∈ (flattenList xs s).2) ∧
    (∀ kvs : List (String × PyVal), sizeOf kvs ≤ n → ∀ (s : List String) (r : String),
      r ∈ s → r ∈ (flattenKVs kvs s).2) := by
  intro n
  induction n using Nat.strong_induction_on with
  | _ n ih =>
    refine ⟨?_, ?_, ?_⟩
    · intro v hn s r hr
      cases v with
      | plist xs =>
        have hsz : sizeOf xs < sizeOf (PyVal.plist xs) := by simp
        rw [flatten_plist]
        exact (ih (sizeOf xs) (by omega)).2.1 xs le_rfl s r hr
      | pdict kvs =>
        have hsz : sizeOf kvs < sizeOf (PyVal.pdict kvs) := by simp
        rw [flatten_pdict]
        exact (ih (sizeOf kvs) (by omega)).2.2 kvs le_rfl s r hr
      | pmodel c r0 i re fs =>
        have hsz : sizeOf fs < sizeOf (PyVal.pmodel c r0 i re fs) := by simp <;> omega
        rw [flatten_pmodel]
        by_cases hrs : r0 ∈ s
        · rw [flatten_object_hit hrs]
          exact hr
        · rw [flatten_object_snd_miss hrs]
          exact (ih (sizeOf fs) (by omega)).2.2 fs le_rfl _ r (insertRef_sub r hr)
      | none => simpa [flatten] using hr
      | int k => simpa [flatten] using hr
      | str t => simpa [flatten] using hr
      | bool b => simpa [flatten] using hr
      | pydate a b c => simpa [flatten_pydate] using hr
      | pytime a b c d => simpa [flatten_pytime] using hr
      | pydatetime a b c d e f g => simpa [flatten_pydatetime] using hr
      | pybytes bs => simpa [flatten_pybytes] using hr
      | pydecimal d => simpa [flatten_pydecimal] using hr
      | pyuuid u => simpa [flatten_pyuuid] using hr
    · intro xs hn s r hr
      cases xs with
      | nil => simpa [flattenList_nil] using hr
      | cons x t =>
        have hsx : sizeOf x < sizeOf (x :: t) := by simp <;> omega
        have hst : sizeOf t < sizeOf (x :: t) := by simp <;> omega
        rw [flattenList_cons]
        exact (ih (sizeOf t) (by omega)).2.1 t le_rfl _ r
          ((ih (sizeOf x) (by omega)).1 x le_rfl s r hr)
    · intro kvs hn s r hr
      cases kvs with
      | nil => simpa [flattenKVs_nil] using hr
      | cons p t =>
        obtain ⟨k, v⟩ := p
        have hsx : sizeOf v < sizeOf ((k, v) :: t) := by simp <;> omega
        have hst : sizeOf t < sizeOf ((k, v) :: t) := by simp <;> omega
        rw [flattenKVs_cons]
        exact (ih (sizeOf t) (by omega)).2.2 t le_rfl _ r
          ((ih (sizeOf v) (by omega)).1 v le_rfl s r hr)



theorem reservedFree_not_mem {kvs : List (String × PyVal)}
    (h : reservedFree kvs = true) :
    "__ref__" ∉ kvs.map Prod.fst ∧ "__model__" ∉ kvs.map Prod.fst ∧
      "__py__" ∉ kvs.map Prod.fst := by
  have hall : ∀ kv ∈ kvs, (!(kv.1 == "__ref__" || kv.1 == "__model__" ||
      kv.1 == "__py__")) = true := by simpa [reservedFree] using h
  refine ⟨?_, ?_, ?_⟩ <;>
    · intro hc
      obtain ⟨kv, hkv, hfst⟩ := List.mem_map.mp hc
      have := hall kv hkv
      rw [hfst] at this
      simp at this

theorem map_key_pair {α β : Type} {l1 : List (String × α)} {l2 : List (String × β)}
    (h : l1.map Prod.fst = l2.map Prod.fst) (c : Int) :
    l1.map (fun kv => (c, kv.1)) = l2.map (fun kv => (c, kv.1)) := by
  have e1 : l1.map (fun kv => (c, kv.1)) =
      (l1.map Prod.fst).map (fun k => (c, k)) := by
    rw [List.map_map]; rfl
  have e2 : l2.map (fun kv => (c, kv.1)) =
      (l2.map Prod.fst).map (fun k => (c, k)) := by
    rw [List.map_map]; rfl
  rw [e1, e2, h]

theorem setAttr_field_name_ok {ci : ClassInfo} (obj : MObj) {k : String} (w : PyVal)
    (hname : fieldNameOk k = true) (hc : ci.fields.contains k = true) :
    setAttr ci obj k w = .ok { obj with fields := dictSet k w obj.fields } := by
  have h : ¬(k = "_id") ∧ ¬(k = "__ref__") ∧ ¬(k = "__restored__") ∧
      ¬(k = "__model__") ∧ ¬(k = "__py__") := by
    simpa [fieldNameOk, not_or, and_assoc] using hname
  exact setAttr_field_ok obj w h.1 h.2.1 h.2.2.1 hc

theorem insertRef_fresh {r : String} {s : List String} (h : r ∉ s) :
    insertRef r s = s ++ [r] := by
  simp [insertRef, h]

theorem roundtrip_master (reg : Registry) (env : List (String × PyVal)) : ∀ n : Nat,
    (∀ v : PyVal, sizeOf v ≤ n → ∀ (s : List String) (us : UState) (X : List String),
      wfVal reg env v = true →
      (∀ r ∈ modelRefs v, r ∉ X) →
      us.scope.map Prod.fst = s →
      EnvBound env us X →
      ∃ us' : UState,
        unflatten reg (flatten v s).1 us = (.ok (markRestored v), us') ∧
        us'.scope.map Prod.fst = (flatten v s).2 ∧
        EnvBound env us' X ∧
        us'.logs = us.logs) ∧
    (∀ xs : List PyVal, sizeOf xs ≤ n → ∀ (s : List String) (us : UState)
        (X : List String),
      wfList reg env xs = true →
      (∀ r ∈ modelRefsList xs, r ∉ X) →
      us.scope.map Prod.fst = s →
      EnvBound env us X →
      ∃ us' : UState,
        unflattenList reg (flattenList xs s).1 us =
          (.ok (markRestored.markRestoredList xs), us') ∧
        us'.scope.map Prod.fst = (flattenList xs s).2 ∧
        EnvBound env us' X ∧
        us'.logs = us.logs) ∧
    (∀ kvs : List (String × PyVal), sizeOf kvs ≤ n → ∀ (s : List String) (us : UState)
        (X : List String),
      wfKVs reg env kvs = true →
      (∀ r ∈ modelRefsKVs kvs, r ∉ X) →
      us.scope.map Prod.fst = s →
      EnvBound env us X →
      ∃ us' : UState,
        unflattenKVs reg (flattenKVs kvs s).1 us =
          (.ok (markRestored.markRestoredKVs kvs), us') ∧
        us'.scope.map Prod.fst = (flattenKVs kvs s).2 ∧
        EnvBound env us' X ∧
        us'.logs = us.logs) ∧
    (∀ fs : List (String × PyVal), sizeOf fs ≤ n → ∀ (s : List String) (us : UState)
        (X : List String) (ci : ClassInfo) (obj : MObj) (st : List (String × PyVal))
        (rP : String) (b : Bool),
      wfKVs reg env fs = true →
      (∀ r ∈ modelRefsKVs fs, r ∉ X) →
      us.scope.map Prod.fst = s →
      EnvBound env us X →
      stFlat fs s st →
      (∀ k ∈ fs.map Prod.fst, fieldNameOk k = true ∧ ci.fields.contains k = true) →
      rP ∈ s → rP ∈ X →
      ∃ us' : UState,
        restoreLoop reg ci obj st (fs.map fun kv => ((1000 : Int), kv.1)) (some rP) b
            us =
          ⟨.ok (), ⟨obj.cls, obj.ref, obj.id, true,
            fs.foldl (fun a kv => dictSet kv.1 (markRestored kv.2) a) obj.fields⟩,
            us'⟩ ∧
        us'.scope.map Prod.fst = (flattenKVs fs s).2 ∧
        EnvBound env us' X ∧
        us'.logs = us.logs ∧
        lookupKV rP us'.scope = some (objVal ⟨obj.cls, obj.ref, obj.id, true,
          fs.foldl (fun a kv => dictSet kv.1 (markRestored kv.2) a) obj.fields⟩)) := by
  intro n
  induction n using Nat.strong_induction_on with
  | _ n ih =>
    refine ⟨?_, ?_, ?_, ?_⟩
    -- ### values
    · intro v hn s us X hwf havoid hkeys hbound
      cases v with
      | none =>
        refine ⟨us, ?_, ?_, hbound, rfl⟩
        · rw [flatten_plain (by rfl)]
          simpa [markRestored] using unflatten_plain (by rfl) reg us
        · rw [flatten_plain (by rfl)]; exact hkeys
      | int k =>
        refine ⟨us, ?_, ?_, hbound, rfl⟩
        · rw [flatten_plain (by rfl)]
          simpa [markRestored] using unflatten_plain (by rfl) reg us
        · rw [flatten_plain (by rfl)]; exact hkeys
      | str t =>
        refine ⟨us, ?_, ?_, hbound, rfl⟩
        · rw [flatten_plain (by rfl)]
          simpa [markRestored] using unflatten_plain (by rfl) reg us
        · rw [flatten_plain (by rfl)]; exact hkeys
      | bool b =>
        refine ⟨us, ?_, ?_, hbound, rfl⟩
        · rw [flatten_plain (by rfl)]
          simpa [markRestored] using unflatten_plain (by rfl) reg us
        · rw [flatten_plain (by rfl)]; exact hkeys
      | pydate a b c =>
        refine ⟨us, ?_, ?_, hbound, rfl⟩
        · rw [flatten_pydate]
          simpa [markRestored] using unflatten_date_rec reg us a b c
        · rw [flatten_pydate]; exact hkeys
      | pytime a b c d =>
        refine ⟨us, ?_, ?_, hbound, rfl⟩
        · rw [flatten_pytime]
          simpa [markRestored] using unflatten_time_rec reg us a b c d
        · rw [flatten_pytime]; exact hkeys
      | pydatetime a b c d e f g =>
        refine ⟨us, ?_, ?_, hbound, rfl⟩
        · rw [flatten_pydatetime]
          simpa [markRestored] using unflatten_datetime_rec reg us a b c d e f g
        · rw [flatten_pydatetime]; exact hkeys
      | pybytes bs =>
        have hb : bs.all (fun b => decide (b < 256)) = true := by
          simpa [wfVal] using hwf
        refine ⟨us, ?_, ?_, hbound, rfl⟩
        · rw [flatten_pybytes]
          simpa [markRestored] using unflatten_bytes_rec reg us hb
        · rw [flatten_pybytes]; exact hkeys
      | pydecimal d =>
        refine ⟨us, ?_, ?_, hbound, rfl⟩
        · rw [flatten_pydecimal]
          simpa [markRestored] using unflatten_decimal_rec reg us d
        · rw [flatten_pydecimal]; exact hkeys
      | pyuuid u =>
        refine ⟨us, ?_, ?_, hbound, rfl⟩
        · rw [flatten_pyuuid]
          simpa [markRestored] using unflatten_uuid_rec reg us u
        · rw [flatten_pyuuid]; exact hkeys
      | plist xs =>
        have hsz : sizeOf xs < sizeOf (PyVal.plist xs) := by simp
        have hwf2 : wfList reg env xs = true := by simpa [wfVal] using hwf
        have havoid2 : ∀ r ∈ modelRefsList xs, r ∉ X := by
          simpa [modelRefs] using havoid
        obtain ⟨us', h1, h2, h3, h4⟩ :=
          (ih (sizeOf xs) (by omega)).2.1 xs le_rfl s us X hwf2 havoid2 hkeys hbound
        refine ⟨us', ?_, ?_, h3, h4⟩
        · rw [flatten_plist]
          simpa [markRestored] using unflatten_plist_run reg h1
        · rw [flatten_plist]; exact h2
      | pdict kvs =>
        have hsz : sizeOf kvs < sizeOf (PyVal.pdict kvs) := by simp
        have hwf' := hwf
        simp only [wfVal, Bool.and_eq_true] at hwf'
        obtain ⟨⟨hres, hnd⟩, hwf2⟩ := hwf'
        have havoid2 : ∀ r ∈ modelRefsKVs kvs, r ∉ X := by
          simpa [modelRefs] using havoid
        obtain ⟨us', h1, h2, h3, h4⟩ :=
          (ih (sizeOf kvs) (by omega)).2.2.1 kvs le_rfl s us X hwf2 havoid2 hkeys hbound
        obtain ⟨hm1, hm2, hm3⟩ := reservedFree_not_mem hres
        have hk1 : lookupKV "__ref__" (flattenKVs kvs s).1 = Option.none := by
          rw [lookupKV_none_iff, flattenKVs_map_fst]; exact hm1
        have hk2 : lookupKV "__model__" (flattenKVs kvs s).1 = Option.none := by
          rw [lookupKV_none_iff, flattenKVs_map_fst]; exact hm2
        have hk3 : lookupKV "__py__" (flattenKVs kvs s).1 = Option.none := by
          rw [lookupKV_none_iff, flattenKVs_map_fst]; exact hm3
        refine ⟨us', ?_, ?_, h3, h4⟩
        · rw [flatten_pdict]
          simpa [markRestored] using unflatten_pdict_plain reg hk1 hk2 hk3 h1
        · rw [flatten_pdict]; exact h2
      | pmodel c r0 i re fs =>
        have hszfs : sizeOf fs < sizeOf (PyVal.pmodel c r0 i re fs) := by
          simp <;> omega
        have hwf' := hwf
        simp only [wfVal, Bool.and_eq_true] at hwf'
        obtain ⟨⟨⟨⟨hi, henvm⟩, hcls⟩, hnd⟩, hwfs⟩ := hwf'
        have hieq : i = "" := by simpa using hi
        subst hieq
        have hen : lookupKV r0 env = some (PyVal.pmodel c r0 "" re fs) := by
          cases hl : lookupKV r0 env with
          | none => rw [hl] at henvm; simp at henvm
          | some w =>
            rw [hl] at henvm
            rw [(pyEq_iff _ _).mp henvm]
        have hr0X : r0 ∉ X := havoid r0 (by simp [modelRefs])
        have havoidfs : ∀ r ∈ modelRefsKVs fs, r ∉ X := fun r hr =>
          havoid r (by simp [modelRefs, hr])
        obtain ⟨ci, hci, hfields, hdef, hord, hnames⟩ :
            ∃ ci, lookupKV c reg = some ci ∧ ci.fields = fs.map Prod.fst ∧
              ci.defaults.map Prod.fst = fs.map Prod.fst ∧ ci.setstate_order = [] ∧
              ci.fields.all fieldNameOk = true := by
          cases hl : lookupKV c reg with
          | none =>
            simp only [classOk, hl] at hcls
            exact absurd hcls (by simp)
          | some ci =>
            simp only [classOk, hl, Bool.and_eq_true, decide_eq_true_eq] at hcls
            exact ⟨ci, rfl, hcls.1.1.1, hcls.1.1.2, by simpa using hcls.1.2, hcls.2⟩
        by_cases hrs : r0 ∈ s
        · -- short-circuit reference record
          rw [flatten_pmodel, flatten_object_hit hrs]
          have hmem : r0 ∈ us.scope.map Prod.fst := by rw [hkeys]; exact hrs
          obtain ⟨w, hw, hlook⟩ := hbound r0 hmem hr0X
          rw [hen] at hw
          injection hw with hw2
          subst hw2
          refine ⟨us, ?_, hkeys, hbound, rfl⟩
          exact unflatten_pdict_scoped reg (by rfl) hlook
        · -- full serialization
          rw [flatten_pmodel, flatten_object_miss_empty hrs]
          rw [insertRef_fresh hrs]
          set sIn := s ++ [r0] with hsIn
          set flatFs := (flattenKVs fs sIn).1 with hflatFs
          set st := [("__model__", PyVal.str c), ("__ref__", PyVal.str r0),
            ("_id", PyVal.str "")] ++ flatFs with hst
          have hflatkeys : flatFs.map Prod.fst = fs.map Prod.fst := by
            rw [hflatFs, flattenKVs_map_fst]
          have h_ref : lookupKV "__ref__" st = some (PyVal.str r0) := by
            simp [hst, lookupKV]
          have h_mod : lookupKV "__model__" st = some (PyVal.str c) := by
            simp [hst, lookupKV]
          have h_scope0 : lookupKV r0 us.scope = Option.none := by
            rw [lookupKV_none_iff, hkeys]; exact hrs
          have e1 := unflatten_pdict_model reg h_ref h_scope0 h_mod hci
          set obj0 := newObj c ci with hobj0
          set us1 : UState := { us with scope := us.scope ++ [(r0, objVal obj0)] }
            with hus1
          have hdset : dictSet r0 (objVal obj0) us.scope =
              us.scope ++ [(r0, objVal obj0)] :=
            dictSet_append_fresh (by rw [hkeys]; exact hrs) _
          have hkeys1 : us1.scope.map Prod.fst = sIn := by
            simp [hus1, hkeys, hsIn]
          have hlook1 : lookupKV r0 us1.scope = some (objVal obj0) := by
            rw [hus1]
            simp only
            rw [lookupKV_append, h_scope0]
            simp [lookupKV]
          have hbound1 : EnvBound env us1 (r0 :: X) :=
            EnvBound_append_fresh (objVal obj0) hbound
          have hmemk : ∀ k ∈ flatFs.map Prod.fst, ci.fields.contains k = true := by
            intro k hk
            rw [hflatkeys] at hk
            rw [← hfields] at hk
            simpa using hk
          have hvk : validKeys ci st =
              ((1000 : Int), "__ref__") :: ((1000 : Int), "_id") ::
                flatFs.map (fun kv => ((1000 : Int), kv.1)) :=
            validKeys_full_record hord hnames hmemk _ _ _
          have hsorted : sortByOrder (validKeys ci st) =
              ((1000 : Int), "__ref__") :: ((1000 : Int), "_id") ::
                flatFs.map (fun kv => ((1000 : Int), kv.1)) := by
            rw [hvk]
            apply sortByOrder_const
            intro p hp
            simp only [List.mem_cons] at hp
            rcases hp with hp | hp | hp
            · rw [hp]
            · rw [hp]
            · obtain ⟨kv, _, hkv⟩ := List.mem_map.mp hp
              rw [← hkv]
          have hkeymap : flatFs.map (fun kv => ((1000 : Int), kv.1)) =
              fs.map (fun kv => ((1000 : Int), kv.1)) :=
            map_key_pair hflatkeys 1000
          have hrun := restorestate_run reg ci obj0 us1 (by rw [h_mod]; rfl) h_ref
          have halias0 : aliasUpdate (some r0) obj0 us1 = us1 := by
            simp [aliasUpdate, dictSet_lookup_self hlook1]
          have hstep1 : setAttr ci obj0 "__ref__" (PyVal.str r0) =
              .ok { obj0 with ref := r0 } := by rfl
          set obj1 : MObj := { obj0 with ref := r0 } with hobj1
          set us_a : UState := { us1 with scope := dictSet r0 (objVal obj1) us1.scope }
            with hus_a
          have hkeys_a : us_a.scope.map Prod.fst = sIn := by
            rw [hus_a]
            simp only
            rw [dictSet_map_fst_of_mem (by rw [hkeys1]; simp [hsIn])]
            exact hkeys1
          have hbound_a : EnvBound env us_a (r0 :: X) :=
            EnvBound_dictSet_exempt _ hbound1 (by simp) (by rw [hkeys1]; simp [hsIn])
          have hstep2 : setAttr ci obj1 "_id" (PyVal.str "") =
              .ok { obj1 with id := "" } := by rfl
          set obj2 : MObj := { obj1 with id := "" } with hobj2
          set us_b : UState := { us_a with scope := dictSet r0 (objVal obj2) us_a.scope }
            with hus_b
          have hkeys_b : us_b.scope.map Prod.fst = sIn := by
            rw [hus_b]
            simp only
            rw [dictSet_map_fst_of_mem (by rw [hkeys_a]; simp [hsIn])]
            exact hkeys_a
          have hbound_b : EnvBound env us_b (r0 :: X) :=
            EnvBound_dictSet_exempt _ hbound_a (by simp) (by rw [hkeys_a]; simp [hsIn])
          have havoid' : ∀ r ∈ modelRefsKVs fs, r ∉ r0 :: X := by
            intro r hr
            simp only [List.mem_cons, not_or]
            exact ⟨fun he => (wf_not_self hwf) (he ▸ hr), havoidfs r hr⟩
          have hdisj : ∀ k ∈ fs.map Prod.fst,
              k ∉ ([("__model__", PyVal.str c), ("__ref__", PyVal.str r0),
                ("_id", PyVal.str "")] : List (String × PyVal)).map Prod.fst := by
            intro k hk
            rw [← hfields] at hk
            have hok := List.all_eq_true.mp hnames _ (by simpa using hk)
            have h2 : ¬(k = "_id") ∧ ¬(k = "__ref__") ∧ ¬(k = "__restored__") ∧
                ¬(k = "__model__") ∧ ¬(k = "__py__") := by
              simpa [fieldNameOk, not_or, and_assoc] using hok
            simp [h2.1, h2.2.1, h2.2.2.2.1]
          have hstf : stFlat fs sIn st := stFlat_intro fs sIn _ hnd hdisj
          have hfieldsOk : ∀ k ∈ fs.map Prod.fst,
              fieldNameOk k = true ∧ ci.fields.contains k = true := by
            intro k hk
            rw [← hfields] at hk
            refine ⟨List.all_eq_true.mp hnames _ (by simpa using hk), by simpa using hk⟩
          obtain ⟨usF, hloop, hkeysF, hboundF, hlogsF, hlookF⟩ :=
            (ih (sizeOf fs) (by omega)).2.2.2 fs le_rfl sIn us_b (r0 :: X) ci obj2 st r0
              true hwfs havoid' hkeys_b hbound_b hstf hfieldsOk (by simp [hsIn])
              (by simp)
          set objF : MObj := ⟨obj2.cls, obj2.ref, obj2.id, true,
            fs.foldl (fun a kv => dictSet kv.1 (markRestored kv.2) a) obj2.fields⟩
            with hobjF
          have hfoldv : fs.foldl (fun a kv => dictSet kv.1 (markRestored kv.2) a)
              obj2.fields = markRestored.markRestoredKVs fs := by
            have he : obj2.fields = ci.defaults := by rfl
            rw [he]
            exact foldFields fs ci.defaults hdef hnd
          have hobjFval : objVal objF = markRestored (PyVal.pmodel c r0 "" re fs) := by
            rw [hobjF]
            simp only [objVal, markRestored]
            rw [hfoldv]
            rfl
          have hres2 : restorestate reg ci obj0 st us1 = ⟨.ok (), objF, usF⟩ := by
            rw [hrun, hsorted, halias0, hkeymap]
            rw [restoreLoop_cons_ok reg ci 1000 _ (some r0) false h_ref
              (unflatten_plain (by rfl) reg us1) hstep1]
            rw [show aliasUpdate (some r0) obj1 us1 = us_a from rfl]
            rw [restoreLoop_cons_ok reg ci 1000 _ (some r0) true
              (show lookupKV "_id" st = some (PyVal.str "") by simp [hst, lookupKV])
              (unflatten_plain (by rfl) reg us_a) hstep2]
            rw [show aliasUpdate (some r0) obj2 us_a = us_b from rfl]
            exact hloop
          have hres3 := hres2
          rw [hus1] at hres3
          rw [← hdset] at hres3
          have e2 := unflatten_object_run reg c ci us h_ref hres3
          refine ⟨usF, ?_, hkeysF, ?_, ?_⟩
          · rw [e1, e2, hobjFval]
          · intro r2 hr2 hr2X
            by_cases hr2r0 : r2 = r0
            · subst hr2r0
              refine ⟨PyVal.pmodel c r2 "" re fs, hen, ?_⟩
              rw [hlookF, hobjFval]
            · exact hboundF r2 hr2 (by simp [hr2r0, hr2X])
          · rw [hlogsF]
    -- ### lists
    · intro xs hn s us X hwf havoid hkeys hbound
      cases xs with
      | nil =>
        refine ⟨us, ?_, ?_, hbound, rfl⟩
        · rw [flattenList_nil]
          simpa [markRestored.markRestoredList] using unflattenList_nil_eq reg us
        · rw [flattenList_nil]; exact hkeys
      | cons x t =>
        have hsx : sizeOf x < sizeOf (x :: t) := by simp <;> omega
        have hst : sizeOf t < sizeOf (x :: t) := by simp <;> omega
        simp only [wfList, Bool.and_eq_true] at hwf
        obtain ⟨us1, h1, h2, h3, h4⟩ :=
          (ih (sizeOf x) (by omega)).1 x le_rfl s us X hwf.1
            (fun r hr => havoid r (by simp [modelRefsList, hr])) hkeys hbound
        obtain ⟨us2, g1, g2, g3, g4⟩ :=
          (ih (sizeOf t) (by omega)).2.1 t le_rfl (flatten x s).2 us1 X hwf.2
            (fun r hr => havoid r (by simp [modelRefsList, hr])) h2 h3
        refine ⟨us2, ?_, ?_, g3, by rw [g4, h4]⟩
        · rw [flattenList_cons]
          simpa [markRestored.markRestoredList] using unflattenList_cons_ok reg h1 g1
        · rw [flattenList_cons]; exact g2
    -- ### plain dict entries
    · intro kvs hn s us X hwf havoid hkeys hbound
      cases kvs with
      | nil =>
        refine ⟨us, ?_, ?_, hbound, rfl⟩
        · rw [flattenKVs_nil]
          simpa [markRestored.markRestoredKVs] using unflattenKVs_nil_eq reg us
        · rw [flattenKVs_nil]; exact hkeys
      | cons p t =>
        obtain ⟨k, v⟩ := p
        have hsx : sizeOf v < sizeOf ((k, v) :: t) := by simp <;> omega
        have hst : sizeOf t < sizeOf ((k, v) :: t) := by simp <;> omega
        simp only [wfKVs, Bool.and_eq_true] at hwf
        obtain ⟨us1, h1, h2, h3, h4⟩ :=
          (ih (sizeOf v) (by omega)).1 v le_rfl s us X hwf.1
            (fun r hr => havoid r (by simp [modelRefsKVs, hr])) hkeys hbound
        obtain ⟨us2, g1, g2, g3, g4⟩ :=
          (ih (sizeOf t) (by omega)).2.2.1 t le_rfl (flatten v s).2 us1 X hwf.2
            (fun r hr => havoid r (by simp [modelRefsKVs, hr])) h2 h3
        refine ⟨us2, ?_, ?_, g3, by rw [g4, h4]⟩
        · rw [flattenKVs_cons]
          simpa [markRestored.markRestoredKVs] using unflattenKVs_cons_ok reg h1 g1
        · rw [flattenKVs_cons]; exact g2
    -- ### the restore loop over the flattened fields
    · intro fs hn s us X ci obj st rP b hwf havoid hkeys hbound hstf hfOk hrPs hrPX
      cases fs with
      | nil =>
        set objN : MObj := ⟨obj.cls, obj.ref, obj.id, true, obj.fields⟩ with hobjN
        refine ⟨{ us with scope := dictSet rP (objVal objN) us.scope }, ?_, ?_, ?_, rfl, ?_⟩
        · rw [show (([] : List (String × PyVal)).map fun kv => ((1000 : Int), kv.1)) =
            [] from rfl]
          rw [restoreLoop_nil_eq]
          rfl
        · rw [flattenKVs_nil]
          simp only
          rw [dictSet_map_fst_of_mem (by rw [hkeys]; exact hrPs)]
          exact hkeys
        · exact EnvBound_dictSet_exempt _ hbound hrPX (by rw [hkeys]; exact hrPs)
        · simp only [List.foldl_nil]
          exact lookupKV_dictSet_self _ _ _
      | cons p rest =>
        obtain ⟨k, v⟩ := p
        have hsv : sizeOf v < sizeOf ((k, v) :: rest) := by simp <;> omega
        have hsr : sizeOf rest < sizeOf ((k, v) :: rest) := by simp <;> omega
        simp only [wfKVs, Bool.and_eq_true] at hwf
        obtain ⟨hlook_k, hstf_rest⟩ := hstf
        obtain ⟨us1, h1, h2, h3, h4⟩ :=
          (ih (sizeOf v) (by omega)).1 v le_rfl s us X hwf.1
            (fun r hr => havoid r (by simp [modelRefsKVs, hr])) hkeys hbound
        have hkOk := hfOk k (by simp)
        have hset : setAttr ci obj k (markRestored v) =
            .ok { obj with fields := dictSet k (markRestored v) obj.fields } :=
          setAttr_field_name_ok obj _ hkOk.1 hkOk.2
        set obj' : MObj := { obj with fields := dictSet k (markRestored v) obj.fields }
          with hobj'
        set us_a : UState := { us1 with scope := dictSet rP (objVal obj') us1.scope }
          with hus_a
        have hrPs2 : rP ∈ (flatten v s).2 :=
          (flatten_scope_mem (sizeOf v)).1 v le_rfl s rP hrPs
        have hkeys_a : us_a.scope.map Prod.fst = (flatten v s).2 := by
          rw [hus_a]
          simp only
          rw [dictSet_map_fst_of_mem (by rw [h2]; exact hrPs2)]
          exact h2
        have hbound_a : EnvBound env us_a X :=
          EnvBound_dictSet_exempt _ h3 hrPX (by rw [h2]; exact hrPs2)
        obtain ⟨usF, hloopR, hkeysF, hboundF, hlogsF, hlookF⟩ :=
          (ih (sizeOf rest) (by omega)).2.2.2 rest le_rfl (flatten v s).2 us_a X ci obj'
            st rP true hwf.2 (fun r hr => havoid r (by simp [modelRefsKVs, hr])) hkeys_a
            hbound_a hstf_rest (fun k2 hk2 => hfOk k2 (by simp [hk2])) hrPs2 hrPX
        refine ⟨usF, ?_, ?_, hboundF, by rw [hlogsF, h4], ?_⟩
        · rw [List.map_cons]
          rw [restoreLoop_cons_ok reg ci 1000 _ (some rP) b hlook_k h1 hset]
          rw [show aliasUpdate (some rP) obj' us1 = us_a from rfl]
          rw [hloopR]
          rfl
        · rw [flattenKVs_cons]
          exact hkeysF
        · rw [hlookF]
          rfl

/-- C1 (amended): for an acyclic object graph `v` that is well formed for
registry `reg` and reference environment `env` — every model node has an
empty `_id`, a registered class whose declared fields and defaults match the
node, no `setstate_order` tags and no reserved-key collisions, and each
reference token coherently denotes a single node value — awaiting
`unflatten` on `flatten v` returns exactly `markRestored v` (the same graph
with every model's `__restored__` flag set): every persisted field of every
reconstructed model equals the original, tagged scalar records are coerced
back to equal values, and nothing is logged.  The unamended claim is refuted
by `roundtrip_truthy_id_counterexample`: a model with a truthy `_id` flattens
to a three-key reference record and its fields are rebuilt from class
defaults. -/
theorem unflatten_flatten_roundtrip (reg : Registry) (env : List (String × PyVal))
    (v : PyVal) (hwf : wfVal reg env v = true) :
    ∃ us' : UState,
      unflatten reg (flatten v []).1 ⟨[], []⟩ = (.ok (markRestored v), us') ∧
      us'.logs = [] := by
  obtain ⟨us', h1, h2, h3, h4⟩ :=
    (roundtrip_master reg env (sizeOf v)).1 v le_rfl [] ⟨[], []⟩ [] hwf
      (by intro r _; simp) rfl (by intro r hr hrX; simp at hr)
  exact ⟨us', h1, h4⟩

theorem unflatten_flatten_roundtrip_witness :
    wfVal [("m", ⟨["x"], [("x", PyVal.int 0)], [], "log"⟩)]
        [("r1", PyVal.pmodel "m" "r1" "" true [("x", PyVal.int 5)])]
        (.plist [.pmodel "m" "r1" "" true [("x", PyVal.int 5)],
          .pmodel "m" "r1" "" true [("x", PyVal.int 5)]]) = true ∧
    (∃ us' : UState,
      unflatten [("m", ⟨["x"], [("x", PyVal.int 0)], [], "log"⟩)]
          (flatten (.plist [.pmodel "m" "r1" "" true [("x", PyVal.int 5)],
            .pmodel "m" "r1" "" true [("x", PyVal.int 5)]]) []).1 ⟨[], []⟩ =
        (.ok (markRestored (.plist [.pmodel "m" "r1" "" true [("x", PyVal.int 5)],
          .pmodel "m" "r1" "" true [("x", PyVal.int 5)]])), us') ∧
      us'.logs = []) := by
  constructor
  · simp [wfVal, wfList, wfKVs, classOk, noDupKeysB, hasKey, lookupKV, fieldNameOk,
      pyEq_iff, isMember]
  · exact unflatten_flatten_roundtrip
      [("m", ⟨["x"], [("x", PyVal.int 0)], [], "log"⟩)]
      [("r1", PyVal.pmodel "m" "r1" "" true [("x", PyVal.int 5)])]
      (.plist [.pmodel "m" "r1" "" true [("x", PyVal.int 5)],
        .pmodel "m" "r1" "" true [("x", PyVal.int 5)]])
      (by simp [wfVal, wfList, wfKVs, classOk, noDupKeysB, hasKey, lookupKV,
        fieldNameOk, pyEq_iff, isMember])

/-- A saved model (truthy `_id`) does not survive the round trip: the
flattened form is the three-key reference record, so the reconstructed
instance carries the class default for the persisted field `x` (0, not 5).
The third conjunct shows the mismatch is not about the `__restored__` flag. -/
theorem roundtrip_truthy_id_counterexample :
    (unflatten [("m", ⟨["x"], [("x", PyVal.int 0)], [], "log"⟩)]
        (flatten (.pmodel "m" "r1" "abc" true [("x", PyVal.int 5)]) []).1
        ⟨[], []⟩).1 =
      .ok (.pmodel "m" "r1" "abc" true [("x", PyVal.int 0)]) ∧
    (PyVal.pmodel "m" "r1" "abc" true [("x", PyVal.int 0)] ≠
      PyVal.pmodel "m" "r1" "abc" true [("x", PyVal.int 5)]) ∧
    markRestored (.pmodel "m" "r1" "abc" true [("x", PyVal.int 5)]) =
      .pmodel "m" "r1" "abc" true [("x", PyVal.int 5)] := by
  refine ⟨?_, by simp, by simp [markRestored, markRestored.markRestoredKVs]⟩
  have hflat : (flatten (.pmodel "m" "r1" "abc" true [("x", PyVal.int 5)]) []).1 =
      .pdict [("_id", .str "abc"), ("__ref__", .str "r1"), ("__model__", .str "m")] := by
    rw [flatten_pmodel, flatten_object_miss_truthy (by simp) (by decide)]
  rw [hflat]
  have e1 : unflatten [("m", ⟨["x"], [("x", PyVal.int 0)], [], "log"⟩)]
      (.pdict [("_id", .str "abc"), ("__ref__", .str "r1"), ("__model__", .str "m")])
      ⟨[], []⟩ =
      unflatten_object [("m", ⟨["x"], [("x", PyVal.int 0)], [], "log"⟩)] "m"
        ⟨["x"], [("x", PyVal.int 0)], [], "log"⟩
        [("_id", .str "abc"), ("__ref__", .str "r1"), ("__model__", .str "m")] ⟨[], []⟩ :=
    unflatten_pdict_model _ (by rfl) (by rfl) (by rfl) (by rfl)
  rw [e1]
  have hu1 : unflatten [("m", ⟨["x"], [("x", PyVal.int 0)], [], "log"⟩)] (.str "abc")
      ⟨[("r1", .pmodel "m" "" "" true [("x", PyVal.int 0)])], []⟩ =
      (.ok (.str "abc"), ⟨[("r1", .pmodel "m" "" "" true [("x", PyVal.int 0)])], []⟩) :=
    unflatten_plain (by rfl) _ _
  have hu2 : unflatten [("m", ⟨["x"], [("x", PyVal.int 0)], [], "log"⟩)] (.str "r1")
      ⟨[("r1", .pmodel "m" "" "abc" true [("x", PyVal.int 0)])], []⟩ =
      (.ok (.str "r1"), ⟨[("r1", .pmodel "m" "" "abc" true [("x", PyVal.int 0)])], []⟩) :=
    unflatten_plain (by rfl) _ _
  have hk1 : lookupKV "_id"
      [("_id", PyVal.str "abc"), ("__ref__", PyVal.str "r1"), ("__model__", PyVal.str "m")] =
      some (PyVal.str "abc") := by rfl
  have hk2 : lookupKV "__ref__"
      [("_id", PyVal.str "abc"), ("__ref__", PyVal.str "r1"), ("__model__", PyVal.str "m")] =
      some (PyVal.str "r1") := by rfl
  have hs1 : setAttr ⟨["x"], [("x", PyVal.int 0)], [], "log"⟩
      ⟨"m", "", "", true, [("x", PyVal.int 0)]⟩ "_id" (.str "abc") =
      .ok ⟨"m", "", "abc", true, [("x", PyVal.int 0)]⟩ := by rfl
  have hs2 : setAttr ⟨["x"], [("x", PyVal.int 0)], [], "log"⟩
      ⟨"m", "", "abc", true, [("x", PyVal.int 0)]⟩ "__ref__" (.str "r1") =
      .ok ⟨"m", "r1", "abc", true, [("x", PyVal.int 0)]⟩ := by rfl
  have e2 : restorestate [("m", ⟨["x"], [("x", PyVal.int 0)], [], "log"⟩)]
      ⟨["x"], [("x", PyVal.int 0)], [], "log"⟩
      ⟨"m", "", "", true, [("x", PyVal.int 0)]⟩
      [("_id", .str "abc"), ("__ref__", .str "r1"), ("__model__", .str "m")]
      ⟨[("r1", .pmodel "m" "" "" true [("x", PyVal.int 0)])], []⟩ =
      ⟨.ok (), ⟨"m", "r1", "abc", true, [("x", PyVal.int 0)]⟩,
        ⟨[("r1", .pmodel "m" "r1" "abc" true [("x", PyVal.int 0)])], []⟩⟩ := by
    rw [restorestate_run _ _ _ _ (by rfl) (by rfl)]
    have hkeys : sortByOrder (validKeys ⟨["x"], [("x", PyVal.int 0)], [], "log"⟩
        [("_id", .str "abc"), ("__ref__", .str "r1"), ("__model__", .str "m")]) =
        [(1000, "_id"), (1000, "__ref__")] := by rfl
    rw [hkeys]
    have ha0 : aliasUpdate (some "r1") ⟨"m", "", "", true, [("x", PyVal.int 0)]⟩
        ⟨[("r1", .pmodel "m" "" "" true [("x", PyVal.int 0)])], []⟩ =
        ⟨[("r1", .pmodel "m" "" "" true [("x", PyVal.int 0)])], []⟩ := by rfl
    rw [ha0]
    rw [restoreLoop_cons_ok _ _ 1000 _ (some "r1") false hk1 hu1 hs1]
    have ha1 : aliasUpdate (some "r1") ⟨"m", "", "abc", true, [("x", PyVal.int 0)]⟩
        ⟨[("r1", .pmodel "m" "" "" true [("x", PyVal.int 0)])], []⟩ =
        ⟨[("r1", .pmodel "m" "" "abc" true [("x", PyVal.int 0)])], []⟩ := by rfl
    rw [ha1]
    rw [restoreLoop_cons_ok _ _ 1000 _ (some "r1") true hk2 hu2 hs2]
    have ha2 : aliasUpdate (some "r1") ⟨"m", "r1", "abc", true, [("x", PyVal.int 0)]⟩
        ⟨[("r1", .pmodel "m" "" "abc" true [("x", PyVal.int 0)])], []⟩ =
        ⟨[("r1", .pmodel "m" "r1" "abc" true [("x", PyVal.int 0)])], []⟩ := by rfl
    rw [ha2]
    rw [restoreLoop_nil_eq]
    rfl
  rw [unflatten_object_run _ _ _ _ (by rfl) e2]
  rfl



/-! ### A heap picture of object graphs, cycles included -/

/-- A runtime value in an object graph: a JSON-able scalar, a model instance
denoted by its reference token, or a container.  Unlike `PyVal`, model
instances are indirected through a heap, so reference cycles are
representable. -/
inductive HVal where
  | prim (v : PyVal)
  | href (r : String)
  | hlist (xs : List HVal)
  | hdict (kvs : List (String × HVal))

/-- A model instance on the heap: its `__model__` name, its `_id`, and its
persisted fields. -/
structure HObj where
  cls : String
  id : String
  fields : List (String × HVal)

/-- The object graph: reference token to instance.  A field holding
`HVal.href r` of an object reachable from `r` closes a cycle. -/
def Heap := List (String × HObj)

/-- Scalars that may sit under `HVal.prim`: everything except the
containers and models, which are represented structurally. -/
def primOk : PyVal → Bool
  | .plist _ => false
  | .pdict _ => false
  | .pmodel _ _ _ _ _ => false
  | _ => true

mutual

/-- Well-formed graph values: scalars under `prim`, and no mapping key
colliding with the serializer's `__ref__` marker. -/
def wfH : HVal → Bool
  | .prim v => primOk v
  | .href _ => true
  | .hlist xs => wfHList xs
  | .hdict kvs => kvs.all (fun kv => !(kv.1 == "__ref__")) && wfHKVs kvs

def wfHList : List HVal → Bool
  | [] => true
  | x :: t => wfH x && wfHList t

def wfHKVs : List (String × HVal) → Bool
  | [] => true
  | (_, v) :: t => wfH v && wfHKVs t

end

/-- The number of heap entries not yet registered in the scope: the
termination measure of a flatten pass over a possibly cyclic graph. -/
def unscoped (H : Heap) (scope : List String) : Nat :=
  ((H.map Prod.fst).filter (fun k => decide (k ∉ scope))).length

theorem lookupKV_some_mem_fst {α : Type} {k : String} {l : List (String × α)} {v : α}
    (h : lookupKV k l = some v) : k ∈ l.map Prod.fst := by
  induction l with
  | nil => simp [lookupKV] at h
  | cons p t ih =>
    obtain ⟨k', v'⟩ := p
    by_cases hk : k' = k
    · simp [hk]
    · simp only [lookupKV, if_neg hk] at h
      simp [ih h]

theorem length_filter_le_mono {α : Type} {p q : α → Bool}
    (himp : ∀ a, q a = true → p a = true) :
    ∀ l : List α, (l.filter q).length ≤ (l.filter p).length := by
  intro l
  induction l with
  | nil => simp
  | cons b t ih =>
    by_cases hq : q b = true
    · simp [List.filter_cons, hq, himp b hq]
      omega
    · rw [Bool.not_eq_true] at hq
      by_cases hp : p b = true
      · simp [List.filter_cons, hq, hp]
        omega
      · rw [Bool.not_eq_true] at hp
        simp [List.filter_cons, hq, hp]
        exact ih

theorem length_filter_lt {α : Type} {p q : α → Bool}
    (himp : ∀ a, q a = true → p a = true) :
    ∀ (l : List α) (a : α), a ∈ l → p a = true → q a = false →
    (l.filter q).length < (l.filter p).length := by
  intro l
  induction l with
  | nil => intro a ha; simp at ha
  | cons b t ih =>
    intro a ha hpa hqa
    rcases List.mem_cons.mp ha with hab | hat
    · subst hab
      simp [List.filter_cons, hpa, hqa]
      have := length_filter_le_mono himp t
      omega
    · by_cases hq : q b = true
      · simp [List.filter_cons, hq, himp b hq]
        have := ih a hat hpa hqa
        omega
      · rw [Bool.not_eq_true] at hq
        by_cases hp : p b = true
        · simp [List.filter_cons, hq, hp]
          have := ih a hat hpa hqa
          omega
        · rw [Bool.not_eq_true] at hp
          simp [List.filter_cons, hq, hp]
          exact ih a hat hpa hqa

theorem unscoped_anti {scope scope' : List String} (H : Heap)
    (hsub : scope ⊆ scope') : unscoped H scope' ≤ unscoped H scope := by
  apply length_filter_le_mono
  intro a ha
  simp only [decide_eq_true_eq] at *
  intro hc
  exact ha (hsub hc)

theorem unscoped_insert_lt {H : Heap} {r : String} {scope : List String}
    (hmem : r ∈ H.map Prod.fst) (hnot : r ∉ scope) :
    unscoped H (insertRef r scope) < unscoped H scope := by
  apply length_filter_lt ?_ _ r hmem
  · simp [hnot]
  · simp [insertRef, hnot]
  · intro a ha
    simp only [decide_eq_true_eq] at *
    intro hc
    exact ha (insertRef_sub a hc)

set_option maxHeartbeats 1600000 in
mutual

/-- `ModelSerializer.flatten` over the heap picture: models are resolved
through the heap, so the traversal follows the graph, cycles included.
The returned scope carries the proof that it only ever grows, which is
what bounds the recursion: every full serialization of an instance moves
one heap entry from unscoped to scoped. -/
def flattenH (H : Heap) (v : HVal) (scope : List String) :
    PyVal × { s' : List String // scope ⊆ s' } :=
  match v with
  | .prim p =>
    ((flatten p scope).1,
      ⟨(flatten p scope).2,
        fun a ha => (flatten_scope_mem (sizeOf p)).1 p le_rfl scope a ha⟩)
  | .href r => flatten_objectH H r scope
  | .hlist xs =>
    let p := flattenHList H xs scope
    (.plist p.1, p.2)
  | .hdict kvs =>
    let p := flattenHKVs H kvs scope
    (.pdict p.1, p.2)
termination_by (unscoped H scope, sizeOf v)
decreasing_by
  all_goals simp_wf
  all_goals (apply Prod.Lex.right; first | omega | (simp; omega) | simp)

/-- `JSONSerializer.flatten_object` over the heap: the short-circuit when
the token is scoped, otherwise registration followed by `__getstate__`,
with the truthy-`_id` reference record, exactly as on `PyVal`. -/
def flatten_objectH (H : Heap) (r : String) (scope : List String) :
    PyVal × { s' : List String // scope ⊆ s' } :=
  match hl : lookupKV r H with
  | Option.none => (.none, ⟨scope, fun _ h => h⟩)
  | some o =>
    if hmem : r ∈ scope then
      (.pdict [("__ref__", .str r), ("__model__", .str o.cls)], ⟨scope, fun _ h => h⟩)
    else
      let p := flattenHKVs H o.fields (insertRef r scope)
      if pyTruthy (.str o.id) then
        (.pdict [("_id", .str o.id), ("__ref__", .str r), ("__model__", .str o.cls)],
          ⟨p.2.val, fun a ha => p.2.property (insertRef_sub a ha)⟩)
      else
        (.pdict ([("__model__", .str o.cls), ("__ref__", .str r), ("_id", .str o.id)] ++
          p.1), ⟨p.2.val, fun a ha => p.2.property (insertRef_sub a ha)⟩)
termination_by (unscoped H scope, 0)
decreasing_by
  simp_wf
  exact Prod.Lex.left _ _ (unscoped_insert_lt (lookupKV_some_mem_fst hl) hmem)

def flattenHList (H : Heap) (xs : List HVal) (scope : List String) :
    List PyVal × { s' : List String // scope ⊆ s' } :=
  match xs with
  | [] => ([], ⟨scope, fun _ h => h⟩)
  | x :: t =>
    let p := flattenH H x scope
    let q := flattenHList H t p.2.val
    (p.1 :: q.1, ⟨q.2.val, fun a ha => q.2.property (p.2.property ha)⟩)
termination_by (unscoped H scope, sizeOf xs)
decreasing_by
  all_goals simp_wf
  all_goals
    first
      | (apply Prod.Lex.right; first | omega | (simp; omega) | simp)
      | (rcases lt_or_eq_of_le (unscoped_anti H p.2.property) with hlt | heq
         · exact Prod.Lex.left _ _ hlt
         · rw [heq]; apply Prod.Lex.right; first | omega | (simp; omega) | simp)

def flattenHKVs (H : Heap) (kvs : List (String × HVal)) (scope : List String) :
    List (String × PyVal) × { s' : List String // scope ⊆ s' } :=
  match kvs with
  | [] => ([], ⟨scope, fun _ h => h⟩)
  | (k, v) :: t =>
    let p := flattenH H v scope
    let q := flattenHKVs H t p.2.val
    ((k, p.1) :: q.1, ⟨q.2.val, fun a ha => q.2.property (p.2.property ha)⟩)
termination_by (unscoped H scope, sizeOf kvs)
decreasing_by
  all_goals simp_wf
  all_goals
    first
      | (apply Prod.Lex.right; first | omega | (simp; omega) | simp)
      | (rcases lt_or_eq_of_le (unscoped_anti H p.2.property) with hlt | heq
         · exact Prod.Lex.left _ _ hlt
         · rw [heq]; apply Prod.Lex.right; first | omega | (simp; omega) | simp)

end

/-! ### Counting full serializations of one instance -/

/-- A record that carries more than the short `{__ref__, __model__}` pair for
reference token `r`: it names `r` and has an `_id` entry, i.e. it came out of
`__getstate__` rather than the cycle short-circuit. -/
def isFullRec (r : String) (kvs : List (String × PyVal)) : Bool :=
  (match lookupKV "__ref__" kvs with
   | some (.str r2) => r2 == r
   | _ => false) && hasKey "_id" kvs

mutual

/-- How many records of the flattened output serialize the instance `r` in
full (short reference records are not counted). -/
def countFull (r : String) : PyVal → Nat
  | .pdict kvs => (if isFullRec r kvs then 1 else 0) + countFullKVs r kvs
  | .plist xs => countFullList r xs
  | _ => 0

def countFullList (r : String) : List PyVal → Nat
  | [] => 0
  | x :: t => countFull r x + countFullList r t

def countFullKVs (r : String) : List (String × PyVal) → Nat
  | [] => 0
  | (_, v) :: t => countFull r v + countFullKVs r t

end

theorem countFullKVs_append (r : String) (a b : List (String × PyVal)) :
    countFullKVs r (a ++ b) = countFullKVs r a + countFullKVs r b := by
  induction a with
  | nil => simp [countFullKVs]
  | cons p t ih =>
    obtain ⟨k, v⟩ := p
    have h1 : ((k, v) :: t) ++ b = (k, v) :: (t ++ b) := rfl
    have h2 : ∀ l, countFullKVs r ((k, v) :: l) = countFull r v + countFullKVs r l := by
      intro l
      simp [countFullKVs]
    rw [h1, h2, h2, ih]
    omega

/-! #### Step equations of the heap flatten -/

/-- An `sa.Column`: identified by its owning table and its physical name. -/
structure SQLColumn where
  table : String
  colname : String
deriving DecidableEq, Repr

/-- `QUERY_OPS`: django-style operation suffix → sqlalchemy column method. -/
def QUERY_OPS : List (String × String) := [
  ("eq", "__eq__"), ("gt", "__gt__"), ("gte", "__ge__"), ("ge", "__ge__"),
  ("lt", "__lt__"), ("le", "__le__"), ("lte", "__le__"), ("all", "all_"),
  ("any", "any_"), ("ne", "__ne__"), ("not", "__ne__"),
  ("contains", "contains"), ("endswith", "endswith"), ("ilike", "ilike"),
  ("in", "in_"), ("is", "is_"), ("is_distinct_from", "is_distinct_from"),
  ("isnot", "isnot"), ("isnot_distinct_from", "isnot_distinct_from"),
  ("like", "like"), ("match", "match"), ("notilike", "notilike"),
  ("notlike", "notlike"), ("notin", "notin_"), ("startswith", "startswith")]

/-- A filter clause: an opaque sqlalchemy expression passed positionally,
or `getattr(col, QUERY_OPS[op])(v)` — a column method applied to a value. -/
inductive SQLClause where
  | raw (tag : String)
  | colop (col : SQLColumn) (meth : String) (v : PyVal)
deriving DecidableEq, Repr

/-- An ordering clause: `col.asc()`, `col.desc()`, or an opaque
expression passed through. -/
inductive SQLOrder where
  | asc (col : SQLColumn)
  | desc (col : SQLColumn)
  | raw (tag : String)
deriving DecidableEq, Repr

/-- A distinct clause: a resolved column or an opaque expression. -/
inductive SQLDistinct where
  | col (c : SQLColumn)
  | raw (tag : String)
deriving DecidableEq, Repr

/-- What the query builder reads off an atom `Member`: the physical column
rename (`metadata["name"]`), whether it is a `Relation`, and the model
named by `resolve_member_types(m)[0]` when that type is a model class
(`Option.none` both when `resolve_member_types` gives nothing and when the
member's type is not a model — either way the relation walk fails with an
exception in the source). -/
structure SQLMember where
  metaName : Option String
  isRelation : Bool
  target : Option String
deriving DecidableEq, Repr

/-- What the query builder reads off a model class: `__model__` (also the
table name), `__pk__`, the member dict and the physical column names of
its table. -/
structure SQLModelInfo where
  mname : String
  pk : String
  members : List (String × SQLMember)
  columns : List String
deriving DecidableEq, Repr

/-- The model classes reachable from relation walks, by `__model__`. -/
abbrev SQLModelDB : Type := List (String × SQLModelInfo)

/-- `s.split("__")` (Python `str.split` with the two-underscore
separator), over the character list so that it evaluates by reduction. -/
def splitUUChars : List Char → List Char → List (List Char)
  | [], acc => [acc.reverse]
  | '_' :: '_' :: rest, acc => acc.reverse :: splitUUChars rest []
  | c :: rest, acc => splitUUChars rest (c :: acc)

def pySplitUU (s : String) : List String :=
  (splitUUChars s.data []).map String.mk

/-- `"__".join(parts)`. -/
def joinUU : List String → String
  | [] => ""
  | [x] => x
  | x :: y :: rest => x ++ "__" ++ joinUU (y :: rest)

/-- The `for part in related_parts` walk of `resolve_member_column`:
follow the foreign-key members from model to model. -/
def relationWalk (db : SQLModelDB) : List String → SQLModelInfo →
    Except String SQLModelInfo
  | [], model => .ok model
  | part :: rest, model =>
    match lookupKV part model.members with
    | Option.none => .error "ValueError: Invalid field"
    | some m =>
      match m.target with
      | Option.none => .error "ValueError: Invalid field"
      | some t =>
        match lookupKV t db with
        | Option.none => .error "ValueError: Invalid field"
        | some relModel => relationWalk db rest relModel

/-- The tail of `resolve_member_column` after any relation walk: the
member lookup, the `metadata["name"]` rename, the `Relation` hop to the
target model's primary key (appending the renamed field to
`related_clauses`), and finally `table.columns.get(field)`. -/
def resolveColumnTail (db : SQLModelDB) (model : SQLModelInfo) (field : String)
    (related_clauses : Option (List String)) :
    Except String (Option (List String) × SQLColumn) :=
  match lookupKV field model.members with
  | some m =>
    let field1 := m.metaName.getD field
    if m.isRelation then
      match m.target.bind (fun t => lookupKV t db) with
      | Option.none => .error "ValueError: Invalid field"
      | some model2 =>
        let rc := match related_clauses with
          | some rcs => some (if field1 ∈ rcs then rcs else rcs ++ [field1])
          | Option.none => Option.none
        if model2.pk ∈ model2.columns then .ok (rc, ⟨model2.mname, model2.pk⟩)
        else .error "ValueError: Invalid field"
    else
      if field1 ∈ model.columns then .ok (related_clauses, ⟨model.mname, field1⟩)
      else .error "ValueError: Invalid field"
  | Option.none =>
    if field ∈ model.columns then .ok (related_clauses, ⟨model.mname, field⟩)
    else .error "ValueError: Invalid field"

/-- `resolve_member_column`: resolve a (possibly `__`-joined) field path to
a physical column.  The source appends the traversed relation path to the
`related_clauses` list in place; here the updated list is returned. -/
def resolve_member_column (db : SQLModelDB) (model : Option SQLModelInfo)
    (field : String) (related_clauses : Option (List String)) :
    Except String (Option (List String) × SQLColumn) :=
  match model with
  | Option.none => .error "ValueError: Invalid field"
  | some model0 =>
    if field = "" then .error "ValueError: Invalid field"
    else
      let parts := pySplitUU field
      if parts.length ≤ 1 then resolveColumnTail db model0 field related_clauses
      else
        let relParts := parts.dropLast
        let f0 := parts.getLastD ""
        let clause := joinUU relParts
        let rc := match related_clauses with
          | some rcs => some (if clause ∈ rcs then rcs else rcs ++ [clause])
          | Option.none => Option.none
        match relationWalk db relParts model0 with
        | .error e => .error e
        | .ok m2 => resolveColumnTail db m2 f0 rc

/-- `SQLQuerySet`: the query builder state.  The `proxy` is represented by
the owning model's `__model__` name; `connection` is an opaque value. -/
structure SQLQuerySet where
  proxyModel : String
  connection : PyVal
  filter_clauses : List SQLClause
  related_clauses : List String
  outer_join : Bool
  order_clauses : List SQLOrder
  distinct_clauses : List SQLDistinct
  limit_count : Int
  query_offset : Int
deriving DecidableEq, Repr

/-- The heap of queryset instances, by object identity. -/
abbrev QSStore : Type := List (Nat × SQLQuerySet)

def qsLookup (i : Nat) : QSStore → Option SQLQuerySet
  | [] => Option.none
  | (j, qs) :: rest => if j = i then some qs else qsLookup i rest

/-- An object identity unused in the store. -/
def qsFresh (store : QSStore) : Nat :=
  (store.map Prod.fst).foldr (fun a b => max a b) 0 + 1

/-- `SQLQuerySet.clone`: the receiver's full `__getstate__`, updated with
the keyword overrides, passed to `self.__class__(...)` — a fresh
instance is constructed and the receiver is not written to. -/
def SQLQuerySet.clone (store : QSStore) (self : SQLQuerySet)
    (overrides : SQLQuerySet → SQLQuerySet) : QSStore × Nat :=
  let j := qsFresh store
  (store ++ [(j, overrides self)], j)

/-- `SQLQuerySet.select_related`. -/
def SQLQuerySet.select_related (store : QSStore) (self : SQLQuerySet)
    (related : List String) (outer_join : Option Bool) : QSStore × Nat :=
  let oj := match outer_join with | Option.none => self.outer_join | some b => b
  SQLQuerySet.clone store self (fun s =>
    { s with related_clauses := self.related_clauses ++ related, outer_join := oj })

/-- An argument to `order_by`: a django-style field name or a prebuilt
sqlalchemy clause. -/
inductive OrderArg where
  | fname (s : String)
  | expr (c : SQLOrder)
deriving DecidableEq, Repr

/-- The `for arg in args` loop of `order_by` over the copies of
`order_clauses` and `related_clauses` (a `"-"` first character means
descending; `arg[0]` on the empty string is an `IndexError`). -/
def orderByLoop (db : SQLModelDB) (model : Option SQLModelInfo) :
    List OrderArg → List SQLOrder → List String →
    Except String (List SQLOrder × List String)
  | [], ocs, rcs => .ok (ocs, rcs)
  | .fname s :: rest, ocs, rcs =>
    match s.data with
    | [] => .error "IndexError: string index out of range"
    | c0 :: ctail =>
      -- `arg[0] == "-"` denotes descending, with `field = arg[1:]`
      let field := if c0 = '-' then String.mk ctail else s
      match resolve_member_column db model field (some rcs) with
      | .error e => .error e
      | .ok (rc2, col) =>
        let clause := if c0 = '-' then SQLOrder.desc col else SQLOrder.asc col
        orderByLoop db model rest (if clause ∈ ocs then ocs else ocs ++ [clause])
          (rc2.getD rcs)
  | .expr c :: rest, ocs, rcs =>
    orderByLoop db model rest (if c ∈ ocs then ocs else ocs ++ [c]) rcs

/-- `SQLQuerySet.order_by`. -/
def SQLQuerySet.order_by (db : SQLModelDB) (store : QSStore)
    (self : SQLQuerySet) (args : List OrderArg) :
    Except String (QSStore × Nat) :=
  match orderByLoop db (lookupKV self.proxyModel db) args self.order_clauses
      self.related_clauses with
  | .error e => .error e
  | .ok (ocs, rcs) =>
    .ok (SQLQuerySet.clone store self (fun s =>
      { s with order_clauses := ocs, related_clauses := rcs }))

/-- An argument to `distinct`: a field name or a prebuilt clause. -/
inductive DistArg where
  | fname (s : String)
  | expr (c : SQLDistinct)
deriving DecidableEq, Repr

/-- The `for arg in args` loop of `distinct`. -/
def distinctLoop (db : SQLModelDB) (model : Option SQLModelInfo) :
    List DistArg → List SQLDistinct → List String →
    Except String (List SQLDistinct × List String)
  | [], dcs, rcs => .ok (dcs, rcs)
  | .fname s :: rest, dcs, rcs =>
    match resolve_member_column db model s (some rcs) with
    | .error e => .error e
    | .ok (rc2, col) =>
      let clause := SQLDistinct.col col
      distinctLoop db model rest (if clause ∈ dcs then dcs else dcs ++ [clause])
        (rc2.getD rcs)
  | .expr c :: rest, dcs, rcs =>
    distinctLoop db model rest (if c ∈ dcs then dcs else dcs ++ [c]) rcs

/-- `SQLQuerySet.distinct`. -/
def SQLQuerySet.distinct (db : SQLModelDB) (store : QSStore)
    (self : SQLQuerySet) (args : List DistArg) :
    Except String (QSStore × Nat) :=
  match distinctLoop db (lookupKV self.proxyModel db) args self.distinct_clauses
      self.related_clauses with
  | .error e => .error e
  | .ok (dcs, rcs) =>
    .ok (SQLQuerySet.clone store self (fun s =>
      { s with distinct_clauses := dcs, related_clauses := rcs }))

/-- `flatten_object` of the SQL serializer: a model flattens to its
`_id`. -/
def sqlFlattenObject (v : PyVal) : PyVal :=
  match v with
  | .pmodel _ _ id _ _ => if id = "" then PyVal.none else .str id
  | v => v

/-- The value mapping in `filter`: a model value is flattened with
`flatten_object`; for the `in` / `notin` operations the elements of a list
value are flattened likewise (`serializer.flatten`); everything else
passes through. -/
def filterValue (op : String) (v : PyVal) : PyVal :=
  match v with
  | .pmodel c r id re fs => sqlFlattenObject (.pmodel c r id re fs)
  | .plist xs =>
    if op = "in" ∨ op = "notin" then .plist (xs.map sqlFlattenObject)
    else .plist xs
  | v => v

/-- The `for k, v in kwargs.items()` loop of `filter` over the clause and
related-clause lists and the connection value: the connection keyword is
captured, a trailing `__op` in `QUERY_OPS` selects the column method, the
column is resolved, and the built clause is appended. -/
def filterKwargsLoop (db : SQLModelDB) (ck : String)
    (model : Option SQLModelInfo) :
    List (String × PyVal) → List SQLClause → List String → PyVal →
    Except String (List SQLClause × List String × PyVal)
  | [], fcs, rcs, conn => .ok (fcs, rcs, conn)
  | (k, v) :: rest, fcs, rcs, conn =>
    if k = ck then filterKwargsLoop db ck model rest fcs rcs v
    else
      let opk : String × String :=
        if (pySplitUU k).length > 1 ∧
            hasKey ((pySplitUU k).getLastD "") QUERY_OPS then
          (((pySplitUU k).getLastD ""), joinUU (pySplitUU k).dropLast)
        else ("eq", k)
      match resolve_member_column db model opk.2 (some rcs) with
      | .error e => .error e
      | .ok (rc2, col) =>
        match lookupKV opk.1 QUERY_OPS with
        | Option.none => .error "KeyError"
        | some meth =>
          filterKwargsLoop db ck model rest
            (fcs ++ [SQLClause.colop col meth (filterValue opk.1 v)])
            (rc2.getD rcs) conn

/-- `SQLQuerySet.filter` (`ck` is the proxy's `connection_kwarg`). -/
def SQLQuerySet.filter (db : SQLModelDB) (ck : String) (store : QSStore)
    (self : SQLQuerySet) (args : List SQLClause)
    (kwargs : List (String × PyVal)) : Except String (QSStore × Nat) :=
  match filterKwargsLoop db ck (lookupKV self.proxyModel db) kwargs
      (self.filter_clauses ++ args) self.related_clauses self.connection with
  | .error e => .error e
  | .ok (fcs, rcs, conn) =>
    .ok (SQLQuerySet.clone store self (fun s =>
      { s with connection := conn, filter_clauses := fcs,
               related_clauses := rcs }))

/-- `SQLQuerySet.limit`. -/
def SQLQuerySet.limit (store : QSStore) (self : SQLQuerySet) (n : Int) :
    QSStore × Nat :=
  SQLQuerySet.clone store self (fun s => { s with limit_count := n })

/-- `SQLQuerySet.offset`. -/
def SQLQuerySet.offset (store : QSStore) (self : SQLQuerySet) (n : Int) :
    QSStore × Nat :=
  SQLQuerySet.clone store self (fun s => { s with query_offset := n })

/-- A key passed to `SQLQuerySet.__getitem__`: an int, a slice, or any
other object. -/
inductive QSKey where
  | int (n : Int)
  | slice (start stop : Option Int)
  | other
deriving DecidableEq, Repr

/-- `SQLQuerySet.__getitem__`.  For a slice, `offset = key.start or 0` and
`limit = key.stop - key.start if key.stop else 0`: a `None` or `0` stop
yields limit `0`, while a truthy stop next to a `None` start evaluates
`int - None`, a `TypeError`.  Negative offsets and limits raise
`ValueError`. -/
def SQLQuerySet.getitem (store : QSStore) (self : SQLQuerySet) (key : QSKey) :
    Except String (QSStore × Nat) :=
  match key with
  | .slice start stop =>
    let offset : Int := match start with | some a => a | Option.none => 0
    match (match stop with
           | some b =>
             if b ≠ 0 then
               match start with
               | some a => Except.ok (b - a)
               | Option.none =>
                 Except.error "TypeError: unsupported operand type(s) for -"
             else Except.ok 0
           | Option.none => Except.ok (0 : Int)) with
    | .error e => .error e
    | .ok limit =>
      if offset < 0 then .error "ValueError: Cannot use a negative offset"
      else if limit < 0 then .error "ValueError: Cannot use a negative limit"
      else .ok (SQLQuerySet.clone store self (fun s =>
        { s with limit_count := limit, query_offset := offset }))
  | .int n =>
    if n < 0 then .error "ValueError: Cannot use a negative offset"
    else if (1 : Int) < 0 then .error "ValueError: Cannot use a negative limit"
    else .ok (SQLQuerySet.clone store self (fun s =>
      { s with limit_count := 1, query_offset := n }))
  | .other => .error "TypeError: Invalid key"

/-- One chain-method call on a queryset. -/
inductive ChainCall where
  | cfilter (args : List SQLClause) (kwargs : List (String × PyVal))
  | corder_by (args : List OrderArg)
  | cdistinct (args : List DistArg)
  | cselect_related (related : List String) (outer_join : Option Bool)
  | climit (n : Int)
  | coffset (n : Int)
  | citem (key : QSKey)

/-- Dispatch one chain-method call. -/
def applyChain (db : SQLModelDB) (ck : String) (store : QSStore)
    (self : SQLQuerySet) : ChainCall → Except String (QSStore × Nat)
  | .cfilter args kwargs => SQLQuerySet.filter db ck store self args kwargs
  | .corder_by args => SQLQuerySet.order_by db store self args
  | .cdistinct args => SQLQuerySet.distinct db store self args
  | .cselect_related related oj =>
    .ok (SQLQuerySet.select_related store self related oj)
  | .climit n => .ok (SQLQuerySet.limit store self n)
  | .coffset n => .ok (SQLQuerySet.offset store self n)
  | .citem key => SQLQuerySet.getitem store self key

/-! ### The select query and the reference backend -/

/-- The single-table select built by `SQLQuerySet.query("select")`: each
clause group is applied only when non-empty, limit and offset only when
truthy (`if self.limit_count: q = q.limit(...)`). -/
structure SelectQuery where
  distinctOn : List SQLDistinct
  whereClauses : List SQLClause
  orderBy : List SQLOrder
  limitTo : Option Int
  offsetBy : Option Int
deriving DecidableEq, Repr

/-- `SQLQuerySet.query("select")` (the related-clause joins widen the
selected columns and do not narrow the rows of the base table). -/
def SQLQuerySet.query (self : SQLQuerySet) : SelectQuery :=
  { distinctOn := self.distinct_clauses
    whereClauses := self.filter_clauses
    orderBy := self.order_clauses
    limitTo := if self.limit_count ≠ 0 then some self.limit_count else Option.none
    offsetBy :=
      if self.query_offset ≠ 0 then some self.query_offset else Option.none }

/-- A database row. -/
abbrev Row : Type := List (String × PyVal)

/-- Value ordering used by the reference backend for the comparison
operators: integer and string comparisons. -/
def pyLt : PyVal → PyVal → Bool
  | .int a, .int b => a < b
  | .str a, .str b => decide (a < b)
  | _, _ => false

/-- The reference meaning of one emitted filter clause on a row (the
evaluation itself happens in the external database engine). -/
def rowMatches (row : Row) : SQLClause → Bool
  | .raw _ => false
  | .colop col meth v =>
    match lookupKV col.colname row with
    | Option.none => false
    | some x =>
      if meth = "__eq__" then pyEq x v
      else if meth = "__ne__" then ¬ (pyEq x v)
      else if meth = "__lt__" then pyLt x v
      else if meth = "__le__" then pyLt x v || pyEq x v
      else if meth = "__gt__" then pyLt v x
      else if meth = "__ge__" then pyLt v x || pyEq x v
      else if meth = "in_" then
        (match v with | .plist xs => xs.any (fun y => pyEq x y) | _ => false)
      else if meth = "notin_" then
        (match v with | .plist xs => ¬ xs.any (fun y => pyEq x y) | _ => false)
      else false

/-- The reference backend for a select: keep the rows satisfying every
where clause, then apply the offset and the limit.  (Ordering and
distinct are not interpreted: rows come back in table order.) -/
def runSelect (table : List Row) (q : SelectQuery) : List Row :=
  let rs := table.filter (fun r => q.whereClauses.all (rowMatches r))
  let rs2 := match q.offsetBy with
    | some o => rs.drop o.toNat
    | Option.none => rs
  match q.limitTo with
  | some l => rs2.take l.toNat
  | Option.none => rs2

/-- `SQLTableProxy.fetchone`: the first row of the query's results, or
`None`. -/
def sqlFetchone (table : List Row) (q : SelectQuery) : Option Row :=
  (runSelect table q).head?

/-! ### `SQLModel.restore` and `SQLQuerySet.get` -/

/-- The class-level data `SQLModel.restore` / `__restorestate__` use: the
SQL naming (`__model__`, `__pk__`, per-member column renames) plus the
base-layer class info driving the inherited `__restorestate__`.
Specialized to models whose members are scalar columns, so the
foreign-key and `Relation` branches of `__restorestate__` are never
taken. -/
structure SQLClassR where
  mname : String
  pk : String
  members : List (String × Option String)
  ci : ClassInfo

/-- The cleaned state `SQLModel.__restorestate__` extracts from a row:
when the row carries joined labels (the `<model>_<pk>` key is present)
each member is read from its `<table>_<column>` label, otherwise from its
(possibly renamed) column name; missing columns are skipped. -/
def sqlCleanedState (sc : SQLClassR) (row : Row) : List (String × PyVal) :=
  if hasKey (sc.mname ++ "_" ++ sc.pk) row then
    sc.members.filterMap (fun nm =>
      match lookupKV (sc.mname ++ "_" ++ (nm.2.getD nm.1)) row with
      | some v => some (nm.1, v)
      | Option.none => Option.none)
  else
    sc.members.filterMap (fun nm =>
      match lookupKV (nm.2.getD nm.1) row with
      | some v => some (nm.1, v)
      | Option.none => Option.none)

/-- The per-class identity cache (`SQLTableProxy.cache`), keyed by primary
key value. -/
abbrev SQLCache : Type := List (PyVal × MObj)

def cacheGet (pk : PyVal) : SQLCache → Option MObj
  | [] => Option.none
  | (k, o) :: rest => if pyEq k pk then some o else cacheGet pk rest

def cacheSet (pk : PyVal) (o : MObj) : SQLCache → SQLCache
  | [] => [(pk, o)]
  | (k, o0) :: rest =>
    if pyEq k pk then (k, o) :: rest else (k, o0) :: cacheSet pk o rest

/-- `SQLModel.restore`: pull the primary key from the row (the joined
label first, else the plain column, a `KeyError` when both are absent),
check the identity cache, create and cache a fresh instance when absent,
and `__restorestate__` it when newly created, forced, or not yet
restored.  The cache entry aliases the instance in the source, so the
(possibly partially) restored object replaces it here. -/
def SQLModel_restore (reg : Registry) (sc : SQLClassR) (cache : SQLCache)
    (row : Row) (force : Bool) (us : UState) :
    (Except String MObj × SQLCache) × UState :=
  match (match lookupKV (sc.mname ++ "_" ++ sc.pk) row with
         | some pk => some pk
         | Option.none => lookupKV sc.pk row) with
  | Option.none => ((.error "KeyError", cache), us)
  | some pk =>
    match cacheGet pk cache with
    | Option.none =>
      let obj : MObj := ⟨sc.mname, "", "", false, sc.ci.defaults⟩
      let res := restorestate reg sc.ci obj (sqlCleanedState sc row) us
      ((match res.result with
        | .ok _ => .ok res.obj
        | .error e => .error e, cacheSet pk res.obj cache), res.ustate)
    | some obj =>
      if force || !obj.restored then
        let res := restorestate reg sc.ci obj (sqlCleanedState sc row) us
        ((match res.result with
          | .ok _ => .ok res.obj
          | .error e => .error e, cacheSet pk res.obj cache), res.ustate)
      else ((.ok obj, cache), us)

/-- `SQLQuerySet.get` (the terminal call, no extra filter arguments):
fetch one row for the select query; `None` when no row matched, otherwise
the model restored from that row. -/
def SQLQuerySet.get (reg : Registry) (sc : SQLClassR) (table : List Row)
    (cache : SQLCache) (self : SQLQuerySet) (force : Bool) (us : UState) :
    (Except String (Option MObj) × SQLCache) × UState :=
  match sqlFetchone table (SQLQuerySet.query self) with
  | Option.none => ((.ok Option.none, cache), us)
  | some row =>
    match SQLModel_restore reg sc cache row force us with
    | ((.ok obj, cache2), us2) => ((.ok (some obj), cache2), us2)
    | ((.error e, cache2), us2) => ((.error e, cache2), us2)

/-! ### `SQLMeta` and `SQLModel.save` -/

/-- The member description `SQLMeta.__new__` examines: whether the member
is a `Relation` and its `metadata["name"]` rename. -/
structure SQLMemberDesc where
  isRelation : Bool
  metaName : Option String
deriving DecidableEq, Repr

/-- A model class as seen by `SQLMeta.__new__` and `save`: `__model__`,
`__pk__`, the member dict, and `__fields__` (the stored members that
`__getstate__` serializes). -/
structure SQLClassDesc where
  mname : String
  pk : String
  members : List (String × SQLMemberDesc)
  sfields : List String
deriving DecidableEq, Repr

/-- `__excluded_fields__`: `{"__model__", "__ref__", "_id"}` plus every
`Relation` member. -/
def excludedFields (cd : SQLClassDesc) : List String :=
  ["__model__", "__ref__", "_id"] ++
    (cd.members.filter (fun nm => nm.2.isRelation)).map Prod.fst

/-- `__renamed_fields__`: `metadata["name"]` of every non-excluded member
that has one. -/
def renamedFields (cd : SQLClassDesc) : List (String × String) :=
  cd.members.filterMap (fun nm =>
    if nm.1 ∈ excludedFields cd then Option.none
    else match nm.2.metaName with
      | some n2 => some (nm.1, n2)
      | Option.none => Option.none)

/-- An `SQLModel` instance: the integer primary key `_id` (`None` when
unset), the restored flag and the persisted member values. -/
structure SQLInst where
  ref : String
  id : Option Int
  restored : Bool
  fields : List (String × PyVal)
deriving DecidableEq, Repr

/-- Truthiness of `self._id`: `None` and `0` are falsy. -/
def idTruthy : Option Int → Bool
  | Option.none => false
  | some n => n != 0

/-- A field value as the SQL serializer flattens it: a model value
flattens to its `_id` (`SQLModelSerializer.flatten_object`); everything
else as in the base serializer (scalars to themselves, tagged scalars to
their `__py__` records). -/
def sqlFlattenField (v : PyVal) : PyVal :=
  match v with
  | .pmodel c r id re fs => sqlFlattenObject (.pmodel c r id re fs)
  | v => (flatten v []).1

/-- `Model.__getstate__` for an SQL model: `__model__` and `__ref__`,
`_id` when not `None`, then each stored field's flattened value (a member
never assigned reads its default; `None` here). -/
def sql_getstate (cd : SQLClassDesc) (self : SQLInst) :
    List (String × PyVal) :=
  [("__model__", PyVal.str cd.mname), ("__ref__", PyVal.str self.ref)] ++
  (match self.id with
   | some n => [("_id", PyVal.int n)]
   | Option.none => []) ++
  cd.sfields.map (fun f =>
    (f, sqlFlattenField ((lookupKV f self.fields).getD PyVal.none)))

/-- `state[db_name] = state.pop(py_name)` for each renamed field, in
order; `pop` raises a `KeyError` when the attribute is not in the
state. -/
def renameLoop : List (String × String) → List (String × PyVal) →
    Except String (List (String × PyVal))
  | [], st => .ok st
  | (py, dbn) :: rest, st =>
    match lookupKV py st with
    | Option.none => .error "KeyError"
    | some v => renameLoop rest (dictSet dbn v (eraseKey py st))

/-- The state `save` writes: `__getstate__` minus `__excluded_fields__`,
with every renamed field rewritten to its physical column name. -/
def savePayload (cd : SQLClassDesc) (self : SQLInst) :
    Except String (List (String × PyVal)) :=
  renameLoop (renamedFields cd)
    ((excludedFields cd).foldl (fun st f => eraseKey f st)
      (sql_getstate cd self))

/-- The backend's reply to an executed statement: MySQL results carry
`lastrowid`, Postgres results answer `scalar()`; `rowcount` for
updates. -/
structure ExecResult where
  lastrowid : Option Int
  scalarv : Option Int
  rowcount : Nat
deriving DecidableEq, Repr

/-- The generated key `save` reads back: `r.lastrowid` when the result
object has one, else `await r.scalar()`. -/
def genKey (r : ExecResult) : Option Int :=
  match r.lastrowid with
  | some l => some l
  | Option.none => r.scalarv

/-- The statement `save` executes. -/
inductive WriteQuery where
  | insert (values : List (String × PyVal))
  | update (pk : String) (id : Option Int) (values : List (String × PyVal))
deriving DecidableEq, Repr

/-- The per-class identity cache as `save` uses it, keyed by `self._id`. -/
abbrev InstCache : Type := List (Option Int × SQLInst)

def instCacheSet (k : Option Int) (o : SQLInst) : InstCache → InstCache
  | [] => [(k, o)]
  | (k0, o0) :: rest =>
    if k0 = k then (k, o) :: rest else (k0, o0) :: instCacheSet k o rest

/-- `{f: state[f] for f in update_fields}` (a `KeyError` when a field is
not in the state). -/
def pickFields (fs : List String) (st : List (String × PyVal)) :
    Except String (List (String × PyVal)) :=
  match fs with
  | [] => .ok []
  | f :: rest =>
    match lookupKV f st with
    | Option.none => .error "KeyError"
    | some v =>
      match pickFields rest st with
      | .ok t => .ok ((f, v) :: t)
      | .error e => .error e

/-- `SQLModel.save`: forced or pk-present saves update the row (restricted
to the given `update_fields` when supplied); otherwise an insert is
emitted with the unset pk dropped from the payload, the generated key from
the backend's reply `r` is assigned when the pk was unset, the instance is
registered in the identity cache under `self._id`, and in every branch the
instance is marked restored. -/
def sqlSave (cd : SQLClassDesc) (self : SQLInst) (cache : InstCache)
    (force_insert force_update : Bool)
    (update_fields : Option (List String)) (r : ExecResult) :
    Except String (WriteQuery × SQLInst × InstCache) :=
  if force_insert ∧ force_update then
    .error "ValueError: Cannot use force_insert and force_update together"
  else
    match savePayload cd self with
    | .error e => .error e
    | .ok st =>
      if force_update || (idTruthy self.id && !force_insert) then
        match (match update_fields with
               | Option.none => Except.ok st
               | some ufs =>
                 pickFields
                   (ufs.map (fun f => (lookupKV f (renamedFields cd)).getD f))
                   st) with
        | .error e => .error e
        | .ok st2 =>
          -- a zero rowcount only emits a log warning
          .ok (.update cd.pk self.id st2, { self with restored := true }, cache)
      else
        let st2 := if !idTruthy self.id then eraseKey cd.pk st else st
        let self2 :=
          if !idTruthy self.id then { self with id := genKey r } else self
        let self3 := { self2 with restored := true }
        .ok (.insert st2, self3, instCacheSet self2.id self3 cache)

/-! ### C3: chain methods never mutate the receiver -/

theorem qsLookup_append (i : Nat) (b : SQLQuerySet) (p : Nat × SQLQuerySet) :
    ∀ store : QSStore, qsLookup i store = some b →
      qsLookup i (store ++ [p]) = some b := by
  intro store
  induction store with
  | nil => intro hb; simp [qsLookup] at hb
  | cons q t ih =>
    intro hb
    obtain ⟨j, qs⟩ := q
    simp only [qsLookup] at hb
    simp only [List.cons_append, qsLookup]
    by_cases h : j = i
    · rw [if_pos h] at hb ⊢; exact hb
    · rw [if_neg h] at hb ⊢; exact ih hb

theorem qsLookup_mem_bound (i : Nat) (b : SQLQuerySet) :
    ∀ store : QSStore, qsLookup i store = some b →
      i ≤ (store.map Prod.fst).foldr (fun a c => max a c) 0 := by
  intro store
  induction store with
  | nil => intro hb; simp [qsLookup] at hb
  | cons q t ih =>
    intro hb
    obtain ⟨j, qs⟩ := q
    simp only [qsLookup] at hb
    simp only [List.map_cons, List.foldr_cons]
    by_cases h : j = i
    · rw [h]; exact le_max_left _ _
    · rw [if_neg h] at hb
      exact le_trans (ih hb) (le_max_right _ _)

theorem qsLookup_fresh (store : QSStore) :
    qsLookup (qsFresh store) store = Option.none := by
  cases hl : qsLookup (qsFresh store) store with
  | none => rfl
  | some b =>
    have hle := qsLookup_mem_bound _ b store hl
    simp only [qsFresh] at hle
    omega

theorem qsFresh_ne {store : QSStore} {i : Nat} {b : SQLQuerySet}
    (hb : qsLookup i store = some b) : qsFresh store ≠ i := by
  intro he
  have h0 := qsLookup_fresh store
  rw [he, hb] at h0
  cases h0

/-- Inversion for a successful method call: every chain method returns
through `clone`, so the new store is the old one with a single fresh
allocation. -/
theorem ok_clone_inv {store store2 : QSStore} {j : Nat} {self : SQLQuerySet}
    {f : SQLQuerySet → SQLQuerySet}
    (h : (Except.ok (SQLQuerySet.clone store self f) :
      Except String (QSStore × Nat)) = .ok (store2, j)) :
    store2 = store ++ [(j, f self)] ∧ j = qsFresh store := by
  injection h with h2
  have hcl : SQLQuerySet.clone store self f =
      (store ++ [(qsFresh store, f self)], qsFresh store) := rfl
  rw [hcl] at h2
  have hs : store ++ [(qsFresh store, f self)] = store2 := congrArg Prod.fst h2
  have hj : qsFresh store = j := congrArg Prod.snd h2
  refine ⟨?_, hj.symm⟩
  rw [← hj]
  exact hs.symm

/-- C3: every chain method of `SQLQuerySet` (`filter`, `order_by`,
`distinct`, `select_related`, `limit`, `offset` and `__getitem__`) that
returns builds its result with `clone`: the returned queryset is a fresh
instance (an identity unbound before the call), the store grows by exactly
that one allocation, and the receiver — in particular every one of its
clause lists, its limit, offset and connection — is left unchanged. -/
theorem queryset_chain_immutable (db : SQLModelDB) (ck : String)
    (store store2 : QSStore) (i j : Nat) (b : SQLQuerySet) (c : ChainCall)
    (hb : qsLookup i store = some b)
    (h : applyChain db ck store b c = .ok (store2, j)) :
    qsLookup i store2 = some b ∧ j ≠ i ∧ qsLookup j store = Option.none ∧
    ∃ qs2, store2 = store ++ [(j, qs2)] := by
  have main : ∃ qs2, store2 = store ++ [(j, qs2)] ∧ j = qsFresh store := by
    cases c with
    | cfilter args kwargs =>
      simp only [applyChain, SQLQuerySet.filter] at h
      split at h
      · cases h
      · obtain ⟨hs, hj⟩ := ok_clone_inv h
        exact ⟨_, hs, hj⟩
    | corder_by args =>
      simp only [applyChain, SQLQuerySet.order_by] at h
      split at h
      · cases h
      · obtain ⟨hs, hj⟩ := ok_clone_inv h
        exact ⟨_, hs, hj⟩
    | cdistinct args =>
      simp only [applyChain, SQLQuerySet.distinct] at h
      split at h
      · cases h
      · obtain ⟨hs, hj⟩ := ok_clone_inv h
        exact ⟨_, hs, hj⟩
    | cselect_related related oj =>
      simp only [applyChain, SQLQuerySet.select_related] at h
      obtain ⟨hs, hj⟩ := ok_clone_inv h
      exact ⟨_, hs, hj⟩
    | climit n =>
      simp only [applyChain, SQLQuerySet.limit] at h
      obtain ⟨hs, hj⟩ := ok_clone_inv h
      exact ⟨_, hs, hj⟩
    | coffset n =>
      simp only [applyChain, SQLQuerySet.offset] at h
      obtain ⟨hs, hj⟩ := ok_clone_inv h
      exact ⟨_, hs, hj⟩
    | citem key =>
      cases key with
      | slice start stop =>
        simp only [applyChain, SQLQuerySet.getitem] at h
        split at h
        · cases h
        · split at h
          · cases h
          · split at h
            · cases h
            · obtain ⟨hs, hj⟩ := ok_clone_inv h
              exact ⟨_, hs, hj⟩
      | int n =>
        simp only [applyChain, SQLQuerySet.getitem] at h
        split at h
        · cases h
        · split at h
          · cases h
          · obtain ⟨hs, hj⟩ := ok_clone_inv h
            exact ⟨_, hs, hj⟩
      | other =>
        simp only [applyChain, SQLQuerySet.getitem] at h
        cases h
  obtain ⟨qs2, hs, hj⟩ := main
  subst hj
  exact ⟨hs ▸ qsLookup_append i b _ store hb, qsFresh_ne hb,
    qsLookup_fresh store, qs2, hs⟩

/-- C3 witness: `b.filter(x=1)` on a one-element store — the receiver's
record is unchanged and the result is a fresh instance. -/
theorem queryset_chain_immutable_witness :
    qsLookup 0 [(0, (⟨"m", PyVal.none, [], [], false, [], [], 0, 0⟩ : SQLQuerySet)),
        (1, ⟨"m", PyVal.none, [SQLClause.colop ⟨"m", "x"⟩ "__eq__" (PyVal.int 1)],
          [], false, [], [], 0, 0⟩)] =
      some ⟨"m", PyVal.none, [], [], false, [], [], 0, 0⟩ ∧
    (1 : Nat) ≠ 0 ∧
    qsLookup 1 [(0, (⟨"m", PyVal.none, [], [], false, [], [], 0, 0⟩ : SQLQuerySet))] =
      Option.none := by
  have H := queryset_chain_immutable
    [("m", ⟨"m", "_id", [("x", ⟨Option.none, false, Option.none⟩)], ["x", "_id"]⟩)]
    "connection"
    [(0, ⟨"m", PyVal.none, [], [], false, [], [], 0, 0⟩)]
    [(0, ⟨"m", PyVal.none, [], [], false, [], [], 0, 0⟩),
      (1, ⟨"m", PyVal.none, [SQLClause.colop ⟨"m", "x"⟩ "__eq__" (PyVal.int 1)],
        [], false, [], [], 0, 0⟩)]
    0 1 ⟨"m", PyVal.none, [], [], false, [], [], 0, 0⟩
    (.cfilter [] [("x", PyVal.int 1)]) (by rfl) (by rfl)
  exact ⟨H.1, H.2.1, H.2.2.1⟩

/-! ### C9: `__getitem__` -/

/-- C9 (amended): indexing with a non-negative integer `i` clones with
limit `1` and offset `i`, and a negative integer raises `ValueError`.
Slicing with a non-`None`, non-zero stop clones with offset `start` and
limit `stop - start` when that is non-negative, and raises `ValueError`
when the offset or that limit is negative.  But a slice whose stop is `0`
(or `None`) never reaches the negative-limit check: `if key.stop` is falsy
for `0`, so the limit is set to `0` — meaning no limit is applied — and
the call succeeds for any start beyond the stop; `qs[2:0]` returns a
queryset with offset `2` and limit `0` instead of raising
(`queryset_getitem_counterexample`). -/
theorem queryset_getitem_spec :
    (∀ (store : QSStore) (self : SQLQuerySet) (n : Int), 0 ≤ n →
      SQLQuerySet.getitem store self (.int n) =
        .ok (store ++ [(qsFresh store,
          { self with limit_count := 1, query_offset := n })], qsFresh store)) ∧
    (∀ (store : QSStore) (self : SQLQuerySet) (n : Int), n < 0 →
      SQLQuerySet.getitem store self (.int n) =
        .error "ValueError: Cannot use a negative offset") ∧
    (∀ (store : QSStore) (self : SQLQuerySet) (a b : Int), 0 ≤ a → b ≠ 0 →
      a ≤ b →
      SQLQuerySet.getitem store self (.slice (some a) (some b)) =
        .ok (store ++ [(qsFresh store,
          { self with limit_count := b - a, query_offset := a })],
          qsFresh store)) ∧
    (∀ (store : QSStore) (self : SQLQuerySet) (a b : Int), 0 ≤ a → b ≠ 0 →
      b - a < 0 →
      SQLQuerySet.getitem store self (.slice (some a) (some b)) =
        .error "ValueError: Cannot use a negative limit") ∧
    (∀ (store : QSStore) (self : SQLQuerySet) (a : Int), 0 ≤ a →
      SQLQuerySet.getitem store self (.slice (some a) (some 0)) =
        .ok (store ++ [(qsFresh store,
          { self with limit_count := 0, query_offset := a })], qsFresh store)) ∧
    (∀ (store : QSStore) (self : SQLQuerySet) (a : Int), a < 0 →
      SQLQuerySet.getitem store self (.slice (some a) Option.none) =
        .error "ValueError: Cannot use a negative offset") := by
  refine ⟨?_, ?_, ?_, ?_, ?_, ?_⟩
  · intro store self n hn
    simp only [SQLQuerySet.getitem]
    rw [if_neg (by omega), if_neg (by omega)]
    rfl
  · intro store self n hn
    simp only [SQLQuerySet.getitem]
    rw [if_pos hn]
  · intro store self a b ha hb hab
    simp only [SQLQuerySet.getitem]
    rw [if_pos hb]
    simp only []
    rw [if_neg (by omega), if_neg (by omega)]
    rfl
  · intro store self a b ha hb hba
    simp only [SQLQuerySet.getitem]
    rw [if_pos hb]
    simp only []
    rw [if_neg (by omega), if_pos hba]
  · intro store self a ha
    simp only [SQLQuerySet.getitem]
    rw [if_neg (by omega)]
    simp only []
    rw [if_neg (by omega), if_neg (by omega)]
    rfl
  · intro store self a ha
    simp only [SQLQuerySet.getitem]
    rw [if_pos ha]

/-- C9 witness: `qs[3]`, `qs[-1]`, `qs[1:4]` and `qs[4:1]` behave as the
amended claim states. -/
theorem queryset_getitem_spec_witness :
    SQLQuerySet.getitem [] (⟨"m", PyVal.none, [], [], false, [], [], 0, 0⟩ :
        SQLQuerySet) (.int 3) =
      .ok ([(1, ⟨"m", PyVal.none, [], [], false, [], [], 1, 3⟩)], 1) ∧
    SQLQuerySet.getitem ([] : QSStore)
        ⟨"m", PyVal.none, [], [], false, [], [], 0, 0⟩ (.int (-1)) =
      .error "ValueError: Cannot use a negative offset" ∧
    SQLQuerySet.getitem ([] : QSStore)
        ⟨"m", PyVal.none, [], [], false, [], [], 0, 0⟩
        (.slice (some 1) (some 4)) =
      .ok ([(1, ⟨"m", PyVal.none, [], [], false, [], [], 3, 1⟩)], 1) ∧
    SQLQuerySet.getitem ([] : QSStore)
        ⟨"m", PyVal.none, [], [], false, [], [], 0, 0⟩
        (.slice (some 4) (some 1)) =
      .error "ValueError: Cannot use a negative limit" := by
  refine ⟨?_, ?_, ?_, ?_⟩
  · exact queryset_getitem_spec.1 [] _ 3 (by decide)
  · exact queryset_getitem_spec.2.1 [] _ (-1) (by decide)
  · exact queryset_getitem_spec.2.2.1 [] _ 1 4 (by decide) (by decide) (by decide)
  · exact queryset_getitem_spec.2.2.2.1 [] _ 4 1 (by decide) (by decide) (by decide)

/-- C9 counterexample: by the original claim `qs[2:0]` has limit
`stop - start = -2 < 0` and must raise a configuration error, but the
source's `if key.stop` is falsy for `0`, so the call succeeds and returns
a clone with offset `2` and limit `0`. -/
theorem queryset_getitem_counterexample :
    SQLQuerySet.getitem ([] : QSStore)
        ⟨"m", PyVal.none, [], [], false, [], [], 0, 0⟩
        (.slice (some 2) (some 0)) =
      .ok ([(1, ⟨"m", PyVal.none, [], [], false, [], [], 0, 2⟩)], 1) := by rfl

/-! ### C4: `get` -/

/-- C4: `SQLQuerySet.get` fetches at most one row: when no row matches the
select (with the queryset's filters, offset and limit applied) it returns
`None` — an explicit not-found result, not an error — and otherwise it
returns the model restored from the first fetched row.  No hypothesis
mentions how many rows match: the result depends only on the first row of
the query's results, so zero or several matches never raise by
themselves. -/
theorem sql_get_first_or_none (reg : Registry) (sc : SQLClassR)
    (table : List Row) (cache : SQLCache) (self : SQLQuerySet) (force : Bool)
    (us : UState) :
    (sqlFetchone table (SQLQuerySet.query self) = Option.none →
      SQLQuerySet.get reg sc table cache self force us =
        ((.ok Option.none, cache), us)) ∧
    (∀ row obj cache2 us2,
      sqlFetchone table (SQLQuerySet.query self) = some row →
      SQLModel_restore reg sc cache row force us = ((.ok obj, cache2), us2) →
      SQLQuerySet.get reg sc table cache self force us =
        ((.ok (some obj), cache2), us2)) ∧
    (∀ table2 : List Row,
      sqlFetchone table (SQLQuerySet.query self) =
        sqlFetchone table2 (SQLQuerySet.query self) →
      SQLQuerySet.get reg sc table cache self force us =
        SQLQuerySet.get reg sc table2 cache self force us) := by
  refine ⟨?_, ?_, ?_⟩
  · intro h
    simp only [SQLQuerySet.get, h]
  · intro row obj cache2 us2 h hr
    simp only [SQLQuerySet.get, h, hr]
  · intro table2 h
    simp only [SQLQuerySet.get, h]

/-- C4 witness: a table in which two rows match the (unfiltered) query —
`get` returns the instance for the first row and no error is raised. -/
theorem sql_get_first_or_none_witness :
    SQLQuerySet.get []
      ⟨"m", "_id", [("x", Option.none)], ⟨["x"], [("x", PyVal.int 0)], [], "log"⟩⟩
      [[("_id", PyVal.int 1), ("x", PyVal.int 5)],
        [("_id", PyVal.int 1), ("x", PyVal.int 6)]]
      [(PyVal.int 1, ⟨"m", "", "", true, [("x", PyVal.int 5)]⟩)]
      ⟨"m", PyVal.none, [], [], false, [], [], 0, 0⟩ false ⟨[], []⟩ =
      ((.ok (some ⟨"m", "", "", true, [("x", PyVal.int 5)]⟩),
        [(PyVal.int 1, ⟨"m", "", "", true, [("x", PyVal.int 5)]⟩)]), ⟨[], []⟩) :=
  (sql_get_first_or_none []
    ⟨"m", "_id", [("x", Option.none)], ⟨["x"], [("x", PyVal.int 0)], [], "log"⟩⟩
    [[("_id", PyVal.int 1), ("x", PyVal.int 5)],
      [("_id", PyVal.int 1), ("x", PyVal.int 6)]]
    [(PyVal.int 1, ⟨"m", "", "", true, [("x", PyVal.int 5)]⟩)]
    ⟨"m", PyVal.none, [], [], false, [], [], 0, 0⟩ false ⟨[], []⟩).2.1
    [("_id", PyVal.int 1), ("x", PyVal.int 5)]
    ⟨"m", "", "", true, [("x", PyVal.int 5)]⟩
    [(PyVal.int 1, ⟨"m", "", "", true, [("x", PyVal.int 5)]⟩)] ⟨[], []⟩
    (by rfl) (by rfl)


/-! ### `save`: dictionary bookkeeping lemmas -/

/-- C7: for an instance whose primary key is unset (`self._id` falsy) and
`force_update` not given, `save` emits an insert whose payload drops the
pk column, assigns the backend-generated key — `lastrowid` when the
result has one, else the returned scalar — onto the instance's `_id`,
registers the instance in the per-class identity cache under that key,
and marks the instance restored. -/
theorem save_insert_assigns_key (cd : SQLClassDesc) (self : SQLInst)
    (cache : InstCache) (force_insert : Bool)
    (update_fields : Option (List String)) (r : ExecResult) (k : Int)
    (P : List (String × PyVal))
    (hid : idTruthy self.id = false)
    (hk : genKey r = some k)
    (hP : savePayload cd self = .ok P) :
    sqlSave cd self cache force_insert false update_fields r =
      .ok (.insert (eraseKey cd.pk P),
        { self with id := some k, restored := true },
        instCacheSet (some k) { self with id := some k, restored := true }
          cache) := by
  simp only [sqlSave, hP]
  rw [if_neg (by simp)]
  rw [if_neg (by simp [hid])]
  simp [hid, hk]

/-- C7 witness: an unsaved instance inserted against a backend reply with
`lastrowid = 5` ends with `_id = 5`, cached under `5` and restored. -/
theorem save_insert_assigns_key_witness :
    sqlSave ⟨"m", "_id", [("a", ⟨false, Option.none⟩)], ["a"]⟩
      ⟨"r0", Option.none, false, [("a", PyVal.pmodel "n" "" "9" true [])]⟩
      [] false false Option.none ⟨some 5, Option.none, 1⟩ =
      .ok (.insert [("a", PyVal.str "9")],
        ⟨"r0", some 5, true, [("a", PyVal.pmodel "n" "" "9" true [])]⟩,
        [(some 5,
          ⟨"r0", some 5, true, [("a", PyVal.pmodel "n" "" "9" true [])]⟩)]) :=
  save_insert_assigns_key ⟨"m", "_id", [("a", ⟨false, Option.none⟩)], ["a"]⟩
    ⟨"r0", Option.none, false, [("a", PyVal.pmodel "n" "" "9" true [])]⟩
    [] false Option.none ⟨some 5, Option.none, 1⟩ 5 [("a", PyVal.str "9")]
    (by rfl) (by rfl) (by rfl)


end AtomDB
